import Mathlib

/-!
Verification development for the AI pipeline of backend/internal/ai/ai.go.

Go strings are immutable byte sequences; they are embedded as lists of bytes.
The functions of the Go standard library that the program calls
(`strings.Index`, `strings.ReplaceAll`, `strings.TrimSpace`, ...) are embedded
first, then the functions of `ai.go`, each under the name it has in the source.
-/

namespace AlfaHack

/-! ## Go strings -/

/-- A Go string (or byte slice): a sequence of bytes. -/
abbrev Str := List UInt8

/-- The Go constant utf8.RuneError, U+FFFD. -/
def runeError : Char := Char.ofNat 0xFFFD

/-- Go utf8.EncodeRune for a valid rune: the UTF-8 bytes of one code point. -/
def encodeRune (c : Char) : Str :=
  let n := c.toNat
  if n < 0x80 then [UInt8.ofNat n]
  else if n < 0x800 then
    [UInt8.ofNat (0xC0 + n / 0x40), UInt8.ofNat (0x80 + n % 0x40)]
  else if n < 0x10000 then
    [UInt8.ofNat (0xE0 + n / 0x1000), UInt8.ofNat (0x80 + n / 0x40 % 0x40),
     UInt8.ofNat (0x80 + n % 0x40)]
  else
    [UInt8.ofNat (0xF0 + n / 0x40000), UInt8.ofNat (0x80 + n / 0x1000 % 0x40),
     UInt8.ofNat (0x80 + n / 0x40 % 0x40), UInt8.ofNat (0x80 + n % 0x40)]

/-- The bytes of a sequence of runes, as strings.Builder.WriteRune produces them. -/
def encodeRunes : List Char → Str
  | [] => []
  | c :: cs => encodeRune c ++ encodeRunes cs

/-- The bytes of a string literal of the source file (Go source is UTF-8). -/
def utf8 (s : String) : Str := encodeRunes s.data

/-- Go len(s): the number of bytes, as a Go int. -/
def len (s : Str) : Int := (s.length : Int)

/-- A UTF-8 continuation byte, 0x80..0xBF. -/
def isCont (b : UInt8) : Bool := decide (0x80 ≤ b.toNat) && decide (b.toNat ≤ 0xBF)

/-- Go utf8.DecodeRuneInString: the first rune of the string and its width in
bytes; (RuneError, 0) for the empty string and (RuneError, 1) for a byte that
does not start a well-formed encoding. -/
def decodeRune : Str → Char × Nat
  | [] => (runeError, 0)
  | b0 :: rest =>
    let x := b0.toNat
    if x < 0x80 then (Char.ofNat x, 1)
    else if x < 0xC2 then (runeError, 1)
    else if x < 0xE0 then
      match rest with
      | b1 :: _ =>
        if isCont b1 then (Char.ofNat (x % 0x20 * 0x40 + b1.toNat % 0x40), 2)
        else (runeError, 1)
      | _ => (runeError, 1)
    else if x < 0xF0 then
      match rest with
      | b1 :: b2 :: _ =>
        let lo := if x = 0xE0 then 0xA0 else 0x80
        let hi := if x = 0xED then 0x9F else 0xBF
        if decide (lo ≤ b1.toNat) && decide (b1.toNat ≤ hi) && isCont b2 then
          (Char.ofNat (x % 0x10 * 0x1000 + b1.toNat % 0x40 * 0x40 + b2.toNat % 0x40), 3)
        else (runeError, 1)
      | _ => (runeError, 1)
    else if x < 0xF5 then
      match rest with
      | b1 :: b2 :: b3 :: _ =>
        let lo := if x = 0xF0 then 0x90 else 0x80
        let hi := if x = 0xF4 then 0x8F else 0xBF
        if decide (lo ≤ b1.toNat) && decide (b1.toNat ≤ hi) && isCont b2 && isCont b3 then
          (Char.ofNat (x % 0x08 * 0x40000 + b1.toNat % 0x40 * 0x1000
            + b2.toNat % 0x40 * 0x40 + b3.toNat % 0x40), 4)
        else (runeError, 1)
      | _ => (runeError, 1)
    else (runeError, 1)

/-- The runes a Go range loop over the string yields: at each position the
decoded rune, then the loop advances by its width. The first argument counts
the bytes of the current rune still to be skipped. -/
def runesFrom : Nat → Str → List Char
  | _, [] => []
  | k + 1, _ :: t => runesFrom k t
  | 0, b :: t => (decodeRune (b :: t)).1 :: runesFrom ((decodeRune (b :: t)).2 - 1) t

/-- The runes of a string in order, ill-formed bytes read as RuneError. -/
def decodeRunes (s : Str) : List Char := runesFrom 0 s

/-- The Go predicate unicode.IsSpace. -/
def isSpace (r : Char) : Bool :=
  let n := r.toNat
  decide (0x09 ≤ n ∧ n ≤ 0x0D) || decide (n = 0x20) || decide (n = 0x85) || decide (n = 0xA0)
    || decide (n = 0x1680) || decide (0x2000 ≤ n ∧ n ≤ 0x200A) || decide (n = 0x2028)
    || decide (n = 0x2029) || decide (n = 0x202F) || decide (n = 0x205F) || decide (n = 0x3000)

/-- Go strings.TrimLeftFunc(s, unicode.IsSpace): drop leading runes while they
are white space. The first argument counts bytes of a white-space rune still
to be dropped. -/
def trimLeftFrom : Nat → Str → Str
  | _, [] => []
  | k + 1, _ :: t => trimLeftFrom k t
  | 0, b :: t =>
    if isSpace (decodeRune (b :: t)).1 then trimLeftFrom ((decodeRune (b :: t)).2 - 1) t
    else b :: t

/-- The number of bytes utf8.DecodeLastRuneInString hands to the decoder, read
off the reversed string: it steps back from the last byte to the nearest byte
that can start a rune, looking at no more than utf8.UTFMax = 4 bytes. -/
def lastRuneSpan (rev : Str) : Nat :=
  match rev with
  | [] => 0
  | [_] => 1
  | _ :: b1 :: rest =>
    if !isCont b1 then 2
    else match rest with
      | [] => 2
      | b2 :: rest2 =>
        if !isCont b2 then 3
        else match rest2 with
          | [] => 3
          | b3 :: rest3 =>
            if !isCont b3 then 4
            else match rest3 with
              | [] => 4
              | _ :: _ => 5

/-- Go utf8.DecodeLastRuneInString, on the reversed string: the last rune and
its width. -/
def decodeLastRune (rev : Str) : Char × Nat :=
  match rev with
  | [] => (runeError, 0)
  | b :: _ =>
    if b.toNat < 0x80 then (Char.ofNat b.toNat, 1)
    else
      let k := lastRuneSpan rev
      let d := decodeRune (rev.take k).reverse
      if d.2 = k then d else (runeError, 1)

/-- Go strings.TrimRightFunc(s, unicode.IsSpace), on the reversed string. -/
def trimRightFrom : Nat → Str → Str
  | _, [] => []
  | k + 1, _ :: t => trimRightFrom k t
  | 0, b :: t =>
    if isSpace (decodeLastRune (b :: t)).1 then
      trimRightFrom ((decodeLastRune (b :: t)).2 - 1) t
    else b :: t

/-- Go strings.TrimSpace: the string without leading and trailing Unicode
white space. -/
def strTrimSpace (s : Str) : Str :=
  (trimRightFrom 0 (trimLeftFrom 0 s).reverse).reverse

/-- Position of the first occurrence of sep in s, if there is one. -/
def findSub (sep : Str) : Str → Option Nat
  | [] => if sep.isPrefixOf [] then some 0 else none
  | b :: t => if sep.isPrefixOf (b :: t) then some 0 else (findSub sep t).map (· + 1)

/-- Go strings.Index: the byte index of the first occurrence of sep in s, or -1. -/
def strIndex (s sep : Str) : Int :=
  match findSub sep s with
  | some i => (i : Int)
  | none => -1

/-- Go strings.Contains. -/
def strContains (s sub : Str) : Bool := decide (strIndex s sub ≥ 0)

/-- Left-to-right replacement of the non-overlapping occurrences of old; the
first argument counts the bytes of the current occurrence still to be skipped. -/
def replaceFrom (old new : Str) : Nat → Str → Str
  | _, [] => []
  | k + 1, _ :: t => replaceFrom old new k t
  | 0, b :: t =>
    if old.isPrefixOf (b :: t) then new ++ replaceFrom old new (old.length - 1) t
    else b :: replaceFrom old new 0 t

/-- Go strings.ReplaceAll(s, old, new) for a non-empty old, which is what every
call in ai.go passes (a string literal). For an empty old Go inserts new around
every rune; that case does not occur and s is returned as it is. -/
def strReplaceAll (s old new : Str) : Str :=
  if old = [] then s else replaceFrom old new 0 s

/-- Go unicode.ToLower, restricted to the ranges that the keywords and data of
this program use: A..Z, the Latin-1 capitals U+00C0..U+00DE (without the sign
U+00D7) and the Cyrillic capitals U+0400..U+042F. Every other rune is returned
unchanged. -/
def toLowerRune (r : Char) : Char :=
  let n := r.toNat
  if 0x41 ≤ n ∧ n ≤ 0x5A then Char.ofNat (n + 32)
  else if 0xC0 ≤ n ∧ n ≤ 0xDE ∧ n ≠ 0xD7 then Char.ofNat (n + 32)
  else if 0x400 ≤ n ∧ n ≤ 0x40F then Char.ofNat (n + 80)
  else if 0x410 ≤ n ∧ n ≤ 0x42F then Char.ofNat (n + 32)
  else r

/-- Go strings.ToLower: every rune mapped to lower case and written back; an
ill-formed byte comes out as the encoding of RuneError. -/
def strToLower (s : Str) : Str := encodeRunes ((decodeRunes s).map toLowerRune)

/-- Go strings.HasSuffix. -/
def strEndsWith (s suffix : Str) : Bool := suffix.reverse.isPrefixOf s.reverse

/-- Go strings.TrimSuffix. -/
def strTrimEnd (s suffix : Str) : Str :=
  if strEndsWith s suffix then s.take (s.length - suffix.length) else s

/-- The pieces between the non-overlapping occurrences of sep; the first
argument counts the bytes of the current separator still to be skipped. -/
def splitFrom (sep : Str) : Nat → Str → List Str
  | _, [] => [[]]
  | k + 1, _ :: t => splitFrom sep k t
  | 0, b :: t =>
    if sep.isPrefixOf (b :: t) then [] :: splitFrom sep (sep.length - 1) t
    else match splitFrom sep 0 t with
      | [] => [[b]]
      | piece :: more => (b :: piece) :: more

/-- Go strings.Split(s, sep) for a non-empty sep (ai.go only splits on the
newline). -/
def strSplit (s sep : Str) : List Str := splitFrom sep 0 s

/-- Go strings.Join. -/
def strJoin : List Str → Str → Str
  | [], _ => []
  | [a], _ => a
  | a :: b :: rest, sep => a ++ sep ++ strJoin (b :: rest) sep

/-- Go fmt.Sprintf("%d", n) for an int. -/
def fmtInt (n : Int) : Str := utf8 (toString n)

/-! ## Output cleaning (ai.go, cleanAIResponse and removeRepeatingChars) -/

/-- The loop of removeRepeatingChars over the runes of the text, with the local
variables lastChar and count; the result is the sequence of runes written. -/
def removeRepeatingLoop (maxRepeat : Int) : List Char → Char → Int → List Char
  | [], _, _ => []
  | char :: rest, lastChar, count =>
    if char = lastChar then
      if count + 1 ≤ maxRepeat then
        char :: removeRepeatingLoop maxRepeat rest lastChar (count + 1)
      else removeRepeatingLoop maxRepeat rest lastChar (count + 1)
    else char :: removeRepeatingLoop maxRepeat rest char 1

/-- The function removeRepeatingChars of ai.go. The zero value of lastChar is
the rune 0 and count starts at 0. -/
def removeRepeatingChars (text : Str) (maxRepeat : Int) : Str :=
  if len text = 0 then text
  else encodeRunes (removeRepeatingLoop maxRepeat (decodeRunes text) (Char.ofNat 0) 0)

/-- The prompt markers cleanAIResponse looks for, in the order of the source. -/
def cleanMarkers : List Str :=
  [utf8 "НАЧНИ СВОЙ ОТВЕТ:",
   utf8 "ОТВЕТ:",
   utf8 "ВОПРОС ВЛАДЕЛЬЦА БИЗНЕСА:",
   utf8 "═══════════════════════════════════════════════════════"]

/-- One iteration of the marker loop of cleanAIResponse. -/
def stripMarker (text marker : Str) : Str :=
  let idx := strIndex text marker
  if idx > 0 then strTrimSpace (text.drop (idx + len marker).toNat) else text

/-- The function cleanAIResponse of ai.go. -/
def cleanAIResponse (text : Str) : Str :=
  if text = [] then []
  else
    let text := strTrimSpace text
    let text := removeRepeatingChars text 3
    let text := strReplaceAll text (utf8 "[INST]") []
    let text := strReplaceAll text (utf8 "[/INST]") []
    let text := strReplaceAll text (utf8 "<s>") []
    let text := strReplaceAll text (utf8 "</s>") []
    let text := cleanMarkers.foldl stripMarker text
    let text := strReplaceAll text (utf8 "\n\n\n") (utf8 "\n\n")
    let text := strReplaceAll text (utf8 "\r\n\r\n\r\n") (utf8 "\r\n\r\n")
    let text := strReplaceAll text (utf8 "  ") (utf8 " ")
    strTrimSpace text


/-! ## Heuristic responder (ai.go, generateSimpleResponse and its helpers) -/

/-- The function extractLinesContaining of ai.go: the lines of the text whose
lower-case form contains one of the keywords. -/
def extractLinesContaining (text : Str) (keywords : List Str) : List Str :=
  (strSplit text (utf8 "\n")).filter fun line =>
    keywords.any fun keyword => strContains (strToLower line) (strToLower keyword)

/-- A loop of the form
for i, line := range lines { if cond(i, line) { write("- " + TrimSpace(line) + "\n") } },
started at index i. -/
def bulletsFrom (keep : Nat → Str → Bool) : Nat → List Str → Str
  | _, [] => []
  | i, line :: rest =>
    (if keep i line then utf8 "- " ++ strTrimSpace line ++ utf8 "\n" else [])
      ++ bulletsFrom keep (i + 1) rest

/-- The inner loop of extractEmployeeInfo over lines[i .. i+5): the non-blank
lines, each followed by a newline. -/
def employeeBlock : List Str → Str
  | [] => []
  | l :: rest =>
    (if strTrimSpace l ≠ [] then l ++ utf8 "\n" else []) ++ employeeBlock rest

/-- The outer loop of extractEmployeeInfo over the lines from index i on, with
the local variables employeeCount and employees. -/
def employeeLoop : List Str → Int → List Str → Int × List Str
  | [], employeeCount, employees => (employeeCount, employees)
  | line :: rest, employeeCount, employees =>
    let lineLower := strToLower line
    if strContains lineLower (utf8 "сотрудник") || strContains lineLower (utf8 "работник") then
      let employeeInfo := employeeBlock ((line :: rest).take 5)
      let employees :=
        if len employeeInfo < 300 then employees ++ [employeeInfo] else employees
      if len3 employees then (employeeCount + 1, employees)
      else employeeLoop rest (employeeCount + 1) employees
    else employeeLoop rest employeeCount employees
where
  /-- The test len(employees) >= 3. -/
  len3 (employees : List Str) : Bool := decide (employees.length ≥ 3)

/-- The rendering loop of extractEmployeeInfo: the blocks with index below 2. -/
def employeeEntries : Nat → List Str → Str
  | _, [] => []
  | i, emp :: rest =>
    (if i < 2 then utf8 "\n**Сотрудник " ++ fmtInt (i + 1) ++ utf8 ":**\n" ++ emp else [])
      ++ employeeEntries (i + 1) rest

/-- The function extractEmployeeInfo of ai.go. -/
def extractEmployeeInfo (text : Str) : Str :=
  let lines := strSplit text (utf8 "\n")
  let st := employeeLoop lines 0 []
  if st.1 > 0 then
    utf8 "**Найдено информации о сотрудниках:**\n"
      ++ utf8 "- Всего сотрудников: найдено упоминаний\n"
      ++ employeeEntries 0 st.2
      ++ utf8 "\n"
  else []

/-- The look-ahead loop of extractGrowthInfo,
for j := i; j < len(lines) && j < i+3; j++ { if Contains(ToLower(lines[j]), kw) { v = TrimSpace(lines[j]); break } },
over the window lines[i .. i+3): the new value of the variable v. -/
def lookAhead (kw : Str) (v : Str) : List Str → Str
  | [] => v
  | l :: rest => if strContains (strToLower l) kw then strTrimSpace l else lookAhead kw v rest

/-- The four variables of the period comparison in extractGrowthInfo. -/
structure Periods where
  novemberProfit : Str
  decemberProfit : Str
  novemberRevenue : Str
  decemberRevenue : Str
deriving DecidableEq, Repr

/-- The loop of extractGrowthInfo over the lines from index i on. -/
def periodLoop : List Str → Periods → Periods
  | [], p => p
  | line :: rest, p =>
    let lineLower := strToLower line
    let window := (line :: rest).take 3
    let p :=
      if strContains lineLower (utf8 "ноябрь") then
        let p :=
          if strContains lineLower (utf8 "прибыль") then
            { p with novemberProfit := lookAhead (utf8 "прибыль") p.novemberProfit window }
          else p
        if strContains lineLower (utf8 "выручка") then
          { p with novemberRevenue := lookAhead (utf8 "выручка") p.novemberRevenue window }
        else p
      else p
    let p :=
      if strContains lineLower (utf8 "декабрь") then
        let p :=
          if strContains lineLower (utf8 "прибыль") then
            { p with decemberProfit := lookAhead (utf8 "прибыль") p.decemberProfit window }
          else p
        if strContains lineLower (utf8 "выручка") then
          { p with decemberRevenue := lookAhead (utf8 "выручка") p.decemberRevenue window }
        else p
      else p
    periodLoop rest p

/-- The function extractGrowthInfo of ai.go. -/
def extractGrowthInfo (text : Str) : Str :=
  let textLower := strToLower text
  let growth :=
    if strContains textLower (utf8 "рост") then
      let growthLines := extractLinesContaining text
        [utf8 "рост", utf8 "вырос", utf8 "увеличил", utf8 "сравнение"]
      if growthLines.length > 0 then
        utf8 "📈 **Анализ роста:**\n\n"
          ++ bulletsFrom (fun i line => decide (i < 5) && decide (len line > 0)
              && decide (len line < 200)) 0 growthLines
          ++ utf8 "\n"
      else []
    else []
  let periods :=
    if strContains textLower (utf8 "ноябрь") && strContains textLower (utf8 "декабрь") then
      let lines := strSplit text (utf8 "\n")
      let p := periodLoop lines ⟨[], [], [], []⟩
      let profit :=
        if p.novemberProfit ≠ [] ∨ p.decemberProfit ≠ [] then
          utf8 "**Прибыль:**\n"
            ++ (if p.novemberProfit ≠ [] then utf8 "Ноябрь: " ++ p.novemberProfit ++ utf8 "\n"
                else [])
            ++ (if p.decemberProfit ≠ [] then utf8 "Декабрь: " ++ p.decemberProfit ++ utf8 "\n"
                else [])
            ++ utf8 "\n"
        else []
      let revenue :=
        if p.novemberRevenue ≠ [] ∨ p.decemberRevenue ≠ [] then
          utf8 "**Выручка:**\n"
            ++ (if p.novemberRevenue ≠ [] then utf8 "Ноябрь: " ++ p.novemberRevenue ++ utf8 "\n"
                else [])
            ++ (if p.decemberRevenue ≠ [] then utf8 "Декабрь: " ++ p.decemberRevenue ++ utf8 "\n"
                else [])
            ++ utf8 "\n"
        else []
      let growthLines := extractLinesContaining text
        [utf8 "рост", utf8 "вырос", utf8 "увеличил", utf8 "+"]
      let dynamics :=
        if growthLines.length > 0 then
          utf8 "**Динамика:**\n"
            ++ bulletsFrom (fun i line => decide (i < 3) && decide (len line < 150)) 0 growthLines
            ++ utf8 "\n"
        else []
      utf8 "📊 **Сравнение периодов:**\n\n" ++ profit ++ revenue ++ dynamics
    else []
  let result := growth ++ periods
  if len result = 0 then [] else result

/-- One group of extractFinancialInfo: a heading and up to five bullet lines. -/
def financialGroup (text : Str) (heading : Str) (keywords : List Str) : Str :=
  let found := extractLinesContaining text keywords
  if found.length > 0 then
    heading
      ++ bulletsFrom (fun i line => decide (i < 5) && decide (len line > 0)
          && decide (len line < 200)) 0 found
      ++ utf8 "\n"
  else []

/-- The function extractFinancialInfo of ai.go. -/
def extractFinancialInfo (text : Str) (messageLower : Str) : Str :=
  let result := utf8 "📊 **Финансовый анализ:**\n\n"
    ++ (if strContains messageLower (utf8 "прибыль") then
          financialGroup text (utf8 "**Прибыль:**\n") [utf8 "прибыль", utf8 "чистая прибыль"]
        else [])
    ++ (if strContains messageLower (utf8 "выручка") || strContains messageLower (utf8 "доход") then
          financialGroup text (utf8 "**Выручка:**\n")
            [utf8 "выручка", utf8 "общая выручка", utf8 "доход"]
        else [])
    ++ (if strContains messageLower (utf8 "расход") then
          financialGroup text (utf8 "**Расходы:**\n") [utf8 "расход", utf8 "затрат"]
        else [])
  if len result < 50 then [] else result

/-- The test len(line) > 0 && len(line) < 200 of the financial bullet loops. -/
def shortLine (line : Str) : Bool := decide (len line > 0) && decide (len line < 200)

/-- The financial section of generateSimpleResponse (the first if statement). -/
def financialSection (category messageLower : Str) (fileContents : List Str)
    (allFileText allFileTextLower : Str) : Str :=
  if category = utf8 "financial" || strContains messageLower (utf8 "прибыль")
      || strContains messageLower (utf8 "выручка") || strContains messageLower (utf8 "доход")
      || strContains messageLower (utf8 "расход") then
    utf8 "📊 **Финансовый анализ:**\n\n" ++
    (if fileContents.length > 0 then
      (if strContains allFileTextLower (utf8 "прибыль") then
        let profitLines := extractLinesContaining allFileText
          [utf8 "прибыль", utf8 "чистая прибыль"]
        if profitLines.length > 0 then
          utf8 "**Анализ прибыли:**\n"
            ++ bulletsFrom (fun _ line => shortLine line) 0 profitLines ++ utf8 "\n"
        else []
      else [])
      ++ (if strContains allFileTextLower (utf8 "выручка") then
        let revenueLines := extractLinesContaining allFileText
          [utf8 "выручка", utf8 "общая выручка"]
        if revenueLines.length > 0 then
          utf8 "**Анализ выручки:**\n"
            ++ bulletsFrom (fun _ line => shortLine line) 0 revenueLines ++ utf8 "\n"
        else []
      else [])
      ++ (if strContains allFileTextLower (utf8 "рост") then
        let growthLines := extractLinesContaining allFileText [utf8 "рост", utf8 "увеличил"]
        if growthLines.length > 0 then
          utf8 "**Динамика роста:**\n"
            ++ bulletsFrom (fun i line => decide (i < 3) && shortLine line) 0 growthLines
            ++ utf8 "\n"
        else []
      else [])
      ++ (if !strContains allFileTextLower (utf8 "прибыль")
            && !strContains allFileTextLower (utf8 "выручка") then
        utf8 "Я проанализировал ваши файлы, но не нашел детальной финансовой информации.\n"
          ++ utf8 "Пожалуйста, загрузите файлы с отчетами о продажах для более точного анализа.\n\n"
      else [])
    else
      utf8 "Для анализа финансовых данных загрузите файлы с отчетами о продажах.\n\n")
  else []

/-- The staff section of generateSimpleResponse (the second if statement). -/
def hrSection (category messageLower : Str) (fileContents : List Str)
    (allFileText allFileTextLower : Str) : Str :=
  if category = utf8 "hr" || strContains messageLower (utf8 "сотрудник")
      || strContains messageLower (utf8 "работник")
      || strContains messageLower (utf8 "персонал") then
    utf8 "👥 **Информация о персонале:**\n\n" ++
    (if fileContents.length > 0 then
      if strContains allFileTextLower (utf8 "сотрудник")
          || strContains allFileTextLower (utf8 "работник") then
        let employeeInfo := extractEmployeeInfo allFileText
        if len employeeInfo > 0 then employeeInfo
        else utf8 "В загруженных файлах найдена информация о сотрудниках, но требуется более детальный анализ.\n\n"
      else
        utf8 "В загруженных файлах не найдена информация о сотрудниках.\n"
          ++ utf8 "Загрузите файл с данными о персонале для получения подробной информации.\n\n"
    else
      utf8 "Загрузите файл с информацией о сотрудниках для работы с данными о персонале.\n\n")
  else []

/-- The legal section of generateSimpleResponse (the third if statement). -/
def legalSection (category : Str) : Str :=
  if category = utf8 "legal" then
    utf8 "⚖️ **Юридический вопрос:**\n\n"
      ++ utf8 "Для точных ответов на юридические вопросы рекомендую проконсультироваться с юристом.\n"
      ++ utf8 "Я могу помочь с общими вопросами, но не могу давать юридические консультации.\n\n"
  else []

/-- The branch of the default section for a growth question whose
extractGrowthInfo is empty. -/
def manualGrowth (allFileText allFileTextLower : Str) : Str :=
  if strContains allFileTextLower (utf8 "ноябрь")
      && strContains allFileTextLower (utf8 "декабрь") then
    utf8 "📈 **Анализ роста:**\n\n"
      ++ utf8 "Найдены данные за ноябрь и декабрь. Сравниваю показатели...\n\n"
      ++ (if strContains allFileTextLower (utf8 "прибыль") then
            bulletsFrom (fun i line => decide (i < 3) && decide (len line < 150)) 0
              (extractLinesContaining allFileText [utf8 "прибыль", utf8 "чистая прибыль"])
              ++ utf8 "\n"
          else [])
      ++ (if strContains allFileTextLower (utf8 "выручка") then
            bulletsFrom (fun i line => decide (i < 3) && decide (len line < 150)) 0
              (extractLinesContaining allFileText [utf8 "выручка", utf8 "общая выручка"])
              ++ utf8 "\n"
          else [])
  else
    utf8 "Проанализировал ваши файлы. Для точного ответа о росте загрузите отчеты за разные периоды.\n\n"

/-- The default section of generateSimpleResponse (the fourth if statement,
for an empty category or marketing). -/
def defaultSection (category messageLower : Str) (fileContents : List Str)
    (allFileText allFileTextLower : Str) : Str :=
  if category = [] || category = utf8 "marketing" then
    if fileContents.length > 0 then
      let hasFinancialQuestion := strContains messageLower (utf8 "прибыль")
        || strContains messageLower (utf8 "выручка")
        || strContains messageLower (utf8 "доход")
        || strContains messageLower (utf8 "расход")
        || strContains messageLower (utf8 "продаж")
      let hasEmployeeQuestion := strContains messageLower (utf8 "сотрудник")
        || strContains messageLower (utf8 "работник")
        || strContains messageLower (utf8 "персонал")
      let hasGrowthQuestion := strContains messageLower (utf8 "как")
        && (strContains messageLower (utf8 "вырос") || strContains messageLower (utf8 "рост"))
      if hasFinancialQuestion then
        let financialInfo := extractFinancialInfo allFileText messageLower
        if financialInfo ≠ [] then financialInfo
        else
          utf8 "📊 **Финансовый анализ:**\n\n"
            ++ utf8 "Я проанализировал ваши файлы, но не нашел точной информации по вашему вопросу.\n"
            ++ utf8 "Попробуйте задать вопрос более конкретно, например:\n"
            ++ utf8 "- Какая прибыль в ноябре?\n"
            ++ utf8 "- Сколько выручки в декабре?\n\n"
      else if hasEmployeeQuestion then
        let employeeInfo := extractEmployeeInfo allFileText
        if employeeInfo ≠ [] then employeeInfo
        else
          utf8 "👥 **Информация о персонале:**\n\n"
            ++ utf8 "В ваших файлах найдена информация о сотрудниках.\n"
            ++ utf8 "Задайте конкретный вопрос, например:\n"
            ++ utf8 "- Сколько у меня сотрудников?\n"
            ++ utf8 "- Какая зарплата у бариста?\n\n"
      else if hasGrowthQuestion then
        let growthInfo := extractGrowthInfo allFileText
        if growthInfo ≠ [] then growthInfo
        else manualGrowth allFileText allFileTextLower
      else
        utf8 "Я проанализировал ваши файлы (" ++ fmtInt fileContents.length ++ utf8 " файлов). "
          ++ utf8 "Могу помочь с анализом данных о вашем бизнесе.\n\n"
          ++ (if strContains allFileTextLower (utf8 "прибыль")
                || strContains allFileTextLower (utf8 "выручка") then
                utf8 "✅ Найдены финансовые данные\n" else [])
          ++ (if strContains allFileTextLower (utf8 "сотрудник")
                || strContains allFileTextLower (utf8 "работник") then
                utf8 "✅ Найдена информация о персонале\n" else [])
          ++ (if strContains allFileTextLower (utf8 "ноябрь")
                || strContains allFileTextLower (utf8 "декабрь") then
                utf8 "✅ Найдены отчеты за периоды\n" else [])
          ++ utf8 "\n**Задайте конкретный вопрос, например:**\n"
          ++ utf8 "- Как выросла прибыль?\n"
          ++ utf8 "- Сколько у меня сотрудников?\n"
          ++ utf8 "- Какая выручка в декабре?\n\n"
    else
      utf8 "Для более точных ответов загрузите файлы с данными о вашем бизнесе.\n\n"
        ++ utf8 "**Рекомендуемые файлы:**\n"
        ++ utf8 "- Отчеты о продажах\n"
        ++ utf8 "- Информация о сотрудниках\n"
        ++ utf8 "- Финансовые отчеты\n\n"
  else []

/-- The closing block of generateSimpleResponse about the business. -/
def businessFooter (businessName specialization : Str) : Str :=
  if businessName ≠ [] ∨ specialization ≠ [] then
    utf8 "**Информация о вашем бизнесе:**\n"
      ++ (if businessName ≠ [] then utf8 "- Название: " ++ businessName ++ utf8 "\n" else [])
      ++ (if specialization ≠ [] then utf8 "- Специализация: " ++ specialization ++ utf8 "\n"
          else [])
      ++ utf8 "\n"
  else []

set_option linter.unusedVariables false in
/-- The function generateSimpleResponse of ai.go: the text written to the
response builder, section after section. The source does not use its parameter
username either. -/
def generateSimpleResponse (message category username businessName specialization : Str)
    (fileContents : List Str) : Str :=
  let messageLower := strToLower message
  let allFileText := strJoin fileContents (utf8 "\n\n")
  let allFileTextLower := strToLower allFileText
  financialSection category messageLower fileContents allFileText allFileTextLower
    ++ hrSection category messageLower fileContents allFileText allFileTextLower
    ++ legalSection category
    ++ defaultSection category messageLower fileContents allFileText allFileTextLower
    ++ businessFooter businessName specialization

/-! ## Prompt builder (ai.go, buildPrompt) -/

/-- The map categoryNames of buildPrompt, as a lookup. -/
def categoryNames (category : Str) : Option Str :=
  if category = utf8 "financial" then some (utf8 "💰 Финансовый анализ")
  else if category = utf8 "legal" then some (utf8 "⚖️ Юридические вопросы")
  else if category = utf8 "hr" then some (utf8 "👥 Управление персоналом")
  else if category = utf8 "marketing" then some (utf8 "📢 Маркетинг и продвижение")
  else if category = utf8 "growth" then some (utf8 "📈 Рост и развитие бизнеса")
  else if category = utf8 "reports" then some (utf8 "📊 Анализ отчетов и данных")
  else none

/-- Go strings.Repeat("-", 55). -/
def dashes55 : Str := List.replicate 55 (UInt8.ofNat 0x2D)

/-- The loop of buildPrompt over the file texts, started at index i. -/
def promptFiles : Nat → List Str → Str
  | _, [] => []
  | i, content :: rest =>
    utf8 "\n[Файл " ++ fmtInt (i + 1) ++ utf8 "]\n" ++ content
      ++ (utf8 "\n" ++ dashes55 ++ utf8 "\n") ++ promptFiles (i + 1) rest

/-- The line of buildPrompt that names the business in requirement 3. -/
def promptSpecifics (username businessName specialization : Str) : Str :=
  if username ≠ [] ∨ businessName ≠ [] ∨ specialization ≠ [] then
    utf8 "   - Учитывай специфику "
      ++ (if username ≠ [] then utf8 "бизнеса владельца " ++ username else [])
      ++ (if businessName ≠ [] then
            if username ≠ [] then utf8 " (\"" ++ businessName ++ utf8 "\")"
            else utf8 "бизнеса \"" ++ businessName ++ utf8 "\""
          else [])
      ++ (if specialization ≠ [] then
            if username ≠ [] ∨ businessName ≠ [] then utf8 " в сфере " ++ specialization
            else utf8 "бизнеса в сфере " ++ specialization
          else [])
      ++ utf8 "\n\n"
  else utf8 "   - Учитывай специфику малого бизнеса\n\n"

/-- The function buildPrompt of ai.go. -/
def buildPrompt (message category username businessName specialization : Str)
    (fileContents : List Str) : Str :=
  utf8 "Ты - профессиональный бизнес-консультант с опытом работы с малым бизнесом. Твоя задача - давать конкретные, практические и полезные советы на основе реальных данных.\n\n"
    ++ (if username ≠ [] then utf8 "ВЛАДЕЛЕЦ БИЗНЕСА: " ++ username ++ utf8 "\n" else [])
    ++ (if businessName ≠ [] then utf8 "НАЗВАНИЕ БИЗНЕСА: " ++ businessName ++ utf8 "\n" else [])
    ++ (if specialization ≠ [] then
          utf8 "СПЕЦИАЛИЗАЦИЯ БИЗНЕСА: " ++ specialization ++ utf8 "\n" else [])
    ++ (if username ≠ [] ∨ businessName ≠ [] ∨ specialization ≠ [] then utf8 "\n" else [])
    ++ (if fileContents.length > 0 then
          utf8 "═══════════════════════════════════════════════════════\n"
            ++ utf8 "ДОСТУПНЫЕ ДАННЫЕ О БИЗНЕСЕ:\n"
            ++ utf8 "═══════════════════════════════════════════════════════\n"
            ++ promptFiles 0 fileContents
            ++ utf8 "\n⚠️ КРИТИЧЕСКИ ВАЖНО: Внимательно изучи ВСЕ данные из файлов выше перед формированием ответа!\n\n"
        else
          utf8 "⚠️ ВНИМАНИЕ: Файлы с данными о бизнесе не загружены.\n"
            ++ utf8 "Если вопрос требует данных из файлов, вежливо попроси пользователя загрузить их.\n\n")
    ++ (if category ≠ [] then
          match categoryNames category with
          | some name => utf8 "КАТЕГОРИЯ ВОПРОСА: " ++ name ++ utf8 "\n\n"
          | none => []
        else [])
    ++ (utf8 "ВОПРОС ВЛАДЕЛЬЦА БИЗНЕСА:\n" ++ message ++ utf8 "\n\n")
    ++ utf8 "═══════════════════════════════════════════════════════\n"
    ++ utf8 "ТРЕБОВАНИЯ К ОТВЕТУ:\n"
    ++ utf8 "═══════════════════════════════════════════════════════\n\n"
    ++ utf8 "1. КОНКРЕТНОСТЬ:\n"
    ++ utf8 "   - Используй ТОЧНЫЕ цифры, имена, даты из файлов\n"
    ++ utf8 "   - Приводи примеры из загруженных данных\n"
    ++ utf8 "   - Избегай общих фраз без привязки к данным\n\n"
    ++ utf8 "2. СТРУКТУРИРОВАННОСТЬ:\n"
    ++ utf8 "   - Начни с краткого вывода/резюме\n"
    ++ utf8 "   - Используй списки и пункты для читаемости\n"
    ++ utf8 "   - Выделяй ключевые моменты\n\n"
    ++ utf8 "3. ПРАКТИЧНОСТЬ:\n"
    ++ utf8 "   - Давай конкретные рекомендации, которые можно применить\n"
    ++ utf8 "   - Предлагай шаги для решения проблемы\n"
    ++ promptSpecifics username businessName specialization
    ++ utf8 "4. АНАЛИТИЧНОСТЬ:\n"
    ++ utf8 "   - Сравнивай данные между периодами/категориями\n"
    ++ utf8 "   - Выявляй тренды и закономерности\n"
    ++ utf8 "   - Указывай на проблемы и возможности\n\n"
    ++ utf8 "5. ПРОФЕССИОНАЛИЗМ:\n"
    ++ utf8 "   - Пиши деловым, но понятным языком\n"
    ++ utf8 "   - Избегай шаблонных фраз\n"
    ++ utf8 "   - Будь честным: если данных недостаточно, скажи об этом\n\n"
    ++ utf8 "6. ФОРМАТ:\n"
    ++ utf8 "   - Отвечай ТОЛЬКО на русском языке\n"
    ++ utf8 "   - Используй абзацы для структуры\n"
    ++ utf8 "   - НЕ повторяй вопрос в начале ответа\n"
    ++ utf8 "   - Начинай сразу с сути\n\n"
    ++ utf8 "═══════════════════════════════════════════════════════\n"
    ++ utf8 "НАЧНИ СВОЙ ОТВЕТ:\n"
    ++ utf8 "═══════════════════════════════════════════════════════\n"

/-! ## Document extractor (ai.go, readFileContent and the Word and Excel readers) -/

/-- A Go error value: nil (none), or an error with its message. -/
abbrev GoError := Option Str

/-- Go fmt verb %v applied to an error value. -/
def fmtError : GoError → Str
  | none => utf8 "<nil>"
  | some msg => msg

/-- One entry of an opened ZIP archive (zip.File): its name and the bytes that
f.Open followed by io.ReadAll yields, none when either of them fails. -/
structure ZipEntry where
  Name : Str
  content : Option Str
deriving DecidableEq, Repr

/-- What the program reads from its surroundings: the file system, the process
environment and the provider. -/
structure Env where
  /-- Go os.ReadFile: the bytes of the file, or the message of the error. -/
  readFile : Str → Except Str Str
  /-- Go zip.OpenReader: the entries of the archive, or the message of the error. -/
  zipOpenReader : Str → Except Str (List ZipEntry)
  /-- Go os.Getenv. -/
  getenv : Str → Str
  /-- The outcome of tryOpenRouterModel (one HTTP exchange) for a model name,
  a prompt and an API key. -/
  tryOpenRouterModel : Str → Str → Str → Str × GoError

/-- The five ReplaceAll calls that decode XML entities, in the order of the source. -/
def decodeEntities (text : Str) : Str :=
  let text := strReplaceAll text (utf8 "&lt;") (utf8 "<")
  let text := strReplaceAll text (utf8 "&gt;") (utf8 ">")
  let text := strReplaceAll text (utf8 "&amp;") (utf8 "&")
  let text := strReplaceAll text (utf8 "&quot;") (utf8 "\"")
  strReplaceAll text (utf8 "&apos;") (utf8 "'")

/-- The loop of extractTextFromDocxXML on content[pos:]; every iteration moves
pos forward, and the first argument bounds the number of iterations. -/
def docxScan : Nat → Str → Str
  | 0, _ => []
  | fuel + 1, rest =>
    let startIdx := strIndex rest (utf8 "<w:t")
    if startIdx = -1 then []
    else
      let fromStart := rest.drop startIdx.toNat
      let closeIdx := strIndex fromStart (utf8 ">")
      if closeIdx = -1 then []
      else
        let fromClose := fromStart.drop (closeIdx + 1).toNat
        let endIdx := strIndex fromClose (utf8 "</w:t>")
        if endIdx = -1 then []
        else
          let text := decodeEntities (fromClose.take endIdx.toNat)
          (if strTrimSpace text ≠ [] then strTrimSpace text ++ utf8 " " else [])
            ++ docxScan fuel (fromClose.drop (endIdx + len (utf8 "</w:t>")).toNat)

/-- The function extractTextFromDocxXML of ai.go. -/
def extractTextFromDocxXML (xmlContent : Str) : Str :=
  docxScan (xmlContent.length + 1) xmlContent

/-- The loop of readDocxFile over the entries of the archive: the text written
to the result builder. -/
def docxEntries : List ZipEntry → Str
  | [] => []
  | f :: rest =>
    if f.Name = utf8 "word/document.xml" then
      match f.content with
      | none => docxEntries rest
      | some content => extractTextFromDocxXML content
    else docxEntries rest

/-- The end of readDocxFile, from text := result.String() on. -/
def docxResult (filePath text : Str) : Str × GoError :=
  if text = [] then
    (utf8 "[Word документ: " ++ filePath
      ++ utf8 ". Не удалось извлечь текст. Попробуйте сохранить файл как .txt]", none)
  else if len text > 15000 then
    (text.take 15000 ++ utf8 "\n\n[Текст обрезан, показаны первые 15000 символов]", none)
  else (text, none)

/-- The function readDocxFile of ai.go. -/
def readDocxFile (env : Env) (filePath : Str) : Str × GoError :=
  match env.zipOpenReader filePath with
  | .error err => ([], some (utf8 "ошибка открытия Word файла как ZIP: " ++ err))
  | .ok files => docxResult filePath (docxEntries files)

/-- The patterns of extractTextFromExcelXML. -/
def excelPatterns : List Str := [utf8 "<t>", utf8 "</t>", utf8 "<v>", utf8 "</v>"]

/-- The inner loop of extractTextFromExcelXML over the patterns from index i on,
with the local variables nextTag and tagType. -/
def nearestTag (rest : Str) : Nat → List Str → Int × Int → Int × Int
  | _, [], st => st
  | i, pattern :: more, (nextTag, tagType) =>
    let idx := strIndex rest pattern
    if idx ≠ -1 ∧ (nextTag = -1 ∨ idx < nextTag) then nearestTag rest (i + 1) more (idx, i)
    else nearestTag rest (i + 1) more (nextTag, tagType)

/-- The outer loop of extractTextFromExcelXML on content[pos:]; every iteration
moves pos forward, and the first argument bounds the number of iterations. -/
def excelScan : Nat → Str → Str
  | 0, _ => []
  | fuel + 1, rest =>
    if rest = [] then []
    else
      let found := nearestTag rest 0 excelPatterns (-1, -1)
      let nextTag := found.1
      let tagType := found.2
      if nextTag = -1 then []
      else
        let openTag := excelPatterns.getD tagType.toNat []
        let afterOpen := rest.drop (nextTag + len openTag).toNat
        if tagType = 0 ∨ tagType = 2 then
          let closeTag := excelPatterns.getD (tagType + 1).toNat []
          let closeIdx := strIndex afterOpen closeTag
          if closeIdx ≠ -1 then
            let text := decodeEntities (afterOpen.take closeIdx.toNat)
            (if strTrimSpace text ≠ [] then strTrimSpace text ++ utf8 " | " else [])
              ++ excelScan fuel (afterOpen.drop (closeIdx + len closeTag).toNat)
          else excelScan fuel afterOpen
        else excelScan fuel afterOpen

/-- The function extractTextFromExcelXML of ai.go. -/
def extractTextFromExcelXML (xmlContent : Str) : Str :=
  strTrimEnd (excelScan (xmlContent.length + 1) xmlContent) (utf8 " | ")

/-- The loop of readExcelFile over the entries of the archive: the text written
to the result builder. -/
def excelEntries : List ZipEntry → Str
  | [] => []
  | f :: rest =>
    if (utf8 "xl/sharedStrings.xml").isPrefixOf f.Name
        || (utf8 "xl/worksheets/sheet").isPrefixOf f.Name then
      match f.content with
      | none => excelEntries rest
      | some content =>
        let text := extractTextFromExcelXML content
        (if text ≠ [] then text ++ utf8 "\n" else []) ++ excelEntries rest
    else excelEntries rest

/-- The end of readExcelFile, from text := result.String() on. -/
def excelResult (filePath text : Str) : Str × GoError :=
  if text = [] then
    (utf8 "[Excel файл: " ++ filePath
      ++ utf8 ". Не удалось извлечь данные. Попробуйте экспортировать в .csv или .txt]", none)
  else if len text > 15000 then
    (text.take 15000 ++ utf8 "\n\n[Данные обрезаны, показаны первые 15000 символов]", none)
  else (text, none)

/-- The function readExcelFile of ai.go. -/
def readExcelFile (env : Env) (filePath : Str) : Str × GoError :=
  match env.zipOpenReader filePath with
  | .error err => ([], some (utf8 "ошибка открытия Excel файла как ZIP: " ++ err))
  | .ok files => excelResult filePath (excelEntries files)

/-- The local constant maxSize of readFileContent. -/
def maxSize : Int := 10000

/-- The end of readFileContent for a file that is read as plain bytes. -/
def plainResult (content : Str) : Str × GoError :=
  if len content > maxSize then
    (content.take maxSize.toNat
      ++ (utf8 "\n\n[Файл обрезан, показаны первые " ++ fmtInt maxSize ++ utf8 " символов]"), none)
  else (content, none)

/-- The function readFileContent of ai.go. -/
def readFileContent (env : Env) (filePath : Str) : Str × GoError :=
  let lowerPath := strToLower filePath
  if strEndsWith lowerPath (utf8 ".docx") then readDocxFile env filePath
  else if strEndsWith lowerPath (utf8 ".xlsx") || strEndsWith lowerPath (utf8 ".xls") then
    readExcelFile env filePath
  else
    match env.readFile filePath with
    | .error err => ([], some err)
    | .ok content => plainResult content

/-! ## Model gateway (ai.go, callOpenRouter and GenerateResponse) -/

/-- The list freeModels of callOpenRouter. -/
def freeModels : List Str :=
  [utf8 "mistralai/mistral-7b-instruct:free",
   utf8 "google/gemini-2.0-flash-exp:free",
   utf8 "meta-llama/llama-3.2-3b-instruct:free"]

/-- The loop of callOpenRouter over the models still to be tried, with the local
variable lastErr, followed by the return after the loop. The argument attempt
stands for the call of tryOpenRouterModel with the payload of that model. -/
def openRouterLoop (attempt : Str → Str × GoError) : List Str → GoError → Str × GoError
  | [], lastErr => ([], some (utf8 "все модели OpenRouter не сработали: " ++ fmtError lastErr))
  | modelName :: rest, _ =>
    let r := attempt modelName
    if r.2 = none ∧ r.1 ≠ [] then (r.1, none)
    else openRouterLoop attempt rest r.2

/-- The function callOpenRouter of ai.go. -/
def callOpenRouter (env : Env) (prompt apiKey : Str) : Str × GoError :=
  openRouterLoop (fun modelName => env.tryOpenRouterModel modelName prompt apiKey) freeModels none

/-- The fields of models.File that the pipeline reads. -/
structure File where
  ID : Str
  UserID : Str
  Filename : Str
  FilePath : Str
  FileType : Str
  FileSize : Int

/-- The first loop of GenerateResponse: the file blocks of the files that were
read without error and with non-empty content. -/
def readFiles (env : Env) : List File → List Str
  | [] => []
  | file :: rest =>
    let r := readFileContent env file.FilePath
    if r.2 ≠ none then readFiles env rest
    else if len r.1 > 0 then
      (utf8 "Файл: " ++ file.Filename ++ utf8 "\n" ++ r.1) :: readFiles env rest
    else readFiles env rest

/-- The function GenerateResponse of ai.go. -/
def GenerateResponse (env : Env) (message category username businessName specialization : Str)
    (files : List File) : Str × GoError :=
  let fileContents := readFiles env files
  let prompt := buildPrompt message category username businessName specialization fileContents
  let openRouterKey := env.getenv (utf8 "OPENROUTER_API_KEY")
  if openRouterKey = [] then
    (generateSimpleResponse message category username businessName specialization fileContents,
      none)
  else
    let r := callOpenRouter env prompt openRouterKey
    if r.2 = none ∧ r.1 ≠ [] ∧ cleanAIResponse r.1 ≠ [] then (cleanAIResponse r.1, none)
    else
      (generateSimpleResponse message category username businessName specialization
        fileContents, none)

/-! ## Sample surroundings used to exercise the theorems -/

/-- A provider attempt that always fails with a transport error. -/
def failingAttempt : Str → Str → Str → Str × GoError :=
  fun _ _ _ => ([], some (utf8 "dial tcp: i/o timeout"))

/-- Surroundings without a credential: one plain text file, no provider key. -/
def noKeyEnv : Env where
  readFile := fun path =>
    if path = utf8 "uploads/u1/sales.txt" then .ok (utf8 "Выручка: 5000\nПрибыль: 1200")
    else .error (utf8 "open: no such file or directory")
  zipOpenReader := fun _ => .error (utf8 "zip: not a valid zip file")
  getenv := fun _ => []
  tryOpenRouterModel := failingAttempt

/-- Surroundings with a credential and a provider whose every model fails. -/
def failingEnv : Env where
  readFile := fun _ => .error (utf8 "open: no such file or directory")
  zipOpenReader := fun _ => .error (utf8 "zip: not a valid zip file")
  getenv := fun name => if name = utf8 "OPENROUTER_API_KEY" then utf8 "sk-or-test" else []
  tryOpenRouterModel := failingAttempt

/-- Surroundings with a credential where the first model answers with the bare
token "<s>" and the second with a normal answer. -/
def tokenFirstEnv : Env where
  readFile := fun _ => .error (utf8 "open: no such file or directory")
  zipOpenReader := fun _ => .error (utf8 "zip: not a valid zip file")
  getenv := fun name => if name = utf8 "OPENROUTER_API_KEY" then utf8 "sk-or-test" else []
  tryOpenRouterModel := fun modelName _ _ =>
    if modelName = utf8 "mistralai/mistral-7b-instruct:free" then (utf8 "<s>", none)
    else if modelName = utf8 "google/gemini-2.0-flash-exp:free" then
      (utf8 "Увеличьте средний чек.", none)
    else ([], some (utf8 "rate limited"))

/-- The sample file record of the plain text file of noKeyEnv. -/
def salesFile : File where
  ID := utf8 "f1"
  UserID := utf8 "u1"
  Filename := utf8 "sales.txt"
  FilePath := utf8 "uploads/u1/sales.txt"
  FileType := utf8 "txt"
  FileSize := 41

/-- An attempt of callOpenRouter counts as a success when it returns no error
and a non-empty text (the test err == nil && result != ""). -/
def attemptOk (r : Str × GoError) : Bool := decide (r.2 = none) && decide (r.1 ≠ [])

/-- The winner named by the ordering rule of the specification (4.3): over the
outcomes of the models in list order, the cleaned text of the first attempt that
succeeded with a text that is non-empty after cleaning. -/
def firstUsable (outcomes : List (Str × GoError)) : Option Str :=
  (outcomes.find? fun r => decide (r.2 = none) && decide (cleanAIResponse r.1 ≠ [])).map
    fun r => cleanAIResponse r.1

/-- Surroundings whose plain text file holds 10,001 bytes (the letter a). -/
def longFileEnv : Env where
  readFile := fun _ => .ok (List.replicate 10001 (UInt8.ofNat 0x61))
  zipOpenReader := fun _ => .error (utf8 "zip: not a valid zip file")
  getenv := fun _ => []
  tryOpenRouterModel := failingAttempt

/-- Surroundings with one Word and one Excel archive. -/
def officeEnv : Env where
  readFile := fun _ => .error (utf8 "open: no such file or directory")
  zipOpenReader := fun path =>
    if path = utf8 "uploads/u1/plan.docx" then
      .ok [⟨utf8 "[Content_Types].xml", some (utf8 "<Types/>")⟩,
           ⟨utf8 "word/document.xml",
            some (utf8 "<w:document><w:p><w:r><w:t>План продаж</w:t></w:r></w:p></w:document>")⟩]
    else if path = utf8 "uploads/u1/staff.xlsx" then
      .ok [⟨utf8 "xl/sharedStrings.xml", some (utf8 "<sst><si><t>Бариста</t></si></sst>")⟩,
           ⟨utf8 "xl/worksheets/sheet1.xml", some (utf8 "<row><c><v>45000</v></c></row>")⟩]
    else .error (utf8 "zip: not a valid zip file")
  getenv := fun _ => []
  tryOpenRouterModel := failingAttempt

/-- An extracted text of n Cyrillic letters (the letter я, two bytes each). -/
def cyrillicText (n : Nat) : Str := encodeRunes (List.replicate n (Char.ofNat 0x44F))

/-- The notice of the financial section when no file is uploaded. -/
def financialNotice : Str :=
  utf8 "Для анализа финансовых данных загрузите файлы с отчетами о продажах.\n\n"

/-- The notice of the staff section when no file is uploaded. -/
def staffNotice : Str :=
  utf8 "Загрузите файл с информацией о сотрудниках для работы с данными о персонале.\n\n"

/-- The notice of the default section when no file is uploaded. -/
def generalNotice : Str :=
  utf8 "Для более точных ответов загрузите файлы с данными о вашем бизнесе.\n\n"

/-- The three notices generateSimpleResponse writes when no file is uploaded
(the else branches of the tests len(fileContents) > 0). -/
def uploadNotices : List Str := [financialNotice, staffNotice, generalNotice]

/-- The answer contains one of the notices that ask the user to upload files. -/
def hasUploadNotice (answer : Str) : Bool := uploadNotices.any fun n => strContains answer n

/-- The two sentences of the legal section of generateSimpleResponse. -/
def legalDisclaimer : Str :=
  utf8 "Для точных ответов на юридические вопросы рекомендую проконсультироваться с юристом.\n"
    ++ utf8 "Я могу помочь с общими вопросами, но не могу давать юридические консультации.\n\n"

/-- No four consecutive runes are equal: the text has no run of more than three
identical characters. -/
def noLongRun : List Char → Bool
  | a :: b :: c :: d :: rest =>
    !(decide (a = b) && decide (b = c) && decide (c = d)) && noLongRun (b :: c :: d :: rest)
  | _ => true

/-- A text in which a pass of cleanAIResponse finds nothing to do: well-formed
UTF-8 without a run of more than three equal characters, without instruction
token, without a prompt marker after its first byte, without a triple newline
and without a double space. -/
def settled (u : Str) : Bool :=
  decide (encodeRunes (decodeRunes u) = u) && noLongRun (decodeRunes u)
    && !strContains u (utf8 "[INST]") && !strContains u (utf8 "[/INST]")
    && !strContains u (utf8 "<s>") && !strContains u (utf8 "</s>")
    && cleanMarkers.all (fun marker => decide (strIndex u marker ≤ 0))
    && !strContains u (utf8 "\n\n\n") && !strContains u (utf8 "\r\n\r\n\r\n")
    && !strContains u (utf8 "  ")

/-- Surroundings with a Word archive whose document body is one text element of
8,000 Cyrillic letters. -/
def cyrillicEnv : Env where
  readFile := fun _ => .error (utf8 "open: no such file or directory")
  zipOpenReader := fun _ =>
    .ok [⟨utf8 "word/document.xml", some (utf8 "<w:t>" ++ cyrillicText 8000 ++ utf8 "</w:t>")⟩]
  getenv := fun _ => []
  tryOpenRouterModel := failingAttempt

/-- Surroundings in which every archive opens and holds only entries that the
readers do not look for. -/
def otherEntriesEnv : Env where
  readFile := fun _ => .error (utf8 "open: no such file or directory")
  zipOpenReader := fun _ =>
    .ok [⟨utf8 "[Content_Types].xml", some (utf8 "<Types/>")⟩,
         ⟨utf8 "docProps/app.xml", some (utf8 "<Properties><t>x</t></Properties>")⟩]
  getenv := fun _ => []
  tryOpenRouterModel := failingAttempt

/-- The block of the specification for the file text number i (counted from 1):
the label, the text verbatim and a separator line. -/
def fileBlock (i : Nat) (f : Str) : Str :=
  utf8 "\n[Файл " ++ fmtInt i ++ utf8 "]\n" ++ f ++ utf8 "\n" ++ dashes55 ++ utf8 "\n"

/-- The blocks of the file texts f1..fn in input order, numbered from 1. -/
def fileBlocks (files : List Str) : Str :=
  ((files.enumFrom 1).map fun p => fileBlock p.1 p.2).flatten

/-- The delimited available-data section of the prompt around the given blocks. -/
def dataSection (blocks : Str) : Str :=
  utf8 "═══════════════════════════════════════════════════════\n"
    ++ utf8 "ДОСТУПНЫЕ ДАННЫЕ О БИЗНЕСЕ:\n"
    ++ utf8 "═══════════════════════════════════════════════════════\n"
    ++ blocks
    ++ utf8 "\n⚠️ КРИТИЧЕСКИ ВАЖНО: Внимательно изучи ВСЕ данные из файлов выше перед формированием ответа!\n\n"

/-- The notice of the prompt that no files were supplied. -/
def noFilesNotice : Str :=
  utf8 "⚠️ ВНИМАНИЕ: Файлы с данными о бизнесе не загружены.\n"
    ++ utf8 "Если вопрос требует данных из файлов, вежливо попроси пользователя загрузить их.\n\n"

/-- The text of a prompt from the header "ТРЕБОВАНИЯ К ОТВЕТУ:" on, found by
position: what follows the first occurrence of the header, the header included. -/
def requirementsText (prompt : Str) : Str :=
  prompt.drop (strIndex prompt (utf8 "ТРЕБОВАНИЯ К ОТВЕТУ:")).toNat

/-- The end of the prompt of buildPrompt, from the header "ТРЕБОВАНИЯ К ОТВЕТУ:"
through the closing delimiter, as a function of the three user fields. -/
def requirementsBlock (username businessName specialization : Str) : Str :=
  utf8 "ТРЕБОВАНИЯ К ОТВЕТУ:\n"
    ++ utf8 "═══════════════════════════════════════════════════════\n\n"
    ++ utf8 "1. КОНКРЕТНОСТЬ:\n"
    ++ utf8 "   - Используй ТОЧНЫЕ цифры, имена, даты из файлов\n"
    ++ utf8 "   - Приводи примеры из загруженных данных\n"
    ++ utf8 "   - Избегай общих фраз без привязки к данным\n\n"
    ++ utf8 "2. СТРУКТУРИРОВАННОСТЬ:\n"
    ++ utf8 "   - Начни с краткого вывода/резюме\n"
    ++ utf8 "   - Используй списки и пункты для читаемости\n"
    ++ utf8 "   - Выделяй ключевые моменты\n\n"
    ++ utf8 "3. ПРАКТИЧНОСТЬ:\n"
    ++ utf8 "   - Давай конкретные рекомендации, которые можно применить\n"
    ++ utf8 "   - Предлагай шаги для решения проблемы\n"
    ++ promptSpecifics username businessName specialization
    ++ utf8 "4. АНАЛИТИЧНОСТЬ:\n"
    ++ utf8 "   - Сравнивай данные между периодами/категориями\n"
    ++ utf8 "   - Выявляй тренды и закономерности\n"
    ++ utf8 "   - Указывай на проблемы и возможности\n\n"
    ++ utf8 "5. ПРОФЕССИОНАЛИЗМ:\n"
    ++ utf8 "   - Пиши деловым, но понятным языком\n"
    ++ utf8 "   - Избегай шаблонных фраз\n"
    ++ utf8 "   - Будь честным: если данных недостаточно, скажи об этом\n\n"
    ++ utf8 "6. ФОРМАТ:\n"
    ++ utf8 "   - Отвечай ТОЛЬКО на русском языке\n"
    ++ utf8 "   - Используй абзацы для структуры\n"
    ++ utf8 "   - НЕ повторяй вопрос в начале ответа\n"
    ++ utf8 "   - Начинай сразу с сути\n\n"
    ++ utf8 "═══════════════════════════════════════════════════════\n"
    ++ utf8 "НАЧНИ СВОЙ ОТВЕТ:\n"
    ++ utf8 "═══════════════════════════════════════════════════════\n"

/-- A line of extractEmployeeInfo counts as a staff line when its lower-case
form contains "сотрудник" or "работник". -/
def mentionsStaff (line : Str) : Bool :=
  strContains (strToLower line) (utf8 "сотрудник")
    || strContains (strToLower line) (utf8 "работник")

/-- The non-blank lines among the first five lines of a window, each followed
by a newline. -/
def windowBlock (window : List Str) : Str :=
  (((window.take 5).filter fun l => decide (strTrimSpace l ≠ [])).map
    fun l => l ++ utf8 "\n").flatten

/-- The two file texts of the period comparison, November first. -/
def periodFiles : List Str := [utf8 "Прибыль ноябрь: 1000", utf8 "Прибыль декабрь: 1200"]

/-- The period-comparison section for the two profit lines, November before
December. -/
def periodComparison : Str :=
  utf8 "📊 **Сравнение периодов:**\n\n" ++ utf8 "**Прибыль:**\n"
    ++ utf8 "Ноябрь: " ++ utf8 "Прибыль ноябрь: 1000" ++ utf8 "\n"
    ++ utf8 "Декабрь: " ++ utf8 "Прибыль декабрь: 1200" ++ utf8 "\n"
    ++ utf8 "\n"

/-- A prompt of buildPrompt for a question without category, files and business
fields, as a model would echo it. -/
def echoedPrompt : Str :=
  buildPrompt (utf8 "Как увеличить продажи?") [] (utf8 "ivan") [] [] []

/-- A clean answer without any marker of the cleaner. -/
def echoedAnswer : Str := utf8 "Поднимите средний чек."


/-! ## File blocks of GenerateResponse, stated from the outcome of each read -/

/-- The file blocks of the files whose read succeeded with a non-empty content,
in the order of the files: for each such file the text "Файл: ", the file name,
a newline and the content. -/
def readableBlocks (env : Env) (files : List File) : List Str :=
  files.filterMap fun file =>
    match readFileContent env file.FilePath with
    | (content, none) =>
      if content ≠ [] then some (utf8 "Файл: " ++ file.Filename ++ utf8 "\n" ++ content)
      else none
    | (_, some _) => none

/-- Surroundings in which the second of three files cannot be read. -/
def brokenFileEnv : Env where
  readFile := fun path =>
    if path = utf8 "uploads/u1/a.txt" then .ok (utf8 "Выручка: 5000")
    else if path = utf8 "uploads/u1/c.txt" then .ok (utf8 "Прибыль: 1200")
    else .error (utf8 "open: no such file or directory")
  zipOpenReader := fun _ => .error (utf8 "zip: not a valid zip file")
  getenv := fun _ => []
  tryOpenRouterModel := failingAttempt

/-- Three files, the second of which is missing on disk. -/
def threeFiles : List File :=
  [⟨utf8 "f1", utf8 "u1", utf8 "a.txt", utf8 "uploads/u1/a.txt", utf8 "txt", 13⟩,
   ⟨utf8 "f2", utf8 "u1", utf8 "b.txt", utf8 "uploads/u1/b.txt", utf8 "txt", 10⟩,
   ⟨utf8 "f3", utf8 "u1", utf8 "c.txt", utf8 "uploads/u1/c.txt", utf8 "txt", 13⟩]

/-! ## Upload handler (handler.go, UploadFile) -/

/-- The loop of Go filepath.Ext, from the last byte of the path backwards: it
stops without result at a path separator and returns the text from the last dot
on. The second argument holds the bytes already passed. -/
def filepathExtFromRev : Str → Str → Str
  | [], _ => []
  | b :: rest, acc =>
    if b = UInt8.ofNat 0x2F then []
    else if b = UInt8.ofNat 0x2E then b :: acc
    else filepathExtFromRev rest (b :: acc)

/-- Go filepath.Ext: the extension of the last element of the path, with its
dot; empty if that element has no dot. -/
def filepathExt (path : Str) : Str := filepathExtFromRev path.reverse []

/-- The Go slice expression s[low:], which panics (none) when low exceeds len(s). -/
def sliceFrom (s : Str) (low : Nat) : Option Str :=
  if low ≤ s.length then some (s.drop low) else none

/-- The local variable fileType of Handler.UploadFile,
fileType := strings.ToLower(fileExt[1:]) with fileExt := filepath.Ext(header.Filename);
none stands for the run-time panic of the slice expression. -/
def uploadFileType (filename : Str) : Option Str :=
  let fileExt := filepathExt filename
  (sliceFrom fileExt 1).map strToLower

/-! ## XML escaping, as the description of the entity decoding states it -/

/-- Standard XML escaping of one byte: the five characters and their entities. -/
def xmlEscapeByte (b : UInt8) : Str :=
  if b = UInt8.ofNat 0x26 then utf8 "&amp;"
  else if b = UInt8.ofNat 0x3C then utf8 "&lt;"
  else if b = UInt8.ofNat 0x3E then utf8 "&gt;"
  else if b = UInt8.ofNat 0x22 then utf8 "&quot;"
  else if b = UInt8.ofNat 0x27 then utf8 "&apos;"
  else [b]

/-- Standard XML escaping of a text. -/
def xmlEscape (s : Str) : Str := (s.map xmlEscapeByte).flatten


/-- A file text whose only staff line is longer than 300 bytes, so that its
employee block is dropped. -/
def longStaffText : Str := utf8 "Сотрудник " ++ List.replicate 300 (UInt8.ofNat 0x78)


/-! ## The November profit of extractGrowthInfo, as its description states it -/

/-- A line whose lower-case form contains both "ноябрь" and "прибыль". -/
def novemberProfitLine (line : Str) : Bool :=
  strContains (strToLower line) (utf8 "ноябрь") && strContains (strToLower line) (utf8 "прибыль")

/-- The trimmed last line of the text whose lower-case form contains both
"ноябрь" and "прибыль"; the empty string if no single line contains both. -/
def lastNovemberProfit (text : Str) : Str :=
  match ((strSplit text (utf8 "\n")).filter novemberProfitLine).getLast? with
  | some line => strTrimSpace line
  | none => []


/-! ## Runs of equal characters, as the description of removeRepeatingChars states them -/

/-- The maximal runs of equal characters of a sequence, in order: each run as
its character and its length. -/
def runs : List Char → List (Char × Nat)
  | [] => []
  | c :: cs =>
    match runs cs with
    | (d, n) :: more => if c = d then (d, n + 1) :: more else (c, 1) :: (d, n) :: more
    | [] => [(c, 1)]

/-- The sequence with every maximal run of n equal characters replaced by a run
of min(n, m) of that character. -/
def collapseRuns (m : Nat) (cs : List Char) : List Char :=
  ((runs cs).map fun r => List.replicate (min r.2 m) r.1).flatten

/-- The number of characters equal to c at the start of a sequence. -/
def leadingRun (c : Char) : List Char → Nat
  | [] => 0
  | d :: rest => if d = c then leadingRun c rest + 1 else 0


/-- The instruction tokens that cleanAIResponse removes, in the order of the source. -/
def instructionTokens : List Str := [utf8 "[INST]", utf8 "[/INST]", utf8 "<s>", utf8 "</s>"]

/-- The four ReplaceAll calls of cleanAIResponse that remove the instruction
tokens, in the order of the source. -/
def stripTokens (text : Str) : Str :=
  let text := strReplaceAll text (utf8 "[INST]") []
  let text := strReplaceAll text (utf8 "[/INST]") []
  let text := strReplaceAll text (utf8 "<s>") []
  strReplaceAll text (utf8 "</s>") []

/-- A text that contains one of the instruction tokens. -/
def hasToken (s : Str) : Bool := instructionTokens.any fun token => strContains s token


/-! ## Sheets made of paired elements, as the description of the Excel scanner states them -/

/-- One paired element of a sheet: a text element (true) or a value element
(false) with its fragment: "<t>" fragment "</t>" or "<v>" fragment "</v>". -/
def renderElement (e : Bool × Str) : Str :=
  if e.1 then utf8 "<t>" ++ e.2 ++ utf8 "</t>" else utf8 "<v>" ++ e.2 ++ utf8 "</v>"

/-- A content that is a sequence of paired elements. -/
def renderElements (es : List (Bool × Str)) : Str := (es.map renderElement).flatten

/-- A fragment that contains no tag text: none of "<t>", "</t>", "<v>", "</v>". -/
def noTagText (f : Str) : Bool := excelPatterns.all fun pattern => !strContains f pattern

/-- The trimmed, entity-decoded, non-blank fragments of a sequence of elements,
in document order. -/
def cellTexts (es : List (Bool × Str)) : List Str :=
  (es.map fun e => strTrimSpace (decodeEntities e.2)).filter fun g => decide (g ≠ [])

/-- A sheet of four elements: a text, a value with surrounding blanks, a blank
text and a value with an entity. -/
def sampleCells : List (Bool × Str) :=
  [(true, utf8 "a"), (false, utf8 " 1 "), (true, utf8 " "), (false, utf8 "b&amp;c")]


/-! ## Theorems -/

/-- The loop of callOpenRouter returns the text of the first successful attempt
in list order, and the error after the loop when there is none. -/
theorem openRouterLoop_eq_find (attempt : Str → Str × GoError) (models : List Str)
    (lastErr : GoError) :
    openRouterLoop attempt models lastErr =
      match models.find? (fun m => attemptOk (attempt m)) with
      | some m => ((attempt m).1, none)
      | none => ([], (openRouterLoop attempt models lastErr).2) := by
  induction models generalizing lastErr with
  | nil => simp [openRouterLoop]
  | cons m rest ih =>
    by_cases h : (attempt m).2 = none ∧ (attempt m).1 ≠ []
    · have hok : attemptOk (attempt m) = true := by simp [attemptOk, h.1, h.2]
      simp [openRouterLoop, h, hok, List.find?]
    · have hok : attemptOk (attempt m) = false := by
        simp only [attemptOk, Bool.and_eq_false_iff, decide_eq_false_iff_not]
        by_cases h1 : (attempt m).2 = none
        · right; intro h2; exact h ⟨h1, h2⟩
        · left; exact h1
      have := ih (attempt m).2
      simp only [openRouterLoop, h, hok, List.find?, if_false]
      exact this

/-- The loop of callOpenRouter ends with an error exactly when no attempt
succeeds. -/
theorem openRouterLoop_error_iff (attempt : Str → Str × GoError) (models : List Str)
    (lastErr : GoError) :
    (openRouterLoop attempt models lastErr).2 ≠ none ↔
      ∀ m ∈ models, attemptOk (attempt m) = false := by
  induction models generalizing lastErr with
  | nil => simp [openRouterLoop]
  | cons m rest ih =>
    by_cases h : (attempt m).2 = none ∧ (attempt m).1 ≠ []
    · have hok : attemptOk (attempt m) = true := by simp [attemptOk, h.1, h.2]
      simp [openRouterLoop, h, hok]
    · have hok : attemptOk (attempt m) = false := by
        simp only [attemptOk, Bool.and_eq_false_iff, decide_eq_false_iff_not]
        by_cases h1 : (attempt m).2 = none
        · right; intro h2; exact h ⟨h1, h2⟩
        · left; exact h1
      simp only [openRouterLoop, h, if_false, List.mem_cons, forall_eq_or_imp, hok, true_and]
      exact ih _

/-- Claim C2. Without a provider credential (OPENROUTER_API_KEY is the empty
string) GenerateResponse returns a nil error and exactly the output of
generateSimpleResponse on the same arguments and the file blocks it built. -/
theorem GenerateResponse_without_key (env : Env)
    (message category username businessName specialization : Str) (files : List File)
    (hkey : env.getenv (utf8 "OPENROUTER_API_KEY") = []) :
    GenerateResponse env message category username businessName specialization files =
      (generateSimpleResponse message category username businessName specialization
        (readFiles env files), none) := by
  simp [GenerateResponse, hkey]

set_option linter.unusedVariables false in
/-- Claim C3. With a credential, when callOpenRouter returns an error or an
empty text, or the cleaned text is empty, GenerateResponse returns a nil error
and exactly the output of generateSimpleResponse on the same arguments and file
blocks. -/
theorem GenerateResponse_provider_failure (env : Env)
    (message category username businessName specialization : Str) (files : List File)
    (hkey : env.getenv (utf8 "OPENROUTER_API_KEY") ≠ [])
    (hfail :
      (callOpenRouter env
        (buildPrompt message category username businessName specialization (readFiles env files))
        (env.getenv (utf8 "OPENROUTER_API_KEY"))).2 ≠ none
      ∨ (callOpenRouter env
        (buildPrompt message category username businessName specialization (readFiles env files))
        (env.getenv (utf8 "OPENROUTER_API_KEY"))).1 = []
      ∨ cleanAIResponse (callOpenRouter env
        (buildPrompt message category username businessName specialization (readFiles env files))
        (env.getenv (utf8 "OPENROUTER_API_KEY"))).1 = []) :
    GenerateResponse env message category username businessName specialization files =
      (generateSimpleResponse message category username businessName specialization
        (readFiles env files), none) := by
  unfold GenerateResponse
  by_cases hk : env.getenv (utf8 "OPENROUTER_API_KEY") = []
  · simp [hk]
  · simp only [hk, if_false]
    rw [if_neg]
    rintro ⟨h1, h2, h3⟩
    rcases hfail with h | h | h
    · exact h h1
    · exact h2 h
    · exact h3 h

/-- Witness of claim C2: the surroundings noKeyEnv have no credential, and the
answer is the heuristic answer over the one file block that was read. -/
theorem GenerateResponse_without_key_witness :
    noKeyEnv.getenv (utf8 "OPENROUTER_API_KEY") = []
    ∧ readFiles noKeyEnv [salesFile] = [utf8 "Файл: sales.txt\nВыручка: 5000\nПрибыль: 1200"]
    ∧ GenerateResponse noKeyEnv (utf8 "Какая выручка?") [] (utf8 "ivan") (utf8 "Кофейня") []
        [salesFile] =
      (generateSimpleResponse (utf8 "Какая выручка?") [] (utf8 "ivan") (utf8 "Кофейня") []
        (readFiles noKeyEnv [salesFile]), none) :=
  ⟨rfl, by decide,
    GenerateResponse_without_key noKeyEnv (utf8 "Какая выручка?") [] (utf8 "ivan")
      (utf8 "Кофейня") [] [salesFile] rfl⟩

/-- Witness of claim C3: in failingEnv the credential is set and every model
fails, and the answer is the heuristic answer. -/
theorem GenerateResponse_provider_failure_witness :
    failingEnv.getenv (utf8 "OPENROUTER_API_KEY") ≠ []
    ∧ GenerateResponse failingEnv (utf8 "Какая выручка?") [] (utf8 "ivan") (utf8 "Кофейня") []
        [] =
      (generateSimpleResponse (utf8 "Какая выручка?") [] (utf8 "ivan") (utf8 "Кофейня") []
        (readFiles failingEnv []), none) :=
  ⟨by decide,
    GenerateResponse_provider_failure failingEnv (utf8 "Какая выручка?") [] (utf8 "ivan")
      (utf8 "Кофейня") [] [] (by decide) (Or.inl (by decide))⟩

/-- Claim C7. callOpenRouter tries the models in the listed order: it returns
the text and a nil error of the first model whose attempt returned no error and
a non-empty text, and it returns a non-nil error if and only if every attempt
returned an error or an empty text. -/
theorem callOpenRouter_first_success (env : Env) (prompt apiKey : Str) :
    (∀ (pre : List Str) (m : Str) (post : List Str), freeModels = pre ++ m :: post →
      (∀ x ∈ pre, (env.tryOpenRouterModel x prompt apiKey).2 ≠ none
        ∨ (env.tryOpenRouterModel x prompt apiKey).1 = []) →
      (env.tryOpenRouterModel m prompt apiKey).2 = none →
      (env.tryOpenRouterModel m prompt apiKey).1 ≠ [] →
      callOpenRouter env prompt apiKey = ((env.tryOpenRouterModel m prompt apiKey).1, none))
    ∧ ((callOpenRouter env prompt apiKey).2 ≠ none ↔
        ∀ m ∈ freeModels, (env.tryOpenRouterModel m prompt apiKey).2 ≠ none
          ∨ (env.tryOpenRouterModel m prompt apiKey).1 = []) := by
  have hfalse : ∀ r : Str × GoError, attemptOk r = false ↔ (r.2 ≠ none ∨ r.1 = []) := by
    intro r
    simp only [attemptOk, Bool.and_eq_false_iff, decide_eq_false_iff_not, ne_eq, not_not]
  constructor
  · intro pre m post hsplit hpre h1 h2
    unfold callOpenRouter
    rw [openRouterLoop_eq_find, hsplit]
    have hm : attemptOk (env.tryOpenRouterModel m prompt apiKey) = true := by
      simp [attemptOk, h1, h2]
    have hfind : (pre ++ m :: post).find?
        (fun m => attemptOk (env.tryOpenRouterModel m prompt apiKey)) = some m := by
      rw [List.find?_append]
      have : pre.find? (fun m => attemptOk (env.tryOpenRouterModel m prompt apiKey)) = none := by
        rw [List.find?_eq_none]
        intro x hx
        simp [(hfalse _).2 (hpre x hx)]
      simp [this, List.find?, hm]
    rw [hfind]
  · unfold callOpenRouter
    rw [openRouterLoop_error_iff]
    constructor
    · intro h m hm
      exact (hfalse _).1 (h m hm)
    · intro h m hm
      exact (hfalse _).2 (h m hm)

/-- Witness of claim C7: in tokenFirstEnv the first model answers "<s>" without
an error, so callOpenRouter returns that text and does not try the others. -/
theorem callOpenRouter_first_success_witness :
    callOpenRouter tokenFirstEnv (utf8 "Вопрос") (utf8 "sk-or-test") = (utf8 "<s>", none) :=
  (callOpenRouter_first_success tokenFirstEnv (utf8 "Вопрос") (utf8 "sk-or-test")).1
    [] (utf8 "mistralai/mistral-7b-instruct:free")
    [utf8 "google/gemini-2.0-flash-exp:free", utf8 "meta-llama/llama-3.2-3b-instruct:free"]
    (by decide) (by simp) (by decide) (by decide)

set_option maxRecDepth 100000 in
/-- Counterexample to claim C6 as stated: the first model returns "<s>", which
is empty after cleaning, and the second a normal answer; the rule of the
specification names the second model, the code returns the heuristic answer. -/
theorem GenerateResponse_not_first_usable :
    firstUsable (freeModels.map fun m =>
        tokenFirstEnv.tryOpenRouterModel m
          (buildPrompt (utf8 "Как поднять продажи?") (utf8 "legal") [] [] [] [])
          (utf8 "sk-or-test")) = some (utf8 "Увеличьте средний чек.")
    ∧ GenerateResponse tokenFirstEnv (utf8 "Как поднять продажи?") (utf8 "legal") [] [] [] [] =
        (generateSimpleResponse (utf8 "Как поднять продажи?") (utf8 "legal") [] [] [] [], none)
    ∧ GenerateResponse tokenFirstEnv (utf8 "Как поднять продажи?") (utf8 "legal") [] [] [] [] ≠
        (utf8 "Увеличьте средний чек.", none) := by
  refine ⟨by decide, by decide, by decide⟩

/-- Claim C6, amended. With a credential, GenerateResponse looks only at the
first model, in list order, whose attempt returned no error and a non-empty
text: it returns that text cleaned when the cleaned text is non-empty, and the
heuristic answer otherwise, also when no attempt succeeded. -/
theorem GenerateResponse_first_raw_success (env : Env)
    (message category username businessName specialization : Str) (files : List File)
    (hkey : env.getenv (utf8 "OPENROUTER_API_KEY") ≠ []) :
    GenerateResponse env message category username businessName specialization files =
      match (freeModels.map fun m => env.tryOpenRouterModel m
          (buildPrompt message category username businessName specialization (readFiles env files))
          (env.getenv (utf8 "OPENROUTER_API_KEY"))).find? attemptOk with
      | some r =>
        if cleanAIResponse r.1 ≠ [] then (cleanAIResponse r.1, none)
        else (generateSimpleResponse message category username businessName specialization
          (readFiles env files), none)
      | none =>
        (generateSimpleResponse message category username businessName specialization
          (readFiles env files), none) := by
  unfold GenerateResponse
  simp only [hkey, if_false]
  unfold callOpenRouter
  rw [openRouterLoop_eq_find]
  rw [List.find?_map]
  cases hf : freeModels.find? (attemptOk ∘ fun m => env.tryOpenRouterModel m
      (buildPrompt message category username businessName specialization (readFiles env files))
      (env.getenv (utf8 "OPENROUTER_API_KEY"))) with
  | none =>
    have hf2 : freeModels.find? (fun m => attemptOk (env.tryOpenRouterModel m
      (buildPrompt message category username businessName specialization (readFiles env files))
      (env.getenv (utf8 "OPENROUTER_API_KEY")))) = none := hf
    simp [hf2]
  | some m =>
    have hf2 : freeModels.find? (fun m => attemptOk (env.tryOpenRouterModel m
      (buildPrompt message category username businessName specialization (readFiles env files))
      (env.getenv (utf8 "OPENROUTER_API_KEY")))) = some m := hf
    have hok := List.find?_some hf
    simp only [Function.comp, attemptOk, Bool.and_eq_true, decide_eq_true_eq] at hok
    simp only [hf2, Option.map_some']
    by_cases hc : cleanAIResponse (env.tryOpenRouterModel m
      (buildPrompt message category username businessName specialization (readFiles env files))
      (env.getenv (utf8 "OPENROUTER_API_KEY"))).1 = []
    · simp [hc]
    · simp [hc, hok.2]

/-- Witness of claim C6, amended: in tokenFirstEnv the first raw success is the
text "<s>" of the first model, so the answer is the heuristic one. -/
theorem GenerateResponse_first_raw_success_witness :
    tokenFirstEnv.getenv (utf8 "OPENROUTER_API_KEY") ≠ []
    ∧ GenerateResponse tokenFirstEnv (utf8 "Как поднять продажи?") (utf8 "legal") [] [] [] [] =
      match (freeModels.map fun m => tokenFirstEnv.tryOpenRouterModel m
          (buildPrompt (utf8 "Как поднять продажи?") (utf8 "legal") [] [] []
            (readFiles tokenFirstEnv []))
          (tokenFirstEnv.getenv (utf8 "OPENROUTER_API_KEY"))).find? attemptOk with
      | some r =>
        if cleanAIResponse r.1 ≠ [] then (cleanAIResponse r.1, none)
        else (generateSimpleResponse (utf8 "Как поднять продажи?") (utf8 "legal") [] [] []
          (readFiles tokenFirstEnv []), none)
      | none =>
        (generateSimpleResponse (utf8 "Как поднять продажи?") (utf8 "legal") [] [] []
          (readFiles tokenFirstEnv []), none) :=
  ⟨by decide,
    GenerateResponse_first_raw_success tokenFirstEnv (utf8 "Как поднять продажи?")
      (utf8 "legal") [] [] [] [] (by decide)⟩

/-- A string is a prefix of itself followed by anything. -/
theorem isPrefixOf_append (sep b : Str) : sep.isPrefixOf (sep ++ b) = true := by
  rw [List.isPrefixOf_iff_prefix]; exact List.prefix_append sep b

/-- The search finds a substring that is present. -/
theorem findSub_append (sep a b : Str) : (findSub sep (a ++ sep ++ b)).isSome = true := by
  induction a with
  | nil =>
    cases h : sep ++ b with
    | nil =>
      have h1 : sep = [] := (List.append_eq_nil.1 h).1
      have h2 : b = [] := (List.append_eq_nil.1 h).2
      simp [findSub, h1, h2]
    | cons x t =>
      have hp := isPrefixOf_append sep b
      rw [h] at hp
      simp [findSub, h, hp]
  | cons x a ih =>
    simp only [List.cons_append, findSub]
    split
    · rfl
    · simpa [List.append_assoc] using ih

/-- A position returned by the search splits the string around the substring. -/
theorem findSub_some_split (sep : Str) : ∀ (s : Str) (i : Nat), findSub sep s = some i →
    s = s.take i ++ sep ++ s.drop (i + sep.length) := by
  intro s
  induction s with
  | nil =>
    intro i h
    simp only [findSub] at h
    split at h
    · rename_i hp
      have : sep = [] := by
        rw [List.isPrefixOf_iff_prefix] at hp
        exact List.prefix_nil.1 hp
      simp [this]
    · cases h
  | cons x t ih =>
    intro i h
    simp only [findSub] at h
    split at h
    · rename_i hp
      cases h
      rw [List.isPrefixOf_iff_prefix] at hp
      obtain ⟨r, hr⟩ := hp
      simp only [List.take_zero, List.nil_append, Nat.zero_add]
      rw [← hr]
      simp
    · cases hf : findSub sep t with
      | none => simp [hf] at h
      | some j =>
        simp only [hf, Option.map_some', Option.some.injEq] at h
        subst h
        have := ih j hf
        simp only [List.take_succ_cons, List.cons_append, Nat.add_right_comm j 1, List.drop_succ_cons]
        simp only [List.cons_append, List.append_assoc] at this ⊢
        exact congrArg _ this

/-- Go strings.Contains holds exactly when the string splits around the substring. -/
theorem strContains_iff (s sub : Str) :
    strContains s sub = true ↔ ∃ a b, s = a ++ sub ++ b := by
  unfold strContains strIndex
  constructor
  · intro h
    cases hf : findSub sub s with
    | none => simp [hf] at h
    | some i => exact ⟨_, _, findSub_some_split sub s i hf⟩
  · rintro ⟨a, b, rfl⟩
    have := findSub_append sub a b
    cases hf : findSub sub (a ++ sub ++ b) with
    | none => simp [List.append_assoc] at hf; simp [hf] at this
    | some i => simp

/-- A substring of the left part is a substring of the whole. -/
theorem strContains_append_left (a b sub : Str) (h : strContains a sub = true) :
    strContains (a ++ b) sub = true := by
  rw [strContains_iff] at h ⊢
  obtain ⟨x, y, rfl⟩ := h
  exact ⟨x, y ++ b, by simp [List.append_assoc]⟩

/-- A substring of the right part is a substring of the whole. -/
theorem strContains_append_right (a b sub : Str) (h : strContains b sub = true) :
    strContains (a ++ b) sub = true := by
  rw [strContains_iff] at h ⊢
  obtain ⟨x, y, rfl⟩ := h
  exact ⟨a ++ x, y, by simp [List.append_assoc]⟩

/-- A string that contains a non-empty substring is not empty. -/
theorem ne_nil_of_strContains (s sub : Str) (hsub : sub ≠ []) (h : strContains s sub = true) :
    s ≠ [] := by
  rw [strContains_iff] at h
  obtain ⟨x, y, rfl⟩ := h
  intro hnil
  simp only [List.append_eq_nil] at hnil
  exact hsub hnil.1.2

/-- The truncation marker of readFileContent, with the number written out. -/
theorem plainMarker_eq :
    utf8 "\n\n[Файл обрезан, показаны первые " ++ fmtInt maxSize ++ utf8 " символов]" =
      utf8 "\n\n[Файл обрезан, показаны первые 10000 символов]" := by decide

/-- The truncation marker of readFileContent has 81 bytes. -/
theorem plainMarker_length :
    (utf8 "\n\n[Файл обрезан, показаны первые 10000 символов]").length = 81 := by decide

/-- The truncation marker of readDocxFile has 83 bytes. -/
theorem docxMarker_length :
    (utf8 "\n\n[Текст обрезан, показаны первые 15000 символов]").length = 83 := by decide

/-- The truncation marker of readExcelFile has 87 bytes. -/
theorem excelMarker_length :
    (utf8 "\n\n[Данные обрезаны, показаны первые 15000 символов]").length = 87 := by decide

/-- For a path that is neither Word nor Excel, readFileContent is plainResult of
the bytes read. -/
theorem readFileContent_of_plain (env : Env) (filePath c : Str)
    (hdocx : strEndsWith (strToLower filePath) (utf8 ".docx") = false)
    (hxlsx : strEndsWith (strToLower filePath) (utf8 ".xlsx") = false)
    (hxls : strEndsWith (strToLower filePath) (utf8 ".xls") = false)
    (hread : env.readFile filePath = .ok c) :
    readFileContent env filePath = plainResult c := by
  simp [readFileContent, hdocx, hxlsx, hxls, hread]

/-- The result of plainResult, by the size of the content. -/
theorem plainResult_eq (c : Str) :
    plainResult c =
      if len c > 10000 then
        (c.take 10000 ++ utf8 "\n\n[Файл обрезан, показаны первые 10000 символов]", none)
      else (c, none) := by
  unfold plainResult
  rw [plainMarker_eq]
  rfl

/-- Claim C9. For a file that is neither Word nor Excel with raw content c,
readFileContent returns the first 10,000 bytes of c followed by the truncation
marker that names 10000 when c has more than 10,000 bytes, and c unchanged
when c has at most 10,000 bytes. -/
theorem readFileContent_plain_text (env : Env) (filePath c : Str)
    (hdocx : strEndsWith (strToLower filePath) (utf8 ".docx") = false)
    (hxlsx : strEndsWith (strToLower filePath) (utf8 ".xlsx") = false)
    (hxls : strEndsWith (strToLower filePath) (utf8 ".xls") = false)
    (hread : env.readFile filePath = .ok c) :
    (len c > 10000 → readFileContent env filePath =
      (c.take 10000 ++ utf8 "\n\n[Файл обрезан, показаны первые 10000 символов]", none))
    ∧ (len c ≤ 10000 → readFileContent env filePath = (c, none)) := by
  rw [readFileContent_of_plain env filePath c hdocx hxlsx hxls hread, plainResult_eq]
  constructor
  · intro h
    rw [if_pos h]
  · intro h
    rw [if_neg (not_lt.2 h)]

/-- Witness of claim C9: the short file of noKeyEnv is returned verbatim, and the
file of 10,001 bytes of longFileEnv is cut to 10,000 bytes plus the marker. -/
theorem readFileContent_plain_text_witness :
    readFileContent noKeyEnv (utf8 "uploads/u1/sales.txt") =
      (utf8 "Выручка: 5000\nПрибыль: 1200", none)
    ∧ readFileContent longFileEnv (utf8 "uploads/u1/big.txt") =
      ((List.replicate 10001 (UInt8.ofNat 0x61)).take 10000
        ++ utf8 "\n\n[Файл обрезан, показаны первые 10000 символов]", none) :=
  ⟨(readFileContent_plain_text noKeyEnv (utf8 "uploads/u1/sales.txt")
      (utf8 "Выручка: 5000\nПрибыль: 1200") (by decide) (by decide) (by decide) rfl).2
      (by decide),
   (readFileContent_plain_text longFileEnv (utf8 "uploads/u1/big.txt")
      (List.replicate 10001 (UInt8.ofNat 0x61)) (by decide) (by decide) (by decide) rfl).1
      (by simp only [len, List.length_replicate]; decide)⟩

/-- Counterexample to claim C8 as stated: a plain text file of 10,001 bytes
gives an output of 10,081 bytes, more than the cap of 10,000. -/
theorem readFileContent_exceeds_cap :
    len (readFileContent longFileEnv (utf8 "uploads/u1/big.txt")).1 = 10081
    ∧ ¬ len (readFileContent longFileEnv (utf8 "uploads/u1/big.txt")).1 ≤ 10000 := by
  have h : readFileContent longFileEnv (utf8 "uploads/u1/big.txt") =
      plainResult (List.replicate 10001 (UInt8.ofNat 0x61)) :=
    readFileContent_of_plain longFileEnv _ _ (by decide) (by decide) (by decide) rfl
  have hl : len (plainResult (List.replicate 10001 (UInt8.ofNat 0x61))).1 = 10081 := by
    rw [plainResult_eq, if_pos (by simp only [len, List.length_replicate]; decide)]
    simp only [len, List.length_append, List.length_take, List.length_replicate,
      plainMarker_length]
    decide
  rw [h, hl]
  exact ⟨rfl, by decide⟩

/-- The output of plainResult has at most 10,081 bytes. -/
theorem plainResult_length_le (c : Str) : len (plainResult c).1 ≤ 10081 := by
  rw [plainResult_eq]
  by_cases h : len c > 10000
  · rw [if_pos h]
    simp only [len, List.length_append, List.length_take, plainMarker_length]
    omega
  · rw [if_neg h]
    simp only [len] at h ⊢
    omega

/-- The output of docxResult for a non-empty text has at most 15,083 bytes. -/
theorem docxResult_length_le (filePath text : Str) (h : text ≠ []) :
    len (docxResult filePath text).1 ≤ 15083 := by
  unfold docxResult
  rw [if_neg h]
  by_cases hl : len text > 15000
  · rw [if_pos hl]
    simp only [len, List.length_append, List.length_take, docxMarker_length]
    omega
  · rw [if_neg hl]
    simp only [len] at hl ⊢
    omega

/-- The output of excelResult for a non-empty text has at most 15,087 bytes. -/
theorem excelResult_length_le (filePath text : Str) (h : text ≠ []) :
    len (excelResult filePath text).1 ≤ 15087 := by
  unfold excelResult
  rw [if_neg h]
  by_cases hl : len text > 15000
  · rw [if_pos hl]
    simp only [len, List.length_append, List.length_take, excelMarker_length]
    omega
  · rw [if_neg hl]
    simp only [len] at hl ⊢
    omega

/-- Claim C8, amended. The extractor keeps at most the cap of the text and then
appends the truncation marker, so its output has at most 10,081 bytes for a
plain text file, at most 15,083 bytes for a Word file and at most 15,087 bytes
for an Excel file from which text was extracted. -/
theorem extractor_length_bound (env : Env) (filePath : Str) :
    (∀ c, strEndsWith (strToLower filePath) (utf8 ".docx") = false →
        strEndsWith (strToLower filePath) (utf8 ".xlsx") = false →
        strEndsWith (strToLower filePath) (utf8 ".xls") = false →
        env.readFile filePath = .ok c →
        len (readFileContent env filePath).1 ≤ 10081)
    ∧ (∀ files, env.zipOpenReader filePath = .ok files → docxEntries files ≠ [] →
        len (readDocxFile env filePath).1 ≤ 15083)
    ∧ (∀ files, env.zipOpenReader filePath = .ok files → excelEntries files ≠ [] →
        len (readExcelFile env filePath).1 ≤ 15087) := by
  refine ⟨?_, ?_, ?_⟩
  · intro c h1 h2 h3 h4
    rw [readFileContent_of_plain env filePath c h1 h2 h3 h4]
    exact plainResult_length_le c
  · intro files hopen htext
    simp only [readDocxFile, hopen]
    exact docxResult_length_le filePath _ htext
  · intro files hopen htext
    simp only [readExcelFile, hopen]
    exact excelResult_length_le filePath _ htext

/-- Witness of claim C8, amended: the file of 10,001 bytes and the two archives
of officeEnv. -/
theorem extractor_length_bound_witness :
    len (readFileContent longFileEnv (utf8 "uploads/u1/big.txt")).1 ≤ 10081
    ∧ len (readDocxFile officeEnv (utf8 "uploads/u1/plan.docx")).1 ≤ 15083
    ∧ len (readExcelFile officeEnv (utf8 "uploads/u1/staff.xlsx")).1 ≤ 15087 :=
  ⟨(extractor_length_bound longFileEnv (utf8 "uploads/u1/big.txt")).1
      (List.replicate 10001 (UInt8.ofNat 0x61)) (by decide) (by decide) (by decide) rfl,
   (extractor_length_bound officeEnv (utf8 "uploads/u1/plan.docx")).2.1 _ rfl (by decide),
   (extractor_length_bound officeEnv (utf8 "uploads/u1/staff.xlsx")).2.2 _ rfl (by decide)⟩

/-- The bytes written for a sequence of runes followed by another. -/
theorem encodeRunes_append (a b : List Char) :
    encodeRunes (a ++ b) = encodeRunes a ++ encodeRunes b := by
  induction a with
  | nil => rfl
  | cons c a ih => simp [encodeRunes, ih, List.append_assoc]

/-- The text of n Cyrillic letters is the two bytes of the letter, then the rest. -/
theorem cyrillicText_succ (n : Nat) :
    cyrillicText (n + 1) = UInt8.ofNat 0xD1 :: UInt8.ofNat 0x8F :: cyrillicText n := by
  simp only [cyrillicText, List.replicate_succ, encodeRunes]
  rfl

/-- The text of n Cyrillic letters has 2n bytes. -/
theorem cyrillicText_length (n : Nat) : (cyrillicText n).length = 2 * n := by
  induction n with
  | zero => rfl
  | succ n ih => rw [cyrillicText_succ]; simp [ih]; omega

/-- The text of n Cyrillic letters has n runes. -/
theorem cyrillicText_runes (n : Nat) :
    decodeRunes (cyrillicText n) = List.replicate n (Char.ofNat 0x44F) := by
  induction n with
  | zero => rfl
  | succ n ih =>
    rw [cyrillicText_succ, List.replicate_succ, ← ih]
    rfl

/-- The text of m + n Cyrillic letters is the text of m followed by the text of n. -/
theorem cyrillicText_add (m n : Nat) :
    cyrillicText (m + n) = cyrillicText m ++ cyrillicText n := by
  simp only [cyrillicText, List.replicate_add, encodeRunes_append]

/-- The first 15,000 bytes of the text of 8,000 Cyrillic letters are its first
7,500 letters. -/
theorem cyrillicText_take :
    (cyrillicText 8000).take 15000 = cyrillicText 7500 := by
  have h : cyrillicText 8000 = cyrillicText 7500 ++ cyrillicText 500 := cyrillicText_add 7500 500
  have hl : (cyrillicText 7500).length = 15000 := cyrillicText_length 7500
  rw [h, ← hl, List.take_left]

/-- Every string contains itself. -/
theorem strContains_self (s : Str) : strContains s s = true := by
  rw [strContains_iff]
  exact ⟨[], [], by simp⟩

/-- None of the upload notices is the empty string. -/
theorem uploadNotices_ne_nil : ∀ n ∈ uploadNotices, n ≠ [] := by decide

/-- An answer that contains one of the upload notices has the notice. -/
theorem hasUploadNotice_of_contains (answer n : Str) (hn : n ∈ uploadNotices)
    (h : strContains answer n = true) : hasUploadNotice answer = true := by
  unfold hasUploadNotice
  rw [List.any_eq_true]
  exact ⟨n, hn, h⟩

/-- Without files and with the category financial, the financial section ends
with its upload notice. -/
theorem financialSection_no_files (messageLower t tl : Str) :
    strContains (financialSection (utf8 "financial") messageLower [] t tl)
      financialNotice = true := by
  simp only [financialNotice, financialSection, decide_True, Bool.true_or, if_true, List.length_nil,
    gt_iff_lt, lt_self_iff_false, if_false]
  exact strContains_append_right _ _ _ (strContains_self _)

/-- Without files and with the category hr, the staff section ends with its
upload notice. -/
theorem hrSection_no_files (messageLower t tl : Str) :
    strContains (hrSection (utf8 "hr") messageLower [] t tl) staffNotice = true := by
  simp only [staffNotice, hrSection, decide_True, Bool.true_or, if_true, List.length_nil,
    gt_iff_lt, lt_self_iff_false, if_false]
  exact strContains_append_right _ _ _ (strContains_self _)

/-- Without files and with an empty category or marketing, the default section
starts with its upload notice. -/
theorem defaultSection_no_files (category messageLower t tl : Str)
    (h : category = [] ∨ category = utf8 "marketing") :
    strContains (defaultSection category messageLower [] t tl) generalNotice = true := by
  have hc : (decide (category = []) || decide (category = utf8 "marketing")) = true := by
    rcases h with h | h <;> simp [h]
  simp only [generalNotice, defaultSection, hc, if_true, List.length_nil, gt_iff_lt, lt_self_iff_false,
    if_false]
  simp only [List.append_assoc]
  exact strContains_append_left _ _ _ (strContains_self _)

/-- With the category legal, the legal section ends with the disclaimer. -/
theorem legalSection_legal :
    strContains (legalSection (utf8 "legal")) legalDisclaimer = true := by
  simp only [legalSection, if_true, legalDisclaimer, List.append_assoc]
  exact strContains_append_right _ _ _ (strContains_self _)

set_option maxRecDepth 100000 in
/-- Claim C4, the code at the failing input. With a credential and a provider
whose every model fails, the category growth (or reports), a question without
keyword and no business name or specialization, GenerateResponse returns the
empty string with a nil error. -/
theorem GenerateResponse_empty_answer :
    GenerateResponse failingEnv (utf8 "Привет") (utf8 "growth") (utf8 "ivan") [] [] [] =
      ([], none)
    ∧ GenerateResponse failingEnv (utf8 "Привет") (utf8 "reports") (utf8 "ivan") [] [] [] =
      ([], none)
    ∧ generateSimpleResponse (utf8 "Привет") (utf8 "growth") (utf8 "ivan") [] [] [] = [] := by
  refine ⟨by decide, by decide, by decide⟩

set_option maxRecDepth 100000 in
/-- Counterexample to claim C5 as stated: with zero files and the category
legal the answer is the legal disclaimer alone; it has none of the upload
notices and does not mention files at all. -/
theorem legal_answer_has_no_upload_notice :
    hasUploadNotice (generateSimpleResponse (utf8 "Нужен ли мне договор?") (utf8 "legal")
      (utf8 "ivan") [] [] []) = false
    ∧ strContains (strToLower (generateSimpleResponse (utf8 "Нужен ли мне договор?")
        (utf8 "legal") (utf8 "ivan") [] [] [])) (utf8 "файл") = false
    ∧ strContains (strToLower (generateSimpleResponse (utf8 "Нужен ли мне договор?")
        (utf8 "legal") (utf8 "ivan") [] [] [])) (utf8 "загруз") = false := by
  refine ⟨by decide, by decide, by decide⟩

/-- Claim C5, amended. With zero uploaded files, for the categories financial,
hr, marketing and the empty category generateSimpleResponse returns a non-empty
answer that contains one of the notices asking to upload files; for the
category legal it returns a non-empty answer that contains the legal
disclaimer. -/
theorem no_files_answer (message category username businessName specialization : Str) :
    ((category = utf8 "financial" ∨ category = utf8 "hr" ∨ category = []
        ∨ category = utf8 "marketing") →
      generateSimpleResponse message category username businessName specialization [] ≠ []
      ∧ hasUploadNotice
          (generateSimpleResponse message category username businessName specialization [])
        = true)
    ∧ (category = utf8 "legal" →
      generateSimpleResponse message category username businessName specialization [] ≠ []
      ∧ strContains
          (generateSimpleResponse message category username businessName specialization [])
          legalDisclaimer = true) := by
  have hnotice : ∀ n ∈ uploadNotices,
      strContains
        (generateSimpleResponse message category username businessName specialization []) n
        = true →
      generateSimpleResponse message category username businessName specialization [] ≠ []
      ∧ hasUploadNotice
          (generateSimpleResponse message category username businessName specialization [])
        = true := by
    intro n hn hc
    exact ⟨ne_nil_of_strContains _ n (uploadNotices_ne_nil n hn) hc,
      hasUploadNotice_of_contains _ n hn hc⟩
  constructor
  · rintro (h | h | h | h)
    · subst h
      refine hnotice financialNotice (by simp [uploadNotices]) ?_
      unfold generateSimpleResponse
      simp only [List.append_assoc]
      exact strContains_append_left _ _ _ (financialSection_no_files _ _ _)
    · subst h
      refine hnotice staffNotice (by simp [uploadNotices]) ?_
      unfold generateSimpleResponse
      simp only [List.append_assoc]
      exact strContains_append_right _ _ _
        (strContains_append_left _ _ _ (hrSection_no_files _ _ _))
    · refine hnotice generalNotice (by simp [uploadNotices]) ?_
      unfold generateSimpleResponse
      simp only [List.append_assoc]
      exact strContains_append_right _ _ _ (strContains_append_right _ _ _
        (strContains_append_right _ _ _
          (strContains_append_left _ _ _ (defaultSection_no_files _ _ _ _ (Or.inl h)))))
    · refine hnotice generalNotice (by simp [uploadNotices]) ?_
      unfold generateSimpleResponse
      simp only [List.append_assoc]
      exact strContains_append_right _ _ _ (strContains_append_right _ _ _
        (strContains_append_right _ _ _
          (strContains_append_left _ _ _ (defaultSection_no_files _ _ _ _ (Or.inr h)))))
  · intro h
    subst h
    have hc : strContains
        (generateSimpleResponse message (utf8 "legal") username businessName specialization [])
        legalDisclaimer = true := by
      unfold generateSimpleResponse
      simp only [List.append_assoc]
      exact strContains_append_right _ _ _ (strContains_append_right _ _ _
        (strContains_append_left _ _ _ legalSection_legal))
    exact ⟨ne_nil_of_strContains _ _ (by decide) hc, hc⟩

/-- Witness of claim C5, amended: the empty category and the category legal,
both without files. -/
theorem no_files_answer_witness :
    (generateSimpleResponse (utf8 "Привет") [] (utf8 "ivan") [] [] [] ≠ []
      ∧ hasUploadNotice (generateSimpleResponse (utf8 "Привет") [] (utf8 "ivan") [] [] [])
        = true)
    ∧ (generateSimpleResponse (utf8 "Привет") (utf8 "legal") (utf8 "ivan") [] [] [] ≠ []
      ∧ strContains (generateSimpleResponse (utf8 "Привет") (utf8 "legal") (utf8 "ivan") [] [] [])
          legalDisclaimer = true) :=
  ⟨(no_files_answer (utf8 "Привет") [] (utf8 "ivan") [] []).1 (Or.inr (Or.inr (Or.inl rfl))),
   (no_files_answer (utf8 "Привет") (utf8 "legal") (utf8 "ivan") [] []).2 rfl⟩

/-- A second right trim changes nothing. -/
theorem trimRightFrom_idem (x : Str) : ∀ k, trimRightFrom 0 (trimRightFrom k x) = trimRightFrom k x := by
  induction x with
  | nil => intro k; cases k <;> rfl
  | cons b t ih =>
    intro k
    cases k with
    | succ k => simp only [trimRightFrom]; exact ih k
    | zero =>
      by_cases h : isSpace (decodeLastRune (b :: t)).1 = true
      · simp only [trimRightFrom, h, if_true]; exact ih _
      · simp only [trimRightFrom, h, if_false]

/-- The right trim returns a suffix of the reversed string. -/
theorem trimRightFrom_suffix (x : Str) : ∀ k, ∃ p, x = p ++ trimRightFrom k x := by
  induction x with
  | nil => intro k; exact ⟨[], by cases k <;> rfl⟩
  | cons b t ih =>
    intro k
    cases k with
    | succ k =>
      obtain ⟨p, hp⟩ := ih k
      exact ⟨b :: p, by simp only [trimRightFrom, List.cons_append]; rw [← hp]⟩
    | zero =>
      by_cases h : isSpace (decodeLastRune (b :: t)).1 = true
      · obtain ⟨p, hp⟩ := ih ((decodeLastRune (b :: t)).2 - 1)
        exact ⟨b :: p, by simp only [trimRightFrom, h, if_true, List.cons_append]; rw [← hp]⟩
      · exact ⟨[], by simp [trimRightFrom, h]⟩

/-- The left trim returns the empty string or a string whose first rune is not
white space. -/
theorem trimLeftFrom_head (x : Str) : ∀ k, trimLeftFrom k x = [] ∨
    isSpace (decodeRune (trimLeftFrom k x)).1 = false := by
  induction x with
  | nil => intro k; left; cases k <;> rfl
  | cons b t ih =>
    intro k
    cases k with
    | succ k => simp only [trimLeftFrom]; exact ih k
    | zero =>
      by_cases h : isSpace (decodeRune (b :: t)).1 = true
      · simp only [trimLeftFrom, h, if_true]; exact ih _
      · right
        simp only [trimLeftFrom, h, if_false]
        simpa using h

/-- A string whose first rune is not white space is its own left trim. -/
theorem trimLeftFrom_of_head (x : Str) (h : x = [] ∨ isSpace (decodeRune x).1 = false) :
    trimLeftFrom 0 x = x := by
  cases x with
  | nil => rfl
  | cons b t =>
    rcases h with h | h
    · cases h
    · simp [trimLeftFrom, h]

/-- The rune RuneError is not white space. -/
theorem isSpace_runeError : isSpace runeError = false := by decide

/-- An ASCII byte decodes to itself. -/
theorem decodeRune_ascii (b : UInt8) (rest : Str) (h : b.toNat < 0x80) :
    decodeRune (b :: rest) = (Char.ofNat b.toNat, 1) := by
  simp only [decodeRune, h, if_true]

/-- The decoder looks at no more than four bytes. -/
theorem decodeRune_four (b b1 b2 b3 : UInt8) (rest : Str) :
    decodeRune (b :: b1 :: b2 :: b3 :: rest) = decodeRune [b, b1, b2, b3] := rfl

/-- Below the lead bytes of four-byte runes the decoder looks at no more than
three bytes. -/
theorem decodeRune_three (b b1 b2 : UInt8) (rest : Str) (h : b.toNat < 0xF0) :
    decodeRune (b :: b1 :: b2 :: rest) = decodeRune [b, b1, b2] := by
  simp only [decodeRune, h, if_true]

/-- Below the lead bytes of three-byte runes the decoder looks at no more than
two bytes. -/
theorem decodeRune_two (b b1 : UInt8) (rest : Str) (h : b.toNat < 0xE0) :
    decodeRune (b :: b1 :: rest) = decodeRune [b, b1] := by
  have h2 : b.toNat < 0xF0 := by omega
  simp only [decodeRune, h, h2, if_true]

/-- A lone byte that is not ASCII decodes to RuneError. -/
theorem decodeRune_one (b : UInt8) (h : ¬ b.toNat < 0x80) :
    (decodeRune [b]).1 = runeError := by
  simp only [decodeRune, h, if_false]
  split_ifs <;> rfl

/-- Two bytes that start with the lead byte of a longer rune decode to RuneError. -/
theorem decodeRune_short_two (b b1 : UInt8) (h : ¬ b.toNat < 0xE0) :
    (decodeRune [b, b1]).1 = runeError := by
  have h1 : ¬ b.toNat < 0x80 := by omega
  have h2 : ¬ b.toNat < 0xC2 := by omega
  simp only [decodeRune, h, h1, h2, if_false]
  split_ifs <;> rfl

/-- Three bytes that start with the lead byte of a four-byte rune decode to
RuneError. -/
theorem decodeRune_short_three (b b1 b2 : UInt8) (h : ¬ b.toNat < 0xF0) :
    (decodeRune [b, b1, b2]).1 = runeError := by
  have h1 : ¬ b.toNat < 0x80 := by omega
  have h2 : ¬ b.toNat < 0xC2 := by omega
  have h3 : ¬ b.toNat < 0xE0 := by omega
  simp only [decodeRune, h, h1, h2, h3, if_false]
  split_ifs <;> rfl

/-- Cutting a string after some of its bytes leaves its first rune as it is or
makes it RuneError. -/
theorem decodeRune_cut (b : UInt8) (t r : Str) :
    (decodeRune (b :: t)).1 = runeError ∨ decodeRune (b :: t) = decodeRune (b :: (t ++ r)) := by
  by_cases h1 : b.toNat < 0x80
  · right
    rw [decodeRune_ascii b t h1, decodeRune_ascii b (t ++ r) h1]
  · rcases t with _ | ⟨x1, _ | ⟨x2, _ | ⟨x3, t⟩⟩⟩
    · left; exact decodeRune_one b h1
    · by_cases h2 : b.toNat < 0xE0
      · right
        rw [List.cons_append, List.nil_append, decodeRune_two b x1 r h2]
      · left; exact decodeRune_short_two b x1 h2
    · by_cases h3 : b.toNat < 0xF0
      · right
        rw [List.cons_append, List.cons_append, List.nil_append, decodeRune_three b x1 x2 r h3]
      · left; exact decodeRune_short_three b x1 x2 h3
    · right
      simp only [List.cons_append]
      rw [decodeRune_four, decodeRune_four b x1 x2 x3 (t ++ r)]

/-- Cutting a string after some of its bytes cannot turn a first rune that is
not white space into white space. -/
theorem decodeRune_cut_space (b : UInt8) (t r : Str)
    (h : isSpace (decodeRune (b :: (t ++ r))).1 = false) :
    isSpace (decodeRune (b :: t)).1 = false := by
  rcases decodeRune_cut b t r with h1 | h1
  · rw [h1]; exact isSpace_runeError
  · rw [h1]; exact h

/-- Go strings.TrimSpace applied twice is strings.TrimSpace applied once. -/
theorem strTrimSpace_idem (s : Str) : strTrimSpace (strTrimSpace s) = strTrimSpace s := by
  unfold strTrimSpace
  have hleft : trimLeftFrom 0 (trimRightFrom 0 (trimLeftFrom 0 s).reverse).reverse =
      (trimRightFrom 0 (trimLeftFrom 0 s).reverse).reverse := by
    apply trimLeftFrom_of_head
    obtain ⟨p, hp⟩ := trimRightFrom_suffix (trimLeftFrom 0 s).reverse 0
    have hv : trimLeftFrom 0 s =
        (trimRightFrom 0 (trimLeftFrom 0 s).reverse).reverse ++ p.reverse := by
      have := congrArg List.reverse hp
      simpa using this
    cases hu : (trimRightFrom 0 (trimLeftFrom 0 s).reverse).reverse with
    | nil => left; rfl
    | cons b t =>
      right
      rcases trimLeftFrom_head s 0 with h0 | h0
      · rw [h0] at hu
        simp [trimRightFrom] at hu
      · rw [hv, hu] at h0
        exact decodeRune_cut_space b t p.reverse h0
  rw [hleft, List.reverse_reverse, trimRightFrom_idem]

/-- A text without a long run stays without one when its first rune is dropped. -/
theorem noLongRun_tail (c : Char) (rs : List Char) (h : noLongRun (c :: rs) = true) :
    noLongRun rs = true := by
  rcases rs with _ | ⟨x1, _ | ⟨x2, _ | ⟨x3, rs⟩⟩⟩
  · rfl
  · rfl
  · rfl
  · simp only [noLongRun, Bool.and_eq_true] at h
    exact h.2

/-- A text without a long run stays without one when a prefix is dropped. -/
theorem noLongRun_drop (a rs : List Char) (h : noLongRun (a ++ rs) = true) :
    noLongRun rs = true := by
  induction a with
  | nil => exact h
  | cons c a ih => exact ih (noLongRun_tail c _ h)

/-- Four equal runes in a row are a long run. -/
theorem noLongRun_four (c : Char) (rs : List Char) :
    noLongRun (c :: c :: c :: c :: rs) = false := by
  simp [noLongRun]

/-- On a text without a run of more than three equal runes the loop of
removeRepeatingChars writes every rune: started after n copies of lastChar, it
returns the rest of the text unchanged. -/
theorem removeRepeatingLoop_id (rs : List Char) : ∀ (last : Char) (n : Nat), n ≤ 3 →
    noLongRun (List.replicate n last ++ rs) = true →
    removeRepeatingLoop 3 rs last (n : Int) = rs := by
  induction rs with
  | nil => intro last n _ _; rfl
  | cons c rest ih =>
    intro last n hn h
    by_cases hc : c = last
    · subst hc
      have hn2 : n ≤ 2 := by
        by_contra hcon
        have h3 : n = 3 := by omega
        subst h3
        have := noLongRun_four c rest
        simp only [List.replicate, List.cons_append, List.nil_append] at h
        rw [this] at h
        cases h
      have hle : (n : Int) + 1 ≤ 3 := by omega
      have hnext : noLongRun (List.replicate (n + 1) c ++ rest) = true := by
        rw [List.replicate_succ', List.append_assoc]
        exact h
      have := ih c (n + 1) (by omega) hnext
      simp only [removeRepeatingLoop, if_true, hle]
      rw [← Nat.cast_succ, this]
    · have hnext : noLongRun (List.replicate 1 c ++ rest) = true := noLongRun_drop _ _ h
      have := ih c 1 (by omega) hnext
      simp only [removeRepeatingLoop, hc, if_false]
      rw [show (1 : Int) = ((1 : Nat) : Int) from rfl, this]

/-- Where the old string does not occur, the replacement changes nothing. -/
theorem replaceFrom_of_not_found (old new : Str) (s : Str) (h : findSub old s = none) :
    replaceFrom old new 0 s = s := by
  induction s with
  | nil => rfl
  | cons b t ih =>
    simp only [findSub] at h
    split at h
    · cases h
    · rename_i hp
      have ht : findSub old t = none := by
        cases hf : findSub old t with
        | none => rfl
        | some i => simp [hf] at h
      simp only [replaceFrom, hp, if_false, Bool.false_eq_true]
      rw [ih ht]

/-- A string that does not contain the substring has no position for it. -/
theorem findSub_of_not_contains (s sub : Str) (h : strContains s sub = false) :
    findSub sub s = none := by
  unfold strContains strIndex at h
  cases hf : findSub sub s with
  | none => rfl
  | some i => simp [hf] at h

/-- Go strings.ReplaceAll changes nothing where the old string does not occur. -/
theorem strReplaceAll_of_not_contains (s old new : Str) (h : strContains s old = false) :
    strReplaceAll s old new = s := by
  unfold strReplaceAll
  split
  · rfl
  · exact replaceFrom_of_not_found old new s (findSub_of_not_contains s old h)

/-- The marker loop keeps a text in which the marker is absent or at the start. -/
theorem stripMarker_of_index_le (text marker : Str) (h : strIndex text marker ≤ 0) :
    stripMarker text marker = text := by
  unfold stripMarker
  simp only [gt_iff_lt, not_lt.2 h, if_false]

/-- The marker loop over a list of markers keeps a text in which each of them is
absent or at the start. -/
theorem foldl_stripMarker_of_index_le (ms : List Str) (text : Str)
    (h : ms.all (fun marker => decide (strIndex text marker ≤ 0)) = true) :
    ms.foldl stripMarker text = text := by
  induction ms with
  | nil => rfl
  | cons m ms ih =>
    simp only [List.all_cons, Bool.and_eq_true, decide_eq_true_eq] at h
    simp only [List.foldl_cons, stripMarker_of_index_le text m h.1]
    exact ih h.2

/-- A trimmed and settled text is a fixed point of cleanAIResponse. -/
theorem cleanAIResponse_of_settled (u : Str) (htrim : strTrimSpace u = u)
    (h : settled u = true) : cleanAIResponse u = u := by
  simp only [settled, Bool.and_eq_true, decide_eq_true_eq, Bool.not_eq_true'] at h
  obtain ⟨⟨⟨⟨⟨⟨⟨⟨⟨hvalid, hrun⟩, h1⟩, h2⟩, h3⟩, h4⟩, hm⟩, h5⟩, h6⟩, h7⟩ := h
  have hrep : removeRepeatingChars u 3 = u := by
    unfold removeRepeatingChars
    split
    · rfl
    · have := removeRepeatingLoop_id (decodeRunes u) (Char.ofNat 0) 0 (by omega)
        (by simpa using hrun)
      rw [show (0 : Int) = ((0 : Nat) : Int) from rfl, this, hvalid]
  unfold cleanAIResponse
  split
  · rename_i he; exact he.symm
  · simp only [htrim, hrep, strReplaceAll_of_not_contains _ _ _ h1,
      strReplaceAll_of_not_contains _ _ _ h2, strReplaceAll_of_not_contains _ _ _ h3,
      strReplaceAll_of_not_contains _ _ _ h4, foldl_stripMarker_of_index_le _ _ hm,
      strReplaceAll_of_not_contains _ _ _ h5, strReplaceAll_of_not_contains _ _ _ h6,
      strReplaceAll_of_not_contains _ _ _ h7]

/-- The output of cleanAIResponse has no white space at its ends. -/
theorem strTrimSpace_cleanAIResponse (t : Str) :
    strTrimSpace (cleanAIResponse t) = cleanAIResponse t := by
  unfold cleanAIResponse
  split
  · rfl
  · exact strTrimSpace_idem _

/-- The text "a   b" (three spaces) after one and after two passes of
cleanAIResponse. -/
theorem cleanAIResponse_three_spaces :
    cleanAIResponse (utf8 "a   b") = utf8 "a  b"
    ∧ cleanAIResponse (utf8 "a  b") = utf8 "a b" := by
  constructor <;> decide

set_option maxRecDepth 100000 in
/-- A text with two occurrences of the marker "ОТВЕТ:" after one and after two
passes of cleanAIResponse: each pass cuts at the first occurrence. -/
theorem cleanAIResponse_two_markers :
    cleanAIResponse (utf8 "Итог. ОТВЕТ: первый ОТВЕТ: второй") = utf8 "первый ОТВЕТ: второй"
    ∧ cleanAIResponse (utf8 "первый ОТВЕТ: второй") = utf8 "второй" := by
  constructor <;> decide

/-- Counterexample to claim C1 as stated: on a text with two occurrences of the
marker "ОТВЕТ:", and on the text "a   b" (three spaces), a second pass of
cleanAIResponse changes the result of the first. -/
theorem cleanAIResponse_not_idempotent :
    cleanAIResponse (cleanAIResponse (utf8 "Итог. ОТВЕТ: первый ОТВЕТ: второй")) ≠
      cleanAIResponse (utf8 "Итог. ОТВЕТ: первый ОТВЕТ: второй")
    ∧ cleanAIResponse (cleanAIResponse (utf8 "a   b")) ≠ cleanAIResponse (utf8 "a   b") := by
  rw [cleanAIResponse_two_markers.1, cleanAIResponse_two_markers.2,
    cleanAIResponse_three_spaces.1, cleanAIResponse_three_spaces.2]
  constructor <;> decide

/-- Claim C1, amended. cleanAIResponse is idempotent on every text whose cleaned
form is settled (well-formed UTF-8 without a run of more than three equal
characters, without instruction token, without prompt marker after its first
byte, without triple newline and without double space): a second pass returns
the result of the first. -/
theorem cleanAIResponse_idempotent_of_settled (t : Str)
    (h : settled (cleanAIResponse t) = true) :
    cleanAIResponse (cleanAIResponse t) = cleanAIResponse t :=
  cleanAIResponse_of_settled (cleanAIResponse t) (strTrimSpace_cleanAIResponse t) h

set_option maxRecDepth 100000 in
/-- Witness of claim C1, amended: a text with tags, a double space and white
space at its ends; its cleaned form is settled. -/
theorem cleanAIResponse_idempotent_of_settled_witness :
    settled (cleanAIResponse (utf8 " <s>Привет,  мир!</s> ")) = true
    ∧ cleanAIResponse (utf8 " <s>Привет,  мир!</s> ") = utf8 "Привет, мир!"
    ∧ cleanAIResponse (cleanAIResponse (utf8 " <s>Привет,  мир!</s> ")) =
        cleanAIResponse (utf8 " <s>Привет,  мир!</s> ") :=
  ⟨by decide, by decide,
    cleanAIResponse_idempotent_of_settled (utf8 " <s>Привет,  мир!</s> ") (by decide)⟩

/-- A substring whose first byte does not occur before it is found right there. -/
theorem findSub_of_head_not_mem (a : UInt8) (sepTail pre post : Str) (h : a ∉ pre) :
    findSub (a :: sepTail) (pre ++ (a :: sepTail) ++ post) = some pre.length := by
  induction pre with
  | nil =>
    have hp := isPrefixOf_append (a :: sepTail) post
    simp only [List.nil_append, List.cons_append] at hp ⊢
    simp only [findSub, hp, if_true, List.length_nil]
  | cons x pre ih =>
    have hx : a ≠ x := fun e => h (by simp [e])
    have hpre : a ∉ pre := fun e => h (by simp [e])
    have hnp : (a :: sepTail).isPrefixOf (x :: (pre ++ (a :: sepTail) ++ post)) = false := by
      simp [List.isPrefixOf, hx]
    simp only [List.cons_append] at hnp ⊢
    simp only [findSub, hnp, if_false, Bool.false_eq_true]
    simp only [List.cons_append] at ih
    rw [ih hpre]
    rfl

/-- Go strings.Index of a substring whose first byte does not occur before it. -/
theorem strIndex_of_head_not_mem (a : UInt8) (sepTail pre post : Str) (h : a ∉ pre) :
    strIndex (pre ++ (a :: sepTail) ++ post) (a :: sepTail) = (pre.length : Int) := by
  unfold strIndex
  rw [findSub_of_head_not_mem a sepTail pre post h]

/-- A string in which the first byte of a substring does not occur does not
contain the substring. -/
theorem strContains_of_head_not_mem (a : UInt8) (sepTail s : Str) (h : a ∉ s) :
    strContains s (a :: sepTail) = false := by
  by_contra hc
  have hc2 : strContains s (a :: sepTail) = true := by simpa using hc
  rw [strContains_iff] at hc2
  obtain ⟨x, y, rfl⟩ := hc2
  exact h (by simp)

/-- The bytes of a text of Cyrillic letters are the two bytes of the letter. -/
theorem mem_cyrillicText (n : Nat) (x : UInt8) (h : x ∈ cyrillicText n) :
    x = UInt8.ofNat 0xD1 ∨ x = UInt8.ofNat 0x8F := by
  induction n with
  | zero => simp [cyrillicText, encodeRunes] at h
  | succ n ih =>
    rw [cyrillicText_succ] at h
    simp only [List.mem_cons] at h
    rcases h with h | h | h
    · left; exact h
    · right; exact h
    · exact ih h

/-- The entity decoding leaves a text of Cyrillic letters as it is. -/
theorem decodeEntities_cyrillicText (n : Nat) :
    decodeEntities (cyrillicText n) = cyrillicText n := by
  have hamp : UInt8.ofNat 0x26 ∉ cyrillicText n := by
    intro hm
    rcases mem_cyrillicText n _ hm with h | h <;> exact absurd h (by decide)
  have h1 : utf8 "&lt;" = UInt8.ofNat 0x26 :: utf8 "lt;" := by decide
  have h2 : utf8 "&gt;" = UInt8.ofNat 0x26 :: utf8 "gt;" := by decide
  have h3 : utf8 "&amp;" = UInt8.ofNat 0x26 :: utf8 "amp;" := by decide
  have h4 : utf8 "&quot;" = UInt8.ofNat 0x26 :: utf8 "quot;" := by decide
  have h5 : utf8 "&apos;" = UInt8.ofNat 0x26 :: utf8 "apos;" := by decide
  unfold decodeEntities
  simp only [h1, h2, h3, h4, h5,
    strReplaceAll_of_not_contains _ _ _ (strContains_of_head_not_mem _ _ _ hamp)]

/-- A non-empty text of Cyrillic letters has no white space to trim. -/
theorem strTrimSpace_cyrillicText (n : Nat) :
    strTrimSpace (cyrillicText (n + 1)) = cyrillicText (n + 1) := by
  have hrev : (cyrillicText (n + 1)).reverse =
      UInt8.ofNat 0x8F :: UInt8.ofNat 0xD1 :: (cyrillicText n).reverse := by
    rw [cyrillicText_add n 1, List.reverse_append]
    rfl
  have hleft : trimLeftFrom 0 (cyrillicText (n + 1)) = cyrillicText (n + 1) := by
    rw [cyrillicText_succ]
    rfl
  unfold strTrimSpace
  rw [hleft, hrev]
  have hright : trimRightFrom 0
      (UInt8.ofNat 0x8F :: UInt8.ofNat 0xD1 :: (cyrillicText n).reverse) =
      UInt8.ofNat 0x8F :: UInt8.ofNat 0xD1 :: (cyrillicText n).reverse := rfl
  rw [hright, ← hrev, List.reverse_reverse]

/-- The loop of extractTextFromDocxXML ends on the empty rest. -/
theorem docxScan_nil (fuel : Nat) : docxScan fuel [] = [] := by
  cases fuel with
  | zero => rfl
  | succ k => rfl

/-- One iteration of the loop of extractTextFromDocxXML in which the opening
tag, its closing bracket and the closing tag are found at the positions s, c
and e: the fragment between them is written and the loop goes on behind the
closing tag. -/
theorem docxScan_step (fuel : Nat) (rest : Str) (s c e : Nat)
    (hs : strIndex rest (utf8 "<w:t") = (s : Int))
    (hc : strIndex (rest.drop s) (utf8 ">") = (c : Int))
    (he : strIndex ((rest.drop s).drop (c + 1)) (utf8 "</w:t>") = (e : Int)) :
    docxScan (fuel + 1) rest =
      (if strTrimSpace (decodeEntities (((rest.drop s).drop (c + 1)).take e)) ≠ [] then
          strTrimSpace (decodeEntities (((rest.drop s).drop (c + 1)).take e)) ++ utf8 " "
        else [])
        ++ docxScan fuel (((rest.drop s).drop (c + 1)).drop (e + 6)) := by
  have h1 : ¬ ((s : Int) = -1) := by omega
  have h2 : ¬ ((c : Int) = -1) := by omega
  have h3 : ¬ ((e : Int) = -1) := by omega
  have t1 : ((s : Int)).toNat = s := Int.toNat_ofNat s
  have t2 : ((c : Int) + 1).toNat = c + 1 := by omega
  have t3 : ((e : Int) + len (utf8 "</w:t>")).toNat = e + 6 := by
    have : len (utf8 "</w:t>") = 6 := by decide
    rw [this]; omega
  rw [docxScan]
  simp only [hs, h1, if_false, t1, hc, h2, t2, he, h3, t3, Int.toNat_ofNat]

/-- The text extracted from a document body that is one text element of
Cyrillic letters: the letters and the space that follows every fragment. -/
theorem extractTextFromDocxXML_cyrillic (n : Nat) :
    extractTextFromDocxXML (utf8 "<w:t>" ++ cyrillicText (n + 1) ++ utf8 "</w:t>") =
      cyrillicText (n + 1) ++ utf8 " " := by
  have hopen : utf8 "<w:t>" = utf8 "<w:t" ++ utf8 ">" := by decide
  have hstart : strIndex (utf8 "<w:t>" ++ cyrillicText (n + 1) ++ utf8 "</w:t>") (utf8 "<w:t")
      = ((0 : Nat) : Int) := by
    have h0 : utf8 "<w:t" = UInt8.ofNat 0x3C :: utf8 "w:t" := by decide
    have := strIndex_of_head_not_mem (UInt8.ofNat 0x3C) (utf8 "w:t") []
      (utf8 ">" ++ cyrillicText (n + 1) ++ utf8 "</w:t>") (by simp)
    rw [hopen, h0]
    simpa [List.append_assoc] using this
  have hclose : strIndex ((utf8 "<w:t>" ++ cyrillicText (n + 1) ++ utf8 "</w:t>").drop 0)
      (utf8 ">") = ((4 : Nat) : Int) := by
    have h0 : utf8 ">" = UInt8.ofNat 0x3E :: [] := by decide
    have := strIndex_of_head_not_mem (UInt8.ofNat 0x3E) [] (utf8 "<w:t")
      (cyrillicText (n + 1) ++ utf8 "</w:t>") (by decide)
    rw [List.drop_zero, hopen, h0]
    simpa [List.append_assoc] using this
  have hlt : UInt8.ofNat 0x3C ∉ cyrillicText (n + 1) := by
    intro hm
    rcases mem_cyrillicText _ _ hm with h | h <;> exact absurd h (by decide)
  have hdrop : ((utf8 "<w:t>" ++ cyrillicText (n + 1) ++ utf8 "</w:t>").drop 0).drop (4 + 1) =
      cyrillicText (n + 1) ++ utf8 "</w:t>" := by
    rw [List.drop_zero, List.append_assoc]
    exact List.drop_left' (by decide)
  have hend : strIndex
      (((utf8 "<w:t>" ++ cyrillicText (n + 1) ++ utf8 "</w:t>").drop 0).drop (4 + 1))
      (utf8 "</w:t>") = (((cyrillicText (n + 1)).length : Nat) : Int) := by
    have h0 : utf8 "</w:t>" = UInt8.ofNat 0x3C :: utf8 "/w:t>" := by decide
    have := strIndex_of_head_not_mem (UInt8.ofNat 0x3C) (utf8 "/w:t>") (cyrillicText (n + 1)) []
      hlt
    rw [hdrop, h0]
    simpa using this
  have hne : cyrillicText (n + 1) ≠ [] := by
    rw [cyrillicText_succ]; exact List.cons_ne_nil _ _
  have htail : (cyrillicText (n + 1) ++ utf8 "</w:t>").drop ((cyrillicText (n + 1)).length + 6)
      = [] := by
    apply List.drop_eq_nil_of_le
    have : (utf8 "</w:t>").length = 6 := by decide
    simp only [List.length_append, this]
    omega
  unfold extractTextFromDocxXML
  rw [docxScan_step _ _ 0 4 _ hstart hclose hend, hdrop, List.take_left,
    decodeEntities_cyrillicText, strTrimSpace_cyrillicText, if_pos hne, htail, docxScan_nil,
    List.append_nil]

/-- The runes of a text of Cyrillic letters followed by more text. -/
theorem decodeRunes_cyrillicText_append (n : Nat) (rest : Str) :
    decodeRunes (cyrillicText n ++ rest) =
      List.replicate n (Char.ofNat 0x44F) ++ decodeRunes rest := by
  induction n with
  | zero => rfl
  | succ n ih =>
    rw [cyrillicText_succ, List.replicate_succ, List.cons_append, List.cons_append,
      List.cons_append, ← ih]
    rfl

/-- Claim C10, the code at the failing input. A Word document whose body is one
text element of 8,000 Cyrillic letters yields an extracted text of 8,001
characters (the letters and the space after the fragment), below the cap of
15,000 characters, and of 16,001 bytes; readFileContent cuts it to its first
15,000 bytes, that is to 7,500 letters, and appends the marker that says 15000
characters are shown. The end of readExcelFile cuts the same text the same way. -/
theorem office_cap_counts_bytes :
    docxEntries [⟨utf8 "word/document.xml",
        some (utf8 "<w:t>" ++ cyrillicText 8000 ++ utf8 "</w:t>")⟩] =
      cyrillicText 8000 ++ utf8 " "
    ∧ (decodeRunes (cyrillicText 8000 ++ utf8 " ")).length = 8001
    ∧ len (cyrillicText 8000 ++ utf8 " ") = 16001
    ∧ readFileContent cyrillicEnv (utf8 "uploads/u1/report.docx") =
        (cyrillicText 7500 ++ utf8 "\n\n[Текст обрезан, показаны первые 15000 символов]", none)
    ∧ (decodeRunes (cyrillicText 7500)).length = 7500
    ∧ excelResult (utf8 "uploads/u1/report.xlsx") (cyrillicText 8000) =
        (cyrillicText 7500 ++ utf8 "\n\n[Данные обрезаны, показаны первые 15000 символов]", none) := by
  have hentries : docxEntries [⟨utf8 "word/document.xml",
        some (utf8 "<w:t>" ++ cyrillicText 8000 ++ utf8 "</w:t>")⟩] =
      cyrillicText 8000 ++ utf8 " " := by
    simp only [docxEntries, if_true]
    exact extractTextFromDocxXML_cyrillic 7999
  have hsp : (utf8 " ").length = 1 := by decide
  have hlen : len (cyrillicText 8000 ++ utf8 " ") = 16001 := by
    simp only [len, List.length_append, cyrillicText_length, hsp]; rfl
  have hlen2 : len (cyrillicText 8000) = 16000 := by
    simp only [len, cyrillicText_length]; rfl
  have hne : cyrillicText 8000 ++ utf8 " " ≠ [] := by
    rw [cyrillicText_succ]; exact List.cons_ne_nil _ _
  have hne2 : cyrillicText 8000 ≠ [] := by
    rw [cyrillicText_succ]; exact List.cons_ne_nil _ _
  have htake : (cyrillicText 8000 ++ utf8 " ").take 15000 = cyrillicText 7500 := by
    rw [List.take_append_of_le_length (by rw [cyrillicText_length]; omega), cyrillicText_take]
  have hdocx : strEndsWith (strToLower (utf8 "uploads/u1/report.docx")) (utf8 ".docx") = true := by
    decide
  refine ⟨hentries, ?_, hlen, ?_, ?_, ?_⟩
  · rw [decodeRunes_cyrillicText_append, List.length_append, List.length_replicate]
    rfl
  · have hopen : cyrillicEnv.zipOpenReader (utf8 "uploads/u1/report.docx") =
        .ok [⟨utf8 "word/document.xml",
          some (utf8 "<w:t>" ++ cyrillicText 8000 ++ utf8 "</w:t>")⟩] := rfl
    simp only [readFileContent, hdocx, if_true, readDocxFile, hopen, hentries]
    unfold docxResult
    rw [if_neg hne, if_pos (by rw [hlen]; decide), htake]
  · rw [cyrillicText_runes, List.length_replicate]
  · unfold excelResult
    rw [if_neg hne2, if_pos (by rw [hlen2]; decide), cyrillicText_take]

/-- The loop of readDocxFile writes nothing when no entry is named
word/document.xml. -/
theorem docxEntries_of_no_document (files : List ZipEntry)
    (h : ∀ f ∈ files, f.Name ≠ utf8 "word/document.xml") : docxEntries files = [] := by
  induction files with
  | nil => rfl
  | cons f rest ih =>
    have hf : f.Name ≠ utf8 "word/document.xml" := h f (by simp)
    simp only [docxEntries, hf, if_false]
    exact ih fun g hg => h g (by simp [hg])

/-- The loop of readExcelFile writes nothing when no entry name starts with
xl/sharedStrings.xml or xl/worksheets/sheet. -/
theorem excelEntries_of_no_sheet (files : List ZipEntry)
    (h : ∀ f ∈ files, (utf8 "xl/sharedStrings.xml").isPrefixOf f.Name = false
      ∧ (utf8 "xl/worksheets/sheet").isPrefixOf f.Name = false) : excelEntries files = [] := by
  induction files with
  | nil => rfl
  | cons f rest ih =>
    have hf := h f (by simp)
    simp only [excelEntries, hf.1, hf.2, Bool.or_self, Bool.false_eq_true, if_false]
    exact ih fun g hg => h g (by simp [hg])

/-- Claim C11. For an archive that opens and has no entry named
word/document.xml, readDocxFile returns the bracketed Word placeholder that
names the file path, with a nil error; for an archive that opens and has no
entry whose name starts with xl/sharedStrings.xml or xl/worksheets/sheet,
readExcelFile returns the bracketed Excel placeholder that names the file path,
with a nil error. -/
theorem readers_placeholder (env : Env) (filePath : Str) (files : List ZipEntry)
    (hopen : env.zipOpenReader filePath = .ok files) :
    ((∀ f ∈ files, f.Name ≠ utf8 "word/document.xml") →
      readDocxFile env filePath =
        (utf8 "[Word документ: " ++ filePath
          ++ utf8 ". Не удалось извлечь текст. Попробуйте сохранить файл как .txt]", none))
    ∧ ((∀ f ∈ files, (utf8 "xl/sharedStrings.xml").isPrefixOf f.Name = false
          ∧ (utf8 "xl/worksheets/sheet").isPrefixOf f.Name = false) →
      readExcelFile env filePath =
        (utf8 "[Excel файл: " ++ filePath
          ++ utf8 ". Не удалось извлечь данные. Попробуйте экспортировать в .csv или .txt]",
          none)) := by
  constructor
  · intro h
    simp only [readDocxFile, hopen, docxEntries_of_no_document files h, docxResult, if_true]
  · intro h
    simp only [readExcelFile, hopen, excelEntries_of_no_sheet files h, excelResult, if_true]

set_option maxRecDepth 100000 in
/-- Witness of claim C11: the archive of otherEntriesEnv has neither a document
body nor a sheet, read through readFileContent by the extension of the path. -/
theorem readers_placeholder_witness :
    readFileContent otherEntriesEnv (utf8 "uploads/u1/plan.docx") =
      (utf8 "[Word документ: uploads/u1/plan.docx. Не удалось извлечь текст. Попробуйте сохранить файл как .txt]",
        none)
    ∧ readFileContent otherEntriesEnv (utf8 "uploads/u1/staff.xlsx") =
      (utf8 "[Excel файл: uploads/u1/staff.xlsx. Не удалось извлечь данные. Попробуйте экспортировать в .csv или .txt]",
        none) := by
  have hd : readFileContent otherEntriesEnv (utf8 "uploads/u1/plan.docx") =
      readDocxFile otherEntriesEnv (utf8 "uploads/u1/plan.docx") := by
    have : strEndsWith (strToLower (utf8 "uploads/u1/plan.docx")) (utf8 ".docx") = true := by
      decide
    simp only [readFileContent, this, if_true]
  have hx : readFileContent otherEntriesEnv (utf8 "uploads/u1/staff.xlsx") =
      readExcelFile otherEntriesEnv (utf8 "uploads/u1/staff.xlsx") := by
    have h1 : strEndsWith (strToLower (utf8 "uploads/u1/staff.xlsx")) (utf8 ".docx") = false := by
      decide
    have h2 : strEndsWith (strToLower (utf8 "uploads/u1/staff.xlsx")) (utf8 ".xlsx") = true := by
      decide
    simp only [readFileContent, h1, h2, Bool.true_or, if_true, if_false, Bool.false_eq_true]
  rw [hd, hx]
  have hw := (readers_placeholder otherEntriesEnv (utf8 "uploads/u1/plan.docx") _ rfl).1
    (by decide)
  have he := (readers_placeholder otherEntriesEnv (utf8 "uploads/u1/staff.xlsx") _ rfl).2
    (by decide)
  rw [hw, he]
  constructor <;> decide

/-- Claim C16. The business footer is appended regardless of branch:
generateSimpleResponse with a business name b and a specialization s is
generateSimpleResponse with both empty, followed by the footer of b and s; the
footer is empty when both are empty and otherwise the block "Информация о вашем
бизнесе" with the name line only for a non-empty b and the specialization line
only for a non-empty s. -/
theorem generateSimpleResponse_footer (m c u b s : Str) (files : List Str) :
    generateSimpleResponse m c u b s files =
      generateSimpleResponse m c u [] [] files ++ businessFooter b s
    ∧ businessFooter [] [] = []
    ∧ (b ≠ [] ∨ s ≠ [] →
        businessFooter b s =
          utf8 "**Информация о вашем бизнесе:**\n"
            ++ (if b ≠ [] then utf8 "- Название: " ++ b ++ utf8 "\n" else [])
            ++ (if s ≠ [] then utf8 "- Специализация: " ++ s ++ utf8 "\n" else [])
            ++ utf8 "\n") := by
  refine ⟨?_, ?_, ?_⟩
  · have h0 : businessFooter [] [] = [] := by simp [businessFooter]
    simp only [generateSimpleResponse, h0, List.append_nil]
  · simp [businessFooter]
  · intro h
    simp only [businessFooter, h, if_true]

/-- Witness of claim C16: a name without a specialization. -/
theorem generateSimpleResponse_footer_witness :
    businessFooter (utf8 "Кофейня") [] =
      utf8 "**Информация о вашем бизнесе:**\n"
        ++ (if utf8 "Кофейня" ≠ [] then utf8 "- Название: " ++ utf8 "Кофейня" ++ utf8 "\n"
            else [])
        ++ (if ([] : Str) ≠ [] then utf8 "- Специализация: " ++ [] ++ utf8 "\n" else [])
        ++ utf8 "\n" :=
  (generateSimpleResponse_footer (utf8 "Привет") [] [] (utf8 "Кофейня") [] []).2.2
    (Or.inl (by decide))

/-- The lookup categoryNames knows exactly the six listed categories. -/
theorem categoryNames_unknown (c : Str)
    (h : c ≠ utf8 "financial" ∧ c ≠ utf8 "legal" ∧ c ≠ utf8 "hr" ∧ c ≠ utf8 "marketing"
      ∧ c ≠ utf8 "growth" ∧ c ≠ utf8 "reports") : categoryNames c = none := by
  obtain ⟨h1, h2, h3, h4, h5, h6⟩ := h
  simp only [categoryNames, h1, h2, h3, h4, h5, h6, if_false]

/-- Claim C17. In buildPrompt a category that is not one of financial, legal,
hr, marketing, growth, reports is omitted exactly like the empty category: the
prompt is the prompt of the empty category, for all other arguments. -/
theorem buildPrompt_unknown_category (message c username businessName specialization : Str)
    (fileContents : List Str)
    (h : c ≠ utf8 "financial" ∧ c ≠ utf8 "legal" ∧ c ≠ utf8 "hr" ∧ c ≠ utf8 "marketing"
      ∧ c ≠ utf8 "growth" ∧ c ≠ utf8 "reports") :
    buildPrompt message c username businessName specialization fileContents =
      buildPrompt message [] username businessName specialization fileContents := by
  have hc : (if c ≠ [] then
        match categoryNames c with
        | some name => utf8 "КАТЕГОРИЯ ВОПРОСА: " ++ name ++ utf8 "\n\n"
        | none => []
      else []) = ([] : Str) := by
    rw [categoryNames_unknown c h]
    split <;> rfl
  simp only [buildPrompt, hc, ne_eq, not_true_eq_false, if_false]

/-- Witness of claim C17: the category "taxes" is not in the table. -/
theorem buildPrompt_unknown_category_witness :
    buildPrompt (utf8 "Как платить налоги?") (utf8 "taxes") (utf8 "ivan") [] [] [] =
      buildPrompt (utf8 "Как платить налоги?") [] (utf8 "ivan") [] [] [] :=
  buildPrompt_unknown_category (utf8 "Как платить налоги?") (utf8 "taxes") (utf8 "ivan") [] [] []
    (by decide)

/-- The loop of buildPrompt over the file texts, started at index i, writes the
blocks numbered from i + 1. -/
theorem promptFiles_eq (files : List Str) : ∀ i : Nat,
    promptFiles i files =
      ((files.enumFrom (i + 1)).map fun p => fileBlock p.1 p.2).flatten := by
  induction files with
  | nil => intro i; rfl
  | cons f rest ih =>
    intro i
    simp only [promptFiles, List.enumFrom_cons, List.map_cons, List.flatten_cons, fileBlock, ih,
      List.append_assoc]
    rfl

/-- A string contains each of its prefixes. -/
theorem strContains_of_prefix (x r : Str) : strContains (x ++ r) x = true := by
  rw [strContains_iff]
  exact ⟨[], r, by simp⟩

/-- Claim C18. For a non-empty list of file texts the prompt of buildPrompt
contains the delimited available-data section with, as one contiguous text and
in input order, the blocks "[Файл i]" (i from 1), each with its text verbatim
and a separator line; for the empty list it contains the notice that no files
were supplied. -/
theorem buildPrompt_file_blocks (message category username businessName specialization : Str)
    (fileContents : List Str) :
    (fileContents ≠ [] →
      strContains (buildPrompt message category username businessName specialization fileContents)
        (dataSection (fileBlocks fileContents)) = true)
    ∧ strContains (buildPrompt message category username businessName specialization [])
        noFilesNotice = true := by
  constructor
  · intro h
    have hlen : fileContents.length > 0 := List.length_pos.2 h
    have hpf : promptFiles 0 fileContents = fileBlocks fileContents := promptFiles_eq _ 0
    simp only [buildPrompt, hlen, if_true, hpf, List.append_assoc]
    refine strContains_append_right _ _ _ (strContains_append_right _ _ _
      (strContains_append_right _ _ _ (strContains_append_right _ _ _
        (strContains_append_right _ _ _ ?_))))
    have := strContains_of_prefix (dataSection (fileBlocks fileContents))
    simp only [dataSection, List.append_assoc] at this ⊢
    exact this _
  · simp only [buildPrompt, List.length_nil, gt_iff_lt, lt_self_iff_false, if_false,
      List.append_assoc]
    refine strContains_append_right _ _ _ (strContains_append_right _ _ _
      (strContains_append_right _ _ _ (strContains_append_right _ _ _
        (strContains_append_right _ _ _ ?_))))
    have := strContains_of_prefix noFilesNotice
    simp only [noFilesNotice, List.append_assoc] at this ⊢
    exact this _

set_option maxRecDepth 100000 in
/-- Witness of claim C18: two file texts, and the blocks written out. -/
theorem buildPrompt_file_blocks_witness :
    fileBlocks [utf8 "Выручка: 5000", utf8 "Прибыль: 1200"] =
      utf8 "\n[Файл 1]\nВыручка: 5000\n" ++ dashes55 ++ utf8 "\n"
        ++ utf8 "\n[Файл 2]\nПрибыль: 1200\n" ++ dashes55 ++ utf8 "\n"
    ∧ strContains
        (buildPrompt (utf8 "Как дела?") [] [] [] [] [utf8 "Выручка: 5000", utf8 "Прибыль: 1200"])
        (dataSection (fileBlocks [utf8 "Выручка: 5000", utf8 "Прибыль: 1200"])) = true :=
  ⟨by decide,
    (buildPrompt_file_blocks (utf8 "Как дела?") [] [] [] []
      [utf8 "Выручка: 5000", utf8 "Прибыль: 1200"]).1 (by decide)⟩

/-- The prompt of buildPrompt ends with the requirements block of the three user
fields. -/
theorem buildPrompt_ends_with_requirements
    (message category username businessName specialization : Str) (fileContents : List Str) :
    ∃ head, buildPrompt message category username businessName specialization fileContents =
      head ++ requirementsBlock username businessName specialization := by
  refine ⟨utf8 "Ты - профессиональный бизнес-консультант с опытом работы с малым бизнесом. Твоя задача - давать конкретные, практические и полезные советы на основе реальных данных.\n\n"
    ++ (if username ≠ [] then utf8 "ВЛАДЕЛЕЦ БИЗНЕСА: " ++ username ++ utf8 "\n" else [])
    ++ (if businessName ≠ [] then utf8 "НАЗВАНИЕ БИЗНЕСА: " ++ businessName ++ utf8 "\n" else [])
    ++ (if specialization ≠ [] then
          utf8 "СПЕЦИАЛИЗАЦИЯ БИЗНЕСА: " ++ specialization ++ utf8 "\n" else [])
    ++ (if username ≠ [] ∨ businessName ≠ [] ∨ specialization ≠ [] then utf8 "\n" else [])
    ++ (if fileContents.length > 0 then
          utf8 "═══════════════════════════════════════════════════════\n"
            ++ utf8 "ДОСТУПНЫЕ ДАННЫЕ О БИЗНЕСЕ:\n"
            ++ utf8 "═══════════════════════════════════════════════════════\n"
            ++ promptFiles 0 fileContents
            ++ utf8 "\n⚠️ КРИТИЧЕСКИ ВАЖНО: Внимательно изучи ВСЕ данные из файлов выше перед формированием ответа!\n\n"
        else
          utf8 "⚠️ ВНИМАНИЕ: Файлы с данными о бизнесе не загружены.\n"
            ++ utf8 "Если вопрос требует данных из файлов, вежливо попроси пользователя загрузить их.\n\n")
    ++ (if category ≠ [] then
          match categoryNames category with
          | some name => utf8 "КАТЕГОРИЯ ВОПРОСА: " ++ name ++ utf8 "\n\n"
          | none => []
        else [])
    ++ (utf8 "ВОПРОС ВЛАДЕЛЬЦА БИЗНЕСА:\n" ++ message ++ utf8 "\n\n")
    ++ utf8 "═══════════════════════════════════════════════════════\n", ?_⟩
  simp only [buildPrompt, requirementsBlock, List.append_assoc]

set_option maxRecDepth 1000000 in
/-- Counterexample to claim C19 as stated: two argument tuples that differ in
the username give different texts from the header "ТРЕБОВАНИЯ К ОТВЕТУ:" on. -/
theorem requirements_depend_on_user :
    requirementsText (buildPrompt (utf8 "Как дела?") [] (utf8 "ivan") [] [] []) ≠
      requirementsText (buildPrompt (utf8 "Как дела?") [] [] [] [] []) := by
  decide

/-- Claim C19, amended. The text of the prompt from the header "ТРЕБОВАНИЯ К
ОТВЕТУ:" through the closing delimiter depends only on the username, the
business name and the specialization (they are named in requirement 3): two
prompts with the same three fields end with the same block, whatever their
messages, categories and file texts; without the three fields the line of
requirement 3 is the fixed line about small business. -/
theorem requirements_block_fixed (m c m2 c2 u b s : Str) (f f2 : List Str) :
    (∃ head head2, buildPrompt m c u b s f = head ++ requirementsBlock u b s
      ∧ buildPrompt m2 c2 u b s f2 = head2 ++ requirementsBlock u b s)
    ∧ (∃ rest, requirementsBlock u b s = utf8 "ТРЕБОВАНИЯ К ОТВЕТУ:\n" ++ rest)
    ∧ promptSpecifics [] [] [] = utf8 "   - Учитывай специфику малого бизнеса\n\n" := by
  refine ⟨?_, ?_, ?_⟩
  · obtain ⟨h1, e1⟩ := buildPrompt_ends_with_requirements m c u b s f
    obtain ⟨h2, e2⟩ := buildPrompt_ends_with_requirements m2 c2 u b s f2
    exact ⟨h1, h2, e1, e2⟩
  · unfold requirementsBlock
    simp only [List.append_assoc]
    exact ⟨_, rfl⟩
  · simp [promptSpecifics]

set_option maxRecDepth 100000 in
/-- Claim C14, the code at the failing input. With the category financial and a
file of four short lines that each contain "прибыль" and four that each contain
"рост", the profit group of the financial section writes four bullet lines,
while the growth group, whose loop has the test i < 3, writes three. -/
theorem financial_profit_group_unbounded :
    generateSimpleResponse (utf8 "Покажи анализ") (utf8 "financial") [] [] []
        [utf8 "прибыль 1\nприбыль 2\nприбыль 3\nприбыль 4\nрост 1\nрост 2\nрост 3\nрост 4"] =
      utf8 "📊 **Финансовый анализ:**\n\n**Анализ прибыли:**\n- прибыль 1\n- прибыль 2\n- прибыль 3\n- прибыль 4\n\n**Динамика роста:**\n- рост 1\n- рост 2\n- рост 3\n\n" := by
  decide

set_option maxRecDepth 100000 in
/-- Counterexample to claim C15 as stated: a staff line followed by four blank
lines and then four non-blank lines; the collected block is the staff line
alone, none of the following non-blank lines is in the answer. -/
theorem employee_block_skips_past_blanks :
    extractEmployeeInfo (utf8 "Сотрудник: Иван\n\n\n\n\nДолжность: бариста\nЗарплата: 100\nСтаж: 2\nТелефон: 5") =
      utf8 "**Найдено информации о сотрудниках:**\n- Всего сотрудников: найдено упоминаний\n\n**Сотрудник 1:**\nСотрудник: Иван\n\n"
    ∧ (employeeLoop (strSplit (utf8 "Сотрудник: Иван\n\n\n\n\nДолжность: бариста\nЗарплата: 100\nСтаж: 2\nТелефон: 5") (utf8 "\n")) 0 []).2 =
      [utf8 "Сотрудник: Иван\n"] := by
  constructor <;> decide

/-- The inner loop of extractEmployeeInfo writes the non-blank lines of its
window, each followed by a newline. -/
theorem employeeBlock_eq (window : List Str) :
    employeeBlock window =
      ((window.filter fun l => decide (strTrimSpace l ≠ [])).map
        fun l => l ++ utf8 "\n").flatten := by
  induction window with
  | nil => rfl
  | cons l rest ih =>
    by_cases h : strTrimSpace l = []
    · simp [employeeBlock, h, ih]
    · simp [employeeBlock, h, ih]

/-- One step of the loop of extractEmployeeInfo at a staff line. -/
theorem employeeLoop_staff (line : Str) (rest : List Str) (count : Int) (employees : List Str)
    (hm : mentionsStaff line = true) :
    employeeLoop (line :: rest) count employees =
      if employeeLoop.len3
          (if len (employeeBlock ((line :: rest).take 5)) < 300
            then employees ++ [employeeBlock ((line :: rest).take 5)] else employees) = true
      then (count + 1,
          if len (employeeBlock ((line :: rest).take 5)) < 300
            then employees ++ [employeeBlock ((line :: rest).take 5)] else employees)
      else employeeLoop rest (count + 1)
          (if len (employeeBlock ((line :: rest).take 5)) < 300
            then employees ++ [employeeBlock ((line :: rest).take 5)] else employees) := by
  have hm2 : (strContains (strToLower line) (utf8 "сотрудник")
      || strContains (strToLower line) (utf8 "работник")) = true := hm
  rw [employeeLoop]
  simp only [hm2, if_true]

/-- One step of the loop of extractEmployeeInfo at a line that is not a staff
line. -/
theorem employeeLoop_other (line : Str) (rest : List Str) (count : Int) (employees : List Str)
    (hm : mentionsStaff line = false) :
    employeeLoop (line :: rest) count employees = employeeLoop rest count employees := by
  have hm2 : (strContains (strToLower line) (utf8 "сотрудник")
      || strContains (strToLower line) (utf8 "работник")) = false := hm
  rw [employeeLoop]
  simp only [hm2, Bool.false_eq_true, if_false]

/-- Every block that the loop of extractEmployeeInfo adds to employees is the
window block of a staff line: the non-blank lines among that line and the four
lines after it. -/
theorem employeeLoop_blocks (lines : List Str) : ∀ (count : Int)
    (employees : List Str) (e : Str),
    e ∈ (employeeLoop lines count employees).2 →
    e ∈ employees ∨ ∃ i, i < lines.length ∧ mentionsStaff (lines.getD i []) = true
      ∧ e = windowBlock (lines.drop i) := by
  induction lines with
  | nil =>
    intro count employees e he
    left
    simpa [employeeLoop] using he
  | cons line rest ih =>
    intro count employees e he
    have hshift : (∃ i, i < rest.length ∧ mentionsStaff (rest.getD i []) = true
        ∧ e = windowBlock (rest.drop i)) →
        ∃ i, i < (line :: rest).length ∧ mentionsStaff ((line :: rest).getD i []) = true
          ∧ e = windowBlock ((line :: rest).drop i) := by
      rintro ⟨i, hi, hs, hb⟩
      exact ⟨i + 1, Nat.succ_lt_succ hi, hs, hb⟩
    cases hm : mentionsStaff line with
    | false =>
      rw [employeeLoop_other line rest count employees hm] at he
      rcases ih _ _ e he with h | h
      · left; exact h
      · right; exact hshift h
    | true =>
      rw [employeeLoop_staff line rest count employees hm] at he
      have hblock : employeeBlock ((line :: rest).take 5) = windowBlock (line :: rest) := by
        rw [employeeBlock_eq]; rfl
      have hmem : ∀ x, x ∈ (if len (employeeBlock ((line :: rest).take 5)) < 300
            then employees ++ [employeeBlock ((line :: rest).take 5)] else employees) →
          x ∈ employees ∨ ∃ i, i < (line :: rest).length
            ∧ mentionsStaff ((line :: rest).getD i []) = true
            ∧ x = windowBlock ((line :: rest).drop i) := by
        intro x hx
        split at hx
        · rcases List.mem_append.1 hx with h | h
          · left; exact h
          · right
            rw [List.mem_singleton] at h
            exact ⟨0, Nat.succ_pos _, hm, by rw [h, hblock]; rfl⟩
        · left; exact hx
      revert he hmem
      generalize (if len (employeeBlock ((line :: rest).take 5)) < 300
          then employees ++ [employeeBlock ((line :: rest).take 5)] else employees) = emps2
      intro he hmem
      by_cases h3 : employeeLoop.len3 emps2 = true
      · rw [if_pos h3] at he
        exact hmem e he
      · rw [if_neg h3] at he
        rcases ih _ _ e he with h | h
        · exact hmem e h
        · right; exact hshift h

/-- Claim C15, amended. In extractEmployeeInfo every collected employee block
belongs to a staff line (a line whose lower-case form contains "сотрудник" or
"работник") and consists of the non-blank lines among that line and the four
lines that follow it, each followed by a newline: the window is five lines
long, blank lines in it are skipped and not replaced by later lines. -/
theorem employee_block_window (text e : Str)
    (he : e ∈ (employeeLoop (strSplit text (utf8 "\n")) 0 []).2) :
    ∃ i, i < (strSplit text (utf8 "\n")).length
      ∧ mentionsStaff ((strSplit text (utf8 "\n")).getD i []) = true
      ∧ e = windowBlock ((strSplit text (utf8 "\n")).drop i) := by
  rcases employeeLoop_blocks _ 0 [] e he with h | h
  · cases h
  · exact h

set_option maxRecDepth 100000 in
/-- Witness of claim C15, amended: the block of the staff line at index 1 of a
text with a blank line inside the window. -/
theorem employee_block_window_witness :
    utf8 "Сотрудник: Иван\nДолжность: бариста\nЗарплата: 100\n" ∈
      (employeeLoop (strSplit (utf8 "Штат\nСотрудник: Иван\n\nДолжность: бариста\n\nЗарплата: 100\nСтаж: 2")
        (utf8 "\n")) 0 []).2
    ∧ ∃ i, i < (strSplit (utf8 "Штат\nСотрудник: Иван\n\nДолжность: бариста\n\nЗарплата: 100\nСтаж: 2")
          (utf8 "\n")).length
      ∧ mentionsStaff ((strSplit (utf8 "Штат\nСотрудник: Иван\n\nДолжность: бариста\n\nЗарплата: 100\nСтаж: 2")
          (utf8 "\n")).getD i []) = true
      ∧ utf8 "Сотрудник: Иван\nДолжность: бариста\nЗарплата: 100\n" =
        windowBlock ((strSplit (utf8 "Штат\nСотрудник: Иван\n\nДолжность: бариста\n\nЗарплата: 100\nСтаж: 2")
          (utf8 "\n")).drop i) :=
  ⟨by decide, employee_block_window _ _ (by decide)⟩

set_option maxRecDepth 100000 in
/-- The growth information extracted from the two period files, in both orders
of the files. -/
theorem extractGrowthInfo_periodFiles :
    extractGrowthInfo (strJoin periodFiles (utf8 "\n\n")) = periodComparison
    ∧ extractGrowthInfo (strJoin periodFiles.reverse (utf8 "\n\n")) = periodComparison := by
  constructor <;> decide

set_option maxRecDepth 100000 in
/-- Counterexample to claim C13 as stated: the code's own suggested question
"Как выросла прибыль" extended with both period names has growth intent, but it
also contains the financial keyword "прибыль", so the financial branch answers
and no period-comparison section is written. -/
theorem growth_question_with_profit_keyword :
    strContains (strToLower (utf8 "Как выросла прибыль за ноябрь и декабрь?")) (utf8 "как") = true
    ∧ strContains (strToLower (utf8 "Как выросла прибыль за ноябрь и декабрь?")) (utf8 "вырос")
        = true
    ∧ generateSimpleResponse (utf8 "Как выросла прибыль за ноябрь и декабрь?") [] [] [] []
        periodFiles =
      utf8 "📊 **Финансовый анализ:**\n\n**Анализ прибыли:**\n- Прибыль ноябрь: 1000\n- Прибыль декабрь: 1200\n\n📊 **Финансовый анализ:**\n\n**Прибыль:**\n- Прибыль ноябрь: 1000\n- Прибыль декабрь: 1200\n\n"
    ∧ strContains (generateSimpleResponse (utf8 "Как выросла прибыль за ноябрь и декабрь?") []
        [] [] [] periodFiles) (utf8 "Сравнение периодов") = false := by
  refine ⟨by decide, by decide, by decide, by decide⟩

/-- Claim C13, amended. Given the empty category and the two file texts
"Прибыль ноябрь: 1000" and "Прибыль декабрь: 1200" (in either order), for every
growth-intent question (lower-case form contains "как" and one of "вырос",
"рост") that contains no financial keyword (прибыль, выручка, доход, расход,
продаж) and no staff keyword (сотрудник, работник, персонал), the answer of
generateSimpleResponse is the period-comparison section with both lines, the
November line before the December line, followed by the business footer. -/
theorem growth_question_period_comparison (message username businessName specialization : Str)
    (hhow : strContains (strToLower message) (utf8 "как") = true)
    (hgrow : strContains (strToLower message) (utf8 "вырос") = true
      ∨ strContains (strToLower message) (utf8 "рост") = true)
    (h1 : strContains (strToLower message) (utf8 "прибыль") = false)
    (h2 : strContains (strToLower message) (utf8 "выручка") = false)
    (h3 : strContains (strToLower message) (utf8 "доход") = false)
    (h4 : strContains (strToLower message) (utf8 "расход") = false)
    (h5 : strContains (strToLower message) (utf8 "продаж") = false)
    (h6 : strContains (strToLower message) (utf8 "сотрудник") = false)
    (h7 : strContains (strToLower message) (utf8 "работник") = false)
    (h8 : strContains (strToLower message) (utf8 "персонал") = false) :
    generateSimpleResponse message [] username businessName specialization periodFiles =
      periodComparison ++ businessFooter businessName specialization
    ∧ generateSimpleResponse message [] username businessName specialization
        periodFiles.reverse =
      periodComparison ++ businessFooter businessName specialization := by
  have hgrow2 : (strContains (strToLower message) (utf8 "вырос")
      || strContains (strToLower message) (utf8 "рост")) = true := by
    rcases hgrow with h | h <;> simp [h]
  have hnf : decide (([] : Str) = utf8 "financial") = false := by decide
  have hnh : decide (([] : Str) = utf8 "hr") = false := by decide
  have hnl : ¬ (([] : Str) = utf8 "legal") := by decide
  have hpc : periodComparison ≠ [] := by decide
  have key : ∀ files : List Str, files.length > 0 →
      extractGrowthInfo (strJoin files (utf8 "\n\n")) = periodComparison →
      generateSimpleResponse message [] username businessName specialization files =
        periodComparison ++ businessFooter businessName specialization := by
    intro files hlen hg
    have hF : financialSection [] (strToLower message) files (strJoin files (utf8 "\n\n"))
        (strToLower (strJoin files (utf8 "\n\n"))) = [] := by
      simp only [financialSection, hnf, h1, h2, h3, h4, Bool.or_self, Bool.false_eq_true,
        if_false]
    have hH : hrSection [] (strToLower message) files (strJoin files (utf8 "\n\n"))
        (strToLower (strJoin files (utf8 "\n\n"))) = [] := by
      simp only [hrSection, hnh, h6, h7, h8, Bool.or_self, Bool.false_eq_true, if_false]
    have hL : legalSection [] = [] := by
      simp only [legalSection, hnl, if_false]
    have hD : defaultSection [] (strToLower message) files (strJoin files (utf8 "\n\n"))
        (strToLower (strJoin files (utf8 "\n\n"))) = periodComparison := by
      simp only [defaultSection, decide_True, Bool.true_or, if_true, hlen, h1, h2, h3, h4, h5,
        h6, h7, h8, Bool.or_self, Bool.false_eq_true, if_false, hhow, hgrow2, Bool.and_self,
        hg, ne_eq, hpc, not_false_eq_true]
    simp only [generateSimpleResponse, hF, hH, hL, hD, List.nil_append]
  exact ⟨key periodFiles (by decide) extractGrowthInfo_periodFiles.1,
    key periodFiles.reverse (by decide) extractGrowthInfo_periodFiles.2⟩

set_option maxRecDepth 100000 in
/-- Witness of claim C13, amended: a growth question that names both periods
and has no financial or staff keyword. -/
theorem growth_question_period_comparison_witness :
    generateSimpleResponse (utf8 "Как вырос бизнес за ноябрь и декабрь?") [] (utf8 "ivan")
        (utf8 "Кофейня") [] periodFiles =
      periodComparison ++ businessFooter (utf8 "Кофейня") [] :=
  (growth_question_period_comparison (utf8 "Как вырос бизнес за ноябрь и декабрь?")
    (utf8 "ivan") (utf8 "Кофейня") [] (by decide) (Or.inl (by decide)) (by decide) (by decide)
    (by decide) (by decide) (by decide) (by decide) (by decide) (by decide)).1

/-- An ASCII byte is not a continuation byte. -/
theorem isCont_ascii (x : UInt8) (hx : x.toNat < 0x80) : isCont x = false := by
  simp only [isCont, Bool.and_eq_false_iff, decide_eq_false_iff_not]
  left; omega

/-- A byte that is not ASCII and is followed by an ASCII byte decodes to
RuneError of width 1. -/
theorem decodeRune_lead_ascii (b0 x : UInt8) (r : Str) (h0 : ¬ b0.toNat < 0x80)
    (hx : x.toNat < 0x80) : decodeRune (b0 :: x :: r) = (runeError, 1) := by
  have hc := isCont_ascii x hx
  rcases r with _ | ⟨y, _ | ⟨z, r⟩⟩ <;>
  · simp only [decodeRune, h0, if_false, hc, Bool.false_eq_true]
    split_ifs <;>
      first
      | rfl
      | (exfalso; simp only [Bool.and_eq_true, decide_eq_true_eq] at *; omega)

/-- A lone byte that is not ASCII decodes to RuneError of width 1. -/
theorem decodeRune_one_eq (b : UInt8) (h : ¬ b.toNat < 0x80) :
    decodeRune [b] = (runeError, 1) := by
  simp only [decodeRune, h, if_false]
  split_ifs <;> rfl

/-- Two bytes of which the second is a continuation byte and the first the lead
byte of a longer rune decode to RuneError of width 1. -/
theorem decodeRune_short_two_eq (b b1 : UInt8) (h : ¬ b.toNat < 0xE0) :
    decodeRune [b, b1] = (runeError, 1) := by
  have h1 : ¬ b.toNat < 0x80 := by omega
  have h2 : ¬ b.toNat < 0xC2 := by omega
  simp only [decodeRune, h, h1, h2, if_false]
  split_ifs <;> rfl

/-- Three bytes that start with the lead byte of a four-byte rune decode to
RuneError of width 1. -/
theorem decodeRune_short_three_eq (b b1 b2 : UInt8) (h : ¬ b.toNat < 0xF0) :
    decodeRune [b, b1, b2] = (runeError, 1) := by
  have h1 : ¬ b.toNat < 0x80 := by omega
  have h2 : ¬ b.toNat < 0xC2 := by omega
  have h3 : ¬ b.toNat < 0xE0 := by omega
  simp only [decodeRune, h, h1, h2, h3, if_false]
  split_ifs <;> rfl

/-- A lead byte of a three-byte or longer rune, one more byte and then an ASCII
byte decode to RuneError of width 1. -/
theorem decodeRune_two_ascii (b0 b1 x : UInt8) (r : Str) (h : ¬ b0.toNat < 0xE0)
    (hx : x.toNat < 0x80) : decodeRune (b0 :: b1 :: x :: r) = (runeError, 1) := by
  have hc := isCont_ascii x hx
  have h1 : ¬ b0.toNat < 0x80 := by omega
  have h2 : ¬ b0.toNat < 0xC2 := by omega
  rcases r with _ | ⟨y, r⟩ <;>
  · simp only [decodeRune, h, h1, h2, if_false, hc, Bool.and_false, Bool.false_and,
      Bool.false_eq_true]
    split_ifs <;> rfl

/-- The lead byte of a four-byte rune, two more bytes and then an ASCII byte
decode to RuneError of width 1. -/
theorem decodeRune_three_ascii (b0 b1 b2 x : UInt8) (r : Str) (h : ¬ b0.toNat < 0xF0)
    (hx : x.toNat < 0x80) : decodeRune (b0 :: b1 :: b2 :: x :: r) = (runeError, 1) := by
  have hc := isCont_ascii x hx
  have h1 : ¬ b0.toNat < 0x80 := by omega
  have h2 : ¬ b0.toNat < 0xC2 := by omega
  have h3 : ¬ b0.toNat < 0xE0 := by omega
  simp only [decodeRune, h, h1, h2, h3, if_false, hc, Bool.and_false, Bool.false_eq_true]
  split_ifs <;> rfl

/-- The first rune of a string does not change when an ASCII byte and more text
are appended: an ASCII byte never continues a rune. -/
theorem decodeRune_append_ascii (b0 : UInt8) (t r : Str) (x : UInt8) (hx : x.toNat < 0x80) :
    decodeRune (b0 :: (t ++ x :: r)) = decodeRune (b0 :: t) := by
  by_cases h0 : b0.toNat < 0x80
  · rw [decodeRune_ascii b0 _ h0, decodeRune_ascii b0 _ h0]
  · rcases t with _ | ⟨t1, _ | ⟨t2, _ | ⟨t3, t⟩⟩⟩
    · rw [List.nil_append, decodeRune_lead_ascii b0 x r h0 hx, decodeRune_one_eq b0 h0]
    · simp only [List.cons_append, List.nil_append]
      by_cases h2 : b0.toNat < 0xE0
      · rw [decodeRune_two b0 t1 _ h2]
      · rw [decodeRune_two_ascii b0 t1 x r h2 hx, decodeRune_short_two_eq b0 t1 h2]
    · simp only [List.cons_append, List.nil_append]
      by_cases h3 : b0.toNat < 0xF0
      · rw [decodeRune_three b0 t1 t2 _ h3]
      · rw [decodeRune_three_ascii b0 t1 t2 x r h3 hx, decodeRune_short_three_eq b0 t1 t2 h3]
    · simp only [List.cons_append]
      rw [decodeRune_four, decodeRune_four b0 t1 t2 t3 t]

/-- The decoder never reads past the end: the width of the first rune is at
most the length of the string. -/
theorem decodeRune_width_le (s : Str) : (decodeRune s).2 ≤ s.length := by
  rcases s with _ | ⟨b0, _ | ⟨b1, _ | ⟨b2, _ | ⟨b3, t⟩⟩⟩⟩
  · simp [decodeRune]
  · by_cases h : b0.toNat < 0x80
    · rw [decodeRune_ascii b0 _ h]; simp
    · rw [decodeRune_one_eq b0 h]; simp
  all_goals
    simp only [decodeRune, List.length_cons]
    split_ifs <;> simp

/-- The runes of a string followed by an ASCII byte and more text: the runes of
the string, the ASCII character, the runes of the rest. -/
theorem runesFrom_append_ascii (a : Str) (x : UInt8) (b : Str) (hx : x.toNat < 0x80) :
    ∀ k, k ≤ a.length →
      runesFrom k (a ++ x :: b) = runesFrom k a ++ Char.ofNat x.toNat :: runesFrom 0 b := by
  induction a with
  | nil =>
    intro k hk
    have hk0 : k = 0 := by simpa using hk
    subst hk0
    simp only [List.nil_append, runesFrom, decodeRune_ascii x b hx, Nat.sub_self]
  | cons b0 t ih =>
    intro k hk
    cases k with
    | succ k =>
      simp only [List.cons_append, runesFrom]
      exact ih k (by simpa using hk)
    | zero =>
      have hw := decodeRune_width_le (b0 :: t)
      have hk2 : (decodeRune (b0 :: t)).2 - 1 ≤ t.length := by
        simp only [List.length_cons] at hw; omega
      have hl : runesFrom 0 (b0 :: t ++ x :: b) =
          (decodeRune (b0 :: (t ++ x :: b))).1
            :: runesFrom ((decodeRune (b0 :: (t ++ x :: b))).2 - 1) (t ++ x :: b) := rfl
      have hr : runesFrom 0 (b0 :: t) =
          (decodeRune (b0 :: t)).1 :: runesFrom ((decodeRune (b0 :: t)).2 - 1) t := rfl
      rw [hl, hr, decodeRune_append_ascii b0 t b x hx, ih _ hk2, List.cons_append]

/-- The runes of a string followed by an ASCII byte and more text. -/
theorem decodeRunes_append_ascii (a : Str) (x : UInt8) (b : Str) (hx : x.toNat < 0x80) :
    decodeRunes (a ++ x :: b) = decodeRunes a ++ Char.ofNat x.toNat :: decodeRunes b :=
  runesFrom_append_ascii a x b hx 0 (Nat.zero_le _)

/-- Go strings.ToLower works line by line: the lower-case form of a text with a
newline is the lower-case forms of the two parts around the newline. -/
theorem strToLower_append_newline (a b : Str) :
    strToLower (a ++ UInt8.ofNat 0x0A :: b) =
      strToLower a ++ UInt8.ofNat 0x0A :: strToLower b := by
  unfold strToLower
  rw [decodeRunes_append_ascii a _ b (by decide), List.map_append, List.map_cons,
    encodeRunes_append]
  rfl

/-- The newline byte. -/
theorem utf8_newline : utf8 "\n" = [UInt8.ofNat 0x0A] := by decide

/-- Go strings.Split on the newline, byte by byte: a newline starts a new
piece, any other byte joins the first piece of the rest. -/
theorem strSplit_newline_cons (b : UInt8) (t : Str) :
    strSplit (b :: t) (utf8 "\n") =
      if b = UInt8.ofNat 0x0A then [] :: strSplit t (utf8 "\n")
      else match strSplit t (utf8 "\n") with
        | [] => [[b]]
        | piece :: more => (b :: piece) :: more := by
  rw [utf8_newline]
  unfold strSplit
  by_cases h : b = UInt8.ofNat 0x0A
  · subst h
    simp [splitFrom, List.isPrefixOf]
  · have h3 : ¬ (UInt8.ofNat 0x0A = b) := fun e => h e.symm
    have h2 : (UInt8.ofNat 0x0A == b) = false := by
      simpa [beq_eq_false_iff_ne] using h3
    rw [if_neg h]
    simp only [splitFrom, List.isPrefixOf, h2, Bool.false_and, Bool.false_eq_true, if_false]

/-- Go strings.Split never returns the empty list. -/
theorem strSplit_ne_nil (t : Str) : strSplit t (utf8 "\n") ≠ [] := by
  induction t with
  | nil => simp [strSplit, splitFrom]
  | cons b t ih =>
    rw [strSplit_newline_cons]
    split
    · simp
    · split
      · simp
      · simp

/-- Go strings.Split on the newline of a text with a newline in it: the pieces
of the part before the newline, then the pieces of the part after it. -/
theorem strSplit_append_newline (a b : Str) :
    strSplit (a ++ UInt8.ofNat 0x0A :: b) (utf8 "\n") =
      strSplit a (utf8 "\n") ++ strSplit b (utf8 "\n") := by
  induction a with
  | nil =>
    rw [List.nil_append, strSplit_newline_cons, if_pos rfl]
    rfl
  | cons x a ih =>
    rw [List.cons_append, strSplit_newline_cons, strSplit_newline_cons x a, ih]
    by_cases h : x = UInt8.ofNat 0x0A
    · simp [h]
    · simp only [h, if_false]
      cases hs : strSplit a (utf8 "\n") with
      | nil => exact absurd hs (strSplit_ne_nil a)
      | cons piece more => rfl

/-- A text without a newline is its own single line. -/
theorem strSplit_of_no_newline (t : Str) (h : UInt8.ofNat 0x0A ∉ t) :
    strSplit t (utf8 "\n") = [t] := by
  induction t with
  | nil => simp [strSplit, splitFrom]
  | cons x t ih =>
    have hx : x ≠ UInt8.ofNat 0x0A := fun e => h (by rw [e]; exact List.mem_cons_self _ _)
    have ht : UInt8.ofNat 0x0A ∉ t := fun e => h (List.mem_cons_of_mem _ e)
    rw [strSplit_newline_cons, if_neg hx, ih ht]

/-- The lower-case form of a text contains what the lower-case form of one of
its lines contains. -/
theorem strContains_lower_of_line (kw : Str) : ∀ (n : Nat) (text L : Str), text.length ≤ n →
    L ∈ strSplit text (utf8 "\n") → strContains (strToLower L) kw = true →
    strContains (strToLower text) kw = true := by
  intro n
  induction n with
  | zero =>
    intro text L hn hL hk
    have : text = [] := List.length_eq_zero.1 (Nat.le_zero.1 hn)
    subst this
    have : L = [] := by simpa [strSplit, splitFrom] using hL
    subst this
    exact hk
  | succ n ih =>
    intro text L hn hL hk
    by_cases hmem : UInt8.ofNat 0x0A ∈ text
    · obtain ⟨a, b, hab, hna⟩ := List.eq_append_cons_of_mem hmem
      subst hab
      rw [strSplit_append_newline, strSplit_of_no_newline a hna] at hL
      rw [strToLower_append_newline]
      rcases List.mem_append.1 hL with h | h
      · rw [List.mem_singleton] at h
        subst h
        exact strContains_append_left _ _ _ hk
      · have hlen : b.length ≤ n := by
          simp only [List.length_append, List.length_cons] at hn
          omega
        have := ih b L hlen h hk
        exact strContains_append_right _ _ _
          (strContains_append_right [UInt8.ofNat 0x0A] _ _ this)
    · rw [strSplit_of_no_newline text hmem, List.mem_singleton] at hL
      subst hL
      exact hk

/-- A line of one of the file texts is a line of the joined text that
generateSimpleResponse searches. -/
theorem mem_strSplit_strJoin (L f : Str) (files : List Str) (hf : f ∈ files)
    (hL : L ∈ strSplit f (utf8 "\n")) :
    L ∈ strSplit (strJoin files (utf8 "\n\n")) (utf8 "\n") := by
  have hsep : utf8 "\n\n" = [UInt8.ofNat 0x0A, UInt8.ofNat 0x0A] := by decide
  induction files with
  | nil => cases hf
  | cons a rest ih =>
    cases rest with
    | nil =>
      have : f = a := by simpa using hf
      subst this
      exact hL
    | cons b rest =>
      have hj : strJoin (a :: b :: rest) (utf8 "\n\n") =
          a ++ UInt8.ofNat 0x0A :: ([] ++ UInt8.ofNat 0x0A :: strJoin (b :: rest) (utf8 "\n\n")) := by
        simp only [strJoin, hsep, List.append_assoc, List.cons_append, List.nil_append]
      rw [hj, strSplit_append_newline, strSplit_append_newline]
      rcases List.mem_cons.1 hf with h | h
      · subst h
        exact List.mem_append_left _ hL
      · exact List.mem_append_right _ (List.mem_append_right _ (ih h))

/-- A loop that writes a bullet for every line that passes a test on the line
alone writes the bullet of each such line of the list. -/
theorem bulletsFrom_mem (keep : Str → Bool) (L : Str) (hk : keep L = true) (lines : List Str)
    (hL : L ∈ lines) : ∀ i, ∃ before after,
      bulletsFrom (fun _ line => keep line) i lines =
        before ++ (utf8 "- " ++ strTrimSpace L ++ utf8 "\n") ++ after := by
  induction lines with
  | nil => cases hL
  | cons l rest ih =>
    intro i
    rcases List.mem_cons.1 hL with h | h
    · subst h
      exact ⟨[], bulletsFrom (fun _ line => keep line) (i + 1) rest, by
        simp only [bulletsFrom, hk, if_true, List.nil_append]⟩
    · obtain ⟨before, after, hb⟩ := ih h (i + 1)
      exact ⟨(if keep l = true then utf8 "- " ++ strTrimSpace l ++ utf8 "\n" else []) ++ before,
        after, by simp only [bulletsFrom, hb, List.append_assoc]⟩

/-- The keyword "выручка" is its own lower-case form. -/
theorem strToLower_revenue : strToLower (utf8 "выручка") = utf8 "выручка" := by decide

/-- A line whose lower-case form contains "выручка" is among the revenue lines
that the financial section extracts. -/
theorem mem_revenueLines (text L : Str) (hL : L ∈ strSplit text (utf8 "\n"))
    (hkw : strContains (strToLower L) (utf8 "выручка") = true) :
    L ∈ extractLinesContaining text [utf8 "выручка", utf8 "общая выручка"] := by
  unfold extractLinesContaining
  rw [List.mem_filter]
  refine ⟨hL, ?_⟩
  simp only [List.any_cons, strToLower_revenue, hkw, Bool.true_or]

/-- Claim C12. Keyword routing: for every question whose lower-case form
contains "выручка", with the empty category, and every list of file texts in
which some line L (non-empty, without surrounding white space, shorter than 200
bytes) contains "выручка" case-insensitively, the answer of
generateSimpleResponse starts with the header of the financial section and
holds the revenue subsection "Анализ выручки", among whose bullets is the
bullet "- " followed by L verbatim and a newline. -/
theorem revenue_keyword_routing (message username businessName specialization L f : Str)
    (fileContents : List Str)
    (hq : strContains (strToLower message) (utf8 "выручка") = true)
    (hf : f ∈ fileContents) (hL : L ∈ strSplit f (utf8 "\n"))
    (hne : L ≠ []) (htrim : strTrimSpace L = L) (hshort : len L < 200)
    (hkw : strContains (strToLower L) (utf8 "выручка") = true) :
    ∃ profit before after rest,
      generateSimpleResponse message [] username businessName specialization fileContents =
        utf8 "📊 **Финансовый анализ:**\n\n" ++ profit
          ++ (utf8 "**Анализ выручки:**\n"
            ++ (before ++ (utf8 "- " ++ L ++ utf8 "\n") ++ after) ++ utf8 "\n")
          ++ rest
      ∧ before ++ (utf8 "- " ++ L ++ utf8 "\n") ++ after =
        bulletsFrom (fun _ line => shortLine line) 0
          (extractLinesContaining (strJoin fileContents (utf8 "\n\n"))
            [utf8 "выручка", utf8 "общая выручка"]) := by
  have hlen : fileContents.length > 0 := List.length_pos_of_mem hf
  have hline : L ∈ strSplit (strJoin fileContents (utf8 "\n\n")) (utf8 "\n") :=
    mem_strSplit_strJoin L f fileContents hf hL
  have hrev : strContains (strToLower (strJoin fileContents (utf8 "\n\n"))) (utf8 "выручка")
      = true :=
    strContains_lower_of_line _ _ _ L (Nat.le_refl _) hline hkw
  have hmem := mem_revenueLines _ L hline hkw
  have hpos : (extractLinesContaining (strJoin fileContents (utf8 "\n\n"))
      [utf8 "выручка", utf8 "общая выручка"]).length > 0 := List.length_pos_of_mem hmem
  have hkeep : shortLine L = true := by
    have h0 : len L > 0 := by
      have : 0 < L.length := List.length_pos.2 hne
      simp only [len]; omega
    simp only [shortLine, h0, hshort, decide_True, Bool.and_self]
  obtain ⟨before, after, hb⟩ := bulletsFrom_mem shortLine L hkeep _ hmem 0
  rw [htrim] at hb
  refine ⟨
    (if strContains (strToLower (strJoin fileContents (utf8 "\n\n"))) (utf8 "прибыль") then
      if (extractLinesContaining (strJoin fileContents (utf8 "\n\n"))
          [utf8 "прибыль", utf8 "чистая прибыль"]).length > 0 then
        utf8 "**Анализ прибыли:**\n"
          ++ bulletsFrom (fun _ line => shortLine line) 0
            (extractLinesContaining (strJoin fileContents (utf8 "\n\n"))
              [utf8 "прибыль", utf8 "чистая прибыль"]) ++ utf8 "\n"
      else []
    else []),
    before, after,
    (if strContains (strToLower (strJoin fileContents (utf8 "\n\n"))) (utf8 "рост") then
      if (extractLinesContaining (strJoin fileContents (utf8 "\n\n"))
          [utf8 "рост", utf8 "увеличил"]).length > 0 then
        utf8 "**Динамика роста:**\n"
          ++ bulletsFrom (fun i line => decide (i < 3) && shortLine line) 0
            (extractLinesContaining (strJoin fileContents (utf8 "\n\n"))
              [utf8 "рост", utf8 "увеличил"])
          ++ utf8 "\n"
      else []
    else [])
    ++ hrSection [] (strToLower message) fileContents (strJoin fileContents (utf8 "\n\n"))
      (strToLower (strJoin fileContents (utf8 "\n\n")))
    ++ legalSection []
    ++ defaultSection [] (strToLower message) fileContents
      (strJoin fileContents (utf8 "\n\n")) (strToLower (strJoin fileContents (utf8 "\n\n")))
    ++ businessFooter businessName specialization,
    ?_, hb.symm⟩
  rw [← hb]
  simp only [generateSimpleResponse, financialSection, hq, Bool.or_true, Bool.true_or, if_true,
    hlen, hrev, hpos, Bool.not_true, Bool.and_false, Bool.false_eq_true, if_false,
    List.append_nil, List.append_assoc]

set_option maxRecDepth 100000 in
/-- Witness of claim C12: the question "Какая выручка?" over one file text with
the lines "Отчет" and "Выручка: 5000". -/
theorem revenue_keyword_routing_witness :
    ∃ profit before after rest,
      generateSimpleResponse (utf8 "Какая выручка?") [] (utf8 "ivan") (utf8 "Кофейня") []
          [utf8 "Отчет\nВыручка: 5000"] =
        utf8 "📊 **Финансовый анализ:**\n\n" ++ profit
          ++ (utf8 "**Анализ выручки:**\n"
            ++ (before ++ (utf8 "- " ++ utf8 "Выручка: 5000" ++ utf8 "\n") ++ after) ++ utf8 "\n")
          ++ rest
      ∧ before ++ (utf8 "- " ++ utf8 "Выручка: 5000" ++ utf8 "\n") ++ after =
        bulletsFrom (fun _ line => shortLine line) 0
          (extractLinesContaining (strJoin [utf8 "Отчет\nВыручка: 5000"] (utf8 "\n\n"))
            [utf8 "выручка", utf8 "общая выручка"]) :=
  revenue_keyword_routing (utf8 "Какая выручка?") (utf8 "ivan") (utf8 "Кофейня") []
    (utf8 "Выручка: 5000") (utf8 "Отчет\nВыручка: 5000") [utf8 "Отчет\nВыручка: 5000"]
    (by decide) (by decide) (by decide) (by decide) (by decide) (by decide) (by decide)

/-- Claim C20, the code at the failing input: the answer "Поднимите средний чек."
is left unchanged by cleanAIResponse and holds none of the four markers, yet
for the prompt built by buildPrompt from the question "Как увеличить продажи?"
of the user "ivan", cleaning the prompt followed by the answer returns the
answer preceded by the line "═══": the closing delimiter line of the prompt,
shortened to three characters by removeRepeatingChars, stays in the output. -/
theorem cleanAIResponse_echoed_prompt_keeps_delimiter :
    cleanAIResponse echoedAnswer = echoedAnswer
    ∧ cleanMarkers.all (fun marker => !strContains echoedAnswer marker) = true
    ∧ cleanAIResponse (echoedPrompt ++ echoedAnswer) = utf8 "═══\n" ++ echoedAnswer
    ∧ cleanAIResponse (echoedPrompt ++ echoedAnswer) ≠ echoedAnswer := by
  decide!

/-- The first loop of GenerateResponse collects the blocks of the readable
files. -/
theorem readFiles_eq_readableBlocks (env : Env) (files : List File) :
    readFiles env files = readableBlocks env files := by
  induction files with
  | nil => rfl
  | cons file rest ih =>
    unfold readableBlocks at ih ⊢
    rw [readFiles, List.filterMap_cons, ih]
    rcases h : readFileContent env file.FilePath with ⟨content, err⟩
    cases err with
    | some e => simp
    | none =>
      by_cases hc : content = []
      · simp [hc, len]
      · have hl : len content > 0 := by
          have : 0 < content.length := List.length_pos.2 hc
          simp only [len]; omega
        simp [hc, hl]

set_option maxRecDepth 100000 in
/-- Claim C21. Unreadable files never fail the pipeline: the file blocks that
GenerateResponse hands to buildPrompt and to generateSimpleResponse are, in the
order of the files, the texts "Файл: " + filename + newline + content of the
files whose read succeeded with a non-empty content; GenerateResponse returns
a nil error whatever the reads gave, and with three files of which the second
cannot be read the blocks of the first and the third are collected. -/
theorem GenerateResponse_skips_unreadable (env : Env)
    (message category username businessName specialization : Str) (files : List File) :
    readFiles env files = readableBlocks env files
    ∧ GenerateResponse env message category username businessName specialization files =
        (if env.getenv (utf8 "OPENROUTER_API_KEY") = [] then
          (generateSimpleResponse message category username businessName specialization
            (readableBlocks env files), none)
        else if (callOpenRouter env
              (buildPrompt message category username businessName specialization
                (readableBlocks env files)) (env.getenv (utf8 "OPENROUTER_API_KEY"))).2 = none
            ∧ (callOpenRouter env
              (buildPrompt message category username businessName specialization
                (readableBlocks env files)) (env.getenv (utf8 "OPENROUTER_API_KEY"))).1 ≠ []
            ∧ cleanAIResponse (callOpenRouter env
              (buildPrompt message category username businessName specialization
                (readableBlocks env files)) (env.getenv (utf8 "OPENROUTER_API_KEY"))).1 ≠ []
          then
            (cleanAIResponse (callOpenRouter env
              (buildPrompt message category username businessName specialization
                (readableBlocks env files)) (env.getenv (utf8 "OPENROUTER_API_KEY"))).1, none)
          else
            (generateSimpleResponse message category username businessName specialization
              (readableBlocks env files), none))
    ∧ (GenerateResponse env message category username businessName specialization files).2 = none
    ∧ readFiles brokenFileEnv threeFiles =
        [utf8 "Файл: a.txt\nВыручка: 5000", utf8 "Файл: c.txt\nПрибыль: 1200"] := by
  refine ⟨readFiles_eq_readableBlocks env files, ?_, ?_, by decide⟩
  · simp only [GenerateResponse, readFiles_eq_readableBlocks]
  · simp only [GenerateResponse]
    split_ifs <;> rfl

/-- Claim C24, the code at the failing input. A tab element or a table before a
text element: the search for the start tag "<w:t" stops at "<w:tab/>" and at
"<w:tbl>", and the text up to the next "</w:t>" is written with the markup of
the elements in between. -/
theorem extractTextFromDocxXML_keeps_markup :
    extractTextFromDocxXML (utf8 "<w:tab/><w:t>x</w:t>") = utf8 "<w:t>x "
    ∧ extractTextFromDocxXML
        (utf8 "<w:tbl><w:tr><w:tc><w:p><w:r><w:t>Цена</w:t></w:r></w:p></w:tc></w:tr></w:tbl>") =
      utf8 "<w:tr><w:tc><w:p><w:r><w:t>Цена "
    ∧ extractTextFromDocxXML (utf8 "<w:t>x</w:t>") = utf8 "x " := by
  decide!

/-- Claim C25, the code at the failing input. The fragment "&quot;" (six
characters of text) is escaped as "&amp;quot;"; both scanners decode "&amp;"
before "&quot;" and so decode twice, giving a quotation mark instead of the
fragment. -/
theorem decodeEntities_decodes_twice :
    xmlEscape (utf8 "&quot;") = utf8 "&amp;quot;"
    ∧ strTrimSpace (utf8 "&quot;") = utf8 "&quot;"
    ∧ extractTextFromDocxXML (utf8 "<w:t>" ++ xmlEscape (utf8 "&quot;") ++ utf8 "</w:t>") =
        utf8 "\" "
    ∧ extractTextFromExcelXML (utf8 "<t>" ++ xmlEscape (utf8 "&quot;") ++ utf8 "</t>") =
        utf8 "\""
    ∧ extractTextFromDocxXML (utf8 "<w:t>" ++ xmlEscape (utf8 "&lt;") ++ utf8 "</w:t>") =
        utf8 "&lt; " := by
  decide!

/-- Claim C30, the code at the failing input. The file name "README" has no
extension, filepath.Ext returns the empty string and the slice expression
fileExt[1:] is out of range: no file type is computed. The same holds for every
file name without extension, and only for those; "report.TXT" gives "txt". -/
theorem uploadFileType_undefined_without_extension :
    filepathExt (utf8 "README") = []
    ∧ uploadFileType (utf8 "README") = none
    ∧ uploadFileType (utf8 "report.TXT") = some (utf8 "txt")
    ∧ ∀ filename, uploadFileType filename = none ↔ filepathExt filename = [] := by
  refine ⟨by decide, by decide, by decide, ?_⟩
  intro filename
  unfold uploadFileType sliceFrom
  cases h : filepathExt filename with
  | nil => simp
  | cons b t => simp

/-- The header line of the financial answers. -/
theorem financialHeader_split :
    utf8 "📊 **Финансовый анализ:**\n\n" = utf8 "📊 **Финансовый анализ:**" ++ utf8 "\n\n" := by
  decide

/-- A text returned only from a given length on is empty or the text. -/
theorem guarded_text (h r : Str) (n : Int) :
    (if len (h ++ r) < n then [] else h ++ r) = []
    ∨ ∃ rest, (if len (h ++ r) < n then [] else h ++ r) = h ++ rest := by
  by_cases hc : len (h ++ r) < n
  · left; rw [if_pos hc]
  · right; exact ⟨r, by rw [if_neg hc]⟩

/-- The result of extractFinancialInfo is empty or starts with the financial
header. -/
theorem extractFinancialInfo_header (text messageLower : Str) :
    extractFinancialInfo text messageLower = []
    ∨ ∃ rest, extractFinancialInfo text messageLower =
        utf8 "📊 **Финансовый анализ:**" ++ rest := by
  unfold extractFinancialInfo
  simp only [List.append_assoc]
  refine (guarded_text _ _ _).imp id ?_
  rintro ⟨rest, h⟩
  rw [h, financialHeader_split, List.append_assoc]
  exact ⟨_, rfl⟩

/-- Claim C28. The routing branches overlap: for every question whose
lower-case form contains "прибыль", "выручка", "доход" or "расход", with the
category empty or "marketing" and at least one file text, the answer of
generateSimpleResponse contains the header "📊 **Финансовый анализ:**" twice,
the first time at the start of the answer (financial branch) and the second
time at the start of the default branch. -/
theorem financial_header_twice (message category username businessName specialization : Str)
    (fileContents : List Str)
    (hcat : category = [] ∨ category = utf8 "marketing")
    (hfiles : fileContents.length > 0)
    (hkw : strContains (strToLower message) (utf8 "прибыль") = true
      ∨ strContains (strToLower message) (utf8 "выручка") = true
      ∨ strContains (strToLower message) (utf8 "доход") = true
      ∨ strContains (strToLower message) (utf8 "расход") = true) :
    ∃ mid rest,
      generateSimpleResponse message category username businessName specialization fileContents =
        utf8 "📊 **Финансовый анализ:**" ++ mid ++ utf8 "📊 **Финансовый анализ:**" ++ rest
      ∧ defaultSection category (strToLower message) fileContents
          (strJoin fileContents (utf8 "\n\n")) (strToLower (strJoin fileContents (utf8 "\n\n")))
          ++ businessFooter businessName specialization =
        utf8 "📊 **Финансовый анализ:**" ++ rest := by
  have hfin : (category = utf8 "financial" || strContains (strToLower message) (utf8 "прибыль")
      || strContains (strToLower message) (utf8 "выручка")
      || strContains (strToLower message) (utf8 "доход")
      || strContains (strToLower message) (utf8 "расход")) = true := by
    rcases hkw with h | h | h | h <;> simp [h]
  have hq : (strContains (strToLower message) (utf8 "прибыль")
      || strContains (strToLower message) (utf8 "выручка")
      || strContains (strToLower message) (utf8 "доход")
      || strContains (strToLower message) (utf8 "расход")
      || strContains (strToLower message) (utf8 "продаж")) = true := by
    rcases hkw with h | h | h | h <;> simp [h]
  have hc : (category = [] || category = utf8 "marketing") = true := by
    rcases hcat with h | h <;> simp [h]
  obtain ⟨f, hf⟩ : ∃ f, financialSection category (strToLower message) fileContents
      (strJoin fileContents (utf8 "\n\n")) (strToLower (strJoin fileContents (utf8 "\n\n"))) =
      utf8 "📊 **Финансовый анализ:**" ++ f := by
    unfold financialSection
    rw [if_pos hfin, financialHeader_split, List.append_assoc]
    exact ⟨_, rfl⟩
  obtain ⟨d, hd⟩ : ∃ d, defaultSection category (strToLower message) fileContents
      (strJoin fileContents (utf8 "\n\n")) (strToLower (strJoin fileContents (utf8 "\n\n"))) =
      utf8 "📊 **Финансовый анализ:**" ++ d := by
    unfold defaultSection
    simp only []
    rw [if_pos hc, if_pos hfiles, if_pos hq]
    by_cases he : extractFinancialInfo (strJoin fileContents (utf8 "\n\n"))
        (strToLower message) = []
    · rw [if_neg (not_not.2 he), financialHeader_split]
      simp only [List.append_assoc]
      exact ⟨_, rfl⟩
    · rw [if_pos he]
      exact (extractFinancialInfo_header _ _).resolve_left he
  refine ⟨f ++ hrSection category (strToLower message) fileContents
      (strJoin fileContents (utf8 "\n\n")) (strToLower (strJoin fileContents (utf8 "\n\n")))
      ++ legalSection category, d ++ businessFooter businessName specialization, ?_, ?_⟩
  · simp only [generateSimpleResponse, hf, hd, List.append_assoc]
  · simp only [hd, List.append_assoc]

set_option maxRecDepth 100000 in
/-- Witness of claim C28: a revenue question without category over one file. -/
theorem financial_header_twice_witness :
    ∃ mid rest,
      generateSimpleResponse (utf8 "Какая выручка?") [] (utf8 "ivan") [] []
          [utf8 "Выручка: 5000"] =
        utf8 "📊 **Финансовый анализ:**" ++ mid ++ utf8 "📊 **Финансовый анализ:**" ++ rest
      ∧ defaultSection [] (strToLower (utf8 "Какая выручка?")) [utf8 "Выручка: 5000"]
          (strJoin [utf8 "Выручка: 5000"] (utf8 "\n\n"))
          (strToLower (strJoin [utf8 "Выручка: 5000"] (utf8 "\n\n")))
          ++ businessFooter [] [] =
        utf8 "📊 **Финансовый анализ:**" ++ rest :=
  financial_header_twice (utf8 "Какая выручка?") [] (utf8 "ivan") [] [] [utf8 "Выручка: 5000"]
    (Or.inl rfl) (by decide) (Or.inr (Or.inl (by decide)))

/-- A keyword without the byte c that occurs in x ++ c :: y occurs in x or in y. -/
theorem strContains_of_append_sep (x y kw : Str) (c : UInt8) (hne : kw ≠ []) (hc : c ∉ kw)
    (h : strContains (x ++ c :: y) kw = true) :
    strContains x kw = true ∨ strContains y kw = true := by
  rw [strContains_iff] at h
  obtain ⟨p, q, hpq⟩ := h
  rw [List.append_assoc] at hpq
  rcases List.append_eq_append_iff.1 hpq with ⟨a, hp, hcy⟩ | ⟨a, hx, hkq⟩
  · -- the occurrence starts at or after the separator
    rcases a with _ | ⟨a0, a⟩
    · exfalso
      rw [List.nil_append] at hcy
      rcases kw with _ | ⟨k0, kw⟩
      · exact hne rfl
      · rw [List.cons_append] at hcy
        injection hcy with h0 _
        exact hc (by rw [h0]; exact List.mem_cons_self _ _)
    · right
      rw [List.cons_append] at hcy
      injection hcy with _ hy
      rw [strContains_iff]
      exact ⟨a, q, by rw [hy, List.append_assoc]⟩
  · -- the occurrence starts inside x
    rcases List.append_eq_append_iff.1 hkq with ⟨a2, ha, _⟩ | ⟨a2, hk, hcq⟩
    · left
      rw [strContains_iff]
      exact ⟨p, a2, by rw [hx, ha, List.append_assoc]⟩
    · rcases a2 with _ | ⟨z, a2⟩
      · left
        rw [List.append_nil] at hk
        rw [strContains_iff]
        exact ⟨p, [], by rw [hx, hk, List.append_nil]⟩
      · exfalso
        rw [List.cons_append] at hcq
        injection hcq with h0 _
        exact hc (by rw [hk, h0]; exact List.mem_append_right _ (List.mem_cons_self _ _))

/-- A keyword without newline that occurs in the lower-case form of a text
occurs in the lower-case form of one of its lines. -/
theorem line_of_strContains_lower (kw : Str) (hne : kw ≠ []) (hnl : UInt8.ofNat 0x0A ∉ kw) :
    ∀ (n : Nat) (text : Str), text.length ≤ n →
      strContains (strToLower text) kw = true →
      ∃ L, L ∈ strSplit text (utf8 "\n") ∧ strContains (strToLower L) kw = true := by
  intro n
  induction n with
  | zero =>
    intro text hn hk
    have ht : text = [] := List.length_eq_zero.1 (Nat.le_zero.1 hn)
    subst ht
    exact ⟨[], by simp [strSplit, splitFrom], hk⟩
  | succ n ih =>
    intro text hn hk
    by_cases hmem : UInt8.ofNat 0x0A ∈ text
    · obtain ⟨a, b, hab⟩ := List.append_of_mem hmem
      subst hab
      rw [strToLower_append_newline] at hk
      have hla : a.length ≤ n := by
        simp only [List.length_append, List.length_cons] at hn; omega
      have hlb : b.length ≤ n := by
        simp only [List.length_append, List.length_cons] at hn; omega
      rw [strSplit_append_newline]
      rcases strContains_of_append_sep _ _ kw _ hne hnl hk with h | h
      · obtain ⟨L, hL, hkL⟩ := ih a hla h
        exact ⟨L, List.mem_append_left _ hL, hkL⟩
      · obtain ⟨L, hL, hkL⟩ := ih b hlb h
        exact ⟨L, List.mem_append_right _ hL, hkL⟩
    · rw [strSplit_of_no_newline text hmem]
      exact ⟨text, List.mem_singleton.2 rfl, hk⟩

/-- The counter of extractEmployeeInfo never decreases. -/
theorem employeeLoop_count_ge (lines : List Str) : ∀ (count : Int) (employees : List Str),
    count ≤ (employeeLoop lines count employees).1 := by
  induction lines with
  | nil => intro count employees; exact le_refl _
  | cons line rest ih =>
    intro count employees
    by_cases hm : mentionsStaff line = true
    · rw [employeeLoop_staff line rest count employees hm]
      generalize (if len (employeeBlock ((line :: rest).take 5)) < 300
        then employees ++ [employeeBlock ((line :: rest).take 5)] else employees) = emps2
      by_cases h3 : employeeLoop.len3 emps2 = true
      · rw [if_pos h3]
        show count ≤ count + 1
        omega
      · rw [if_neg h3]
        have := ih (count + 1) emps2
        omega
    · rw [employeeLoop_other line rest count employees (by simpa using hm)]
      exact ih count employees

/-- The counter of extractEmployeeInfo is raised when a staff line is met. -/
theorem employeeLoop_count_pos (lines : List Str) : ∀ (count : Int) (employees : List Str) (L : Str),
    L ∈ lines → mentionsStaff L = true →
    count < (employeeLoop lines count employees).1 := by
  induction lines with
  | nil => intro count employees L hL; cases hL
  | cons line rest ih =>
    intro count employees L hL hmL
    by_cases hm : mentionsStaff line = true
    · rw [employeeLoop_staff line rest count employees hm]
      generalize (if len (employeeBlock ((line :: rest).take 5)) < 300
        then employees ++ [employeeBlock ((line :: rest).take 5)] else employees) = emps2
      by_cases h3 : employeeLoop.len3 emps2 = true
      · rw [if_pos h3]
        show count < count + 1
        omega
      · rw [if_neg h3]
        have := employeeLoop_count_ge rest (count + 1) emps2
        omega
    · rw [employeeLoop_other line rest count employees (by simpa using hm)]
      rcases List.mem_cons.1 hL with h | h
      · subst h; exact absurd hmL hm
      · exact ih count employees L h hmL

/-- The staff keywords are not empty and hold no newline. -/
theorem staff_keywords :
    utf8 "сотрудник" ≠ [] ∧ UInt8.ofNat 0x0A ∉ utf8 "сотрудник"
    ∧ utf8 "работник" ≠ [] ∧ UInt8.ofNat 0x0A ∉ utf8 "работник" := by decide

/-- Claim C27. For every file text whose lower-case form contains "сотрудник"
or "работник", extractEmployeeInfo returns a non-empty string that starts with
its heading, so the staff section of generateSimpleResponse writes that string
and never the message about a more detailed analysis. -/
theorem extractEmployeeInfo_nonempty (text : Str)
    (h : strContains (strToLower text) (utf8 "сотрудник") = true
      ∨ strContains (strToLower text) (utf8 "работник") = true) :
    extractEmployeeInfo text ≠ []
    ∧ (∃ rest, extractEmployeeInfo text =
        utf8 "**Найдено информации о сотрудниках:**\n" ++ rest)
    ∧ ∀ (category messageLower : Str) (fileContents : List Str),
        hrSection category messageLower fileContents text (strToLower text) =
          if category = utf8 "hr" || strContains messageLower (utf8 "сотрудник")
              || strContains messageLower (utf8 "работник")
              || strContains messageLower (utf8 "персонал") then
            utf8 "👥 **Информация о персонале:**\n\n" ++
              (if fileContents.length > 0 then extractEmployeeInfo text
               else utf8 "Загрузите файл с информацией о сотрудниках для работы с данными о персонале.\n\n")
          else [] := by
  obtain ⟨L, hL, hmL⟩ : ∃ L, L ∈ strSplit text (utf8 "\n") ∧ mentionsStaff L = true := by
    rcases h with h | h
    · obtain ⟨L, hL, hk⟩ := line_of_strContains_lower _ staff_keywords.1 staff_keywords.2.1
        _ text (Nat.le_refl _) h
      exact ⟨L, hL, by simp [mentionsStaff, hk]⟩
    · obtain ⟨L, hL, hk⟩ := line_of_strContains_lower _ staff_keywords.2.2.1
        staff_keywords.2.2.2 _ text (Nat.le_refl _) h
      exact ⟨L, hL, by simp [mentionsStaff, hk]⟩
  have hpos : (employeeLoop (strSplit text (utf8 "\n")) 0 []).1 > 0 :=
    employeeLoop_count_pos _ 0 [] L hL hmL
  have hhead : ∃ rest, extractEmployeeInfo text =
      utf8 "**Найдено информации о сотрудниках:**\n" ++ rest := by
    unfold extractEmployeeInfo
    simp only []
    rw [if_pos hpos]
    simp only [List.append_assoc]
    exact ⟨_, rfl⟩
  have hne : extractEmployeeInfo text ≠ [] := by
    obtain ⟨rest, hr⟩ := hhead
    rw [hr]
    intro hnil
    have h1 := (List.append_eq_nil.1 hnil).1
    revert h1
    decide
  refine ⟨hne, hhead, ?_⟩
  intro category messageLower fileContents
  have hfile : (strContains (strToLower text) (utf8 "сотрудник")
      || strContains (strToLower text) (utf8 "работник")) = true := by
    rcases h with h | h <;> simp [h]
  have hlen : len (extractEmployeeInfo text) > 0 := by
    have : 0 < (extractEmployeeInfo text).length := List.length_pos.2 hne
    simp only [len]; omega
  unfold hrSection
  simp only [hfile, if_true, hlen]

set_option maxRecDepth 100000 in
/-- Witness of claim C27: a text whose only employee block is dropped for being
too long; the result is the heading without any block. -/
theorem extractEmployeeInfo_nonempty_witness :
    extractEmployeeInfo longStaffText =
      utf8 "**Найдено информации о сотрудниках:**\n- Всего сотрудников: найдено упоминаний\n\n"
    ∧ extractEmployeeInfo longStaffText ≠ []
    ∧ ∃ rest, extractEmployeeInfo longStaffText =
        utf8 "**Найдено информации о сотрудниках:**\n" ++ rest :=
  ⟨by decide, (extractEmployeeInfo_nonempty longStaffText (Or.inl (by decide))).1,
    (extractEmployeeInfo_nonempty longStaffText (Or.inl (by decide))).2.1⟩

/-- The white-space runes of unicode.IsSpace. -/
theorem isSpace_cases (r : Char) (h : isSpace r = true) :
    r ∈ [Char.ofNat 0x09, Char.ofNat 0x0A, Char.ofNat 0x0B, Char.ofNat 0x0C, Char.ofNat 0x0D,
      Char.ofNat 0x20, Char.ofNat 0x85, Char.ofNat 0xA0, Char.ofNat 0x1680,
      Char.ofNat 0x2000, Char.ofNat 0x2001, Char.ofNat 0x2002, Char.ofNat 0x2003,
      Char.ofNat 0x2004, Char.ofNat 0x2005, Char.ofNat 0x2006, Char.ofNat 0x2007,
      Char.ofNat 0x2008, Char.ofNat 0x2009, Char.ofNat 0x200A, Char.ofNat 0x2028,
      Char.ofNat 0x2029, Char.ofNat 0x202F, Char.ofNat 0x205F, Char.ofNat 0x3000] := by
  have e : r = Char.ofNat r.toNat := (Char.ofNat_toNat r).symm
  simp only [isSpace, Bool.or_eq_true, decide_eq_true_eq] at h
  generalize r.toNat = n at e h
  subst e
  have hn : n = 0x09 ∨ n = 0x0A ∨ n = 0x0B ∨ n = 0x0C ∨ n = 0x0D ∨ n = 0x20 ∨ n = 0x85
      ∨ n = 0xA0 ∨ n = 0x1680 ∨ n = 0x2000 ∨ n = 0x2001 ∨ n = 0x2002 ∨ n = 0x2003
      ∨ n = 0x2004 ∨ n = 0x2005 ∨ n = 0x2006 ∨ n = 0x2007 ∨ n = 0x2008 ∨ n = 0x2009
      ∨ n = 0x200A ∨ n = 0x2028 ∨ n = 0x2029 ∨ n = 0x202F ∨ n = 0x205F ∨ n = 0x3000 := by
    omega
  rcases hn with h | h | h | h | h | h | h | h | h | h | h | h | h | h | h | h | h | h | h | h
    | h | h | h | h | h <;> subst h <;> simp

/-- The lower-case form of a white-space rune is written without the byte 0xD0,
the first byte of the Cyrillic keywords. -/
theorem encodeRune_space (r : Char) (h : isSpace r = true) :
    UInt8.ofNat 0xD0 ∉ encodeRune (toLowerRune r) := by
  have hall : ∀ c ∈ [Char.ofNat 0x09, Char.ofNat 0x0A, Char.ofNat 0x0B, Char.ofNat 0x0C,
      Char.ofNat 0x0D,
      Char.ofNat 0x20, Char.ofNat 0x85, Char.ofNat 0xA0, Char.ofNat 0x1680,
      Char.ofNat 0x2000, Char.ofNat 0x2001, Char.ofNat 0x2002, Char.ofNat 0x2003,
      Char.ofNat 0x2004, Char.ofNat 0x2005, Char.ofNat 0x2006, Char.ofNat 0x2007,
      Char.ofNat 0x2008, Char.ofNat 0x2009, Char.ofNat 0x200A, Char.ofNat 0x2028,
      Char.ofNat 0x2029, Char.ofNat 0x202F, Char.ofNat 0x205F, Char.ofNat 0x3000],
      UInt8.ofNat 0xD0 ∉ encodeRune (toLowerRune c) := by decide
  exact hall r (isSpace_cases r h)

/-- A string that strings.TrimLeftFunc empties consists of white-space runes. -/
theorem runesFrom_of_trimLeftFrom_nil (s : Str) : ∀ k, trimLeftFrom k s = [] →
    ∀ c ∈ runesFrom k s, isSpace c = true := by
  induction s with
  | nil => intro k _ c hc; cases k <;> simp [runesFrom] at hc
  | cons b t ih =>
    intro k h c hc
    cases k with
    | succ k =>
      simp only [trimLeftFrom] at h
      simp only [runesFrom] at hc
      exact ih k h c hc
    | zero =>
      simp only [trimLeftFrom] at h
      by_cases hs : isSpace (decodeRune (b :: t)).1 = true
      · rw [if_pos hs] at h
        simp only [runesFrom, List.mem_cons] at hc
        rcases hc with hc | hc
        · rw [hc]; exact hs
        · exact ih _ h c hc
      · rw [if_neg hs] at h
        cases h

/-- The lower-case form of a sequence of white-space runes is written without
the byte 0xD0. -/
theorem encodeRunes_spaces (cs : List Char) (h : ∀ c ∈ cs, isSpace c = true) :
    UInt8.ofNat 0xD0 ∉ encodeRunes (cs.map toLowerRune) := by
  induction cs with
  | nil => simp [encodeRunes]
  | cons c cs ih =>
    simp only [List.map_cons, encodeRunes, List.mem_append, not_or]
    exact ⟨encodeRune_space c (h c (List.mem_cons_self _ _)),
      ih (fun d hd => h d (List.mem_cons_of_mem _ hd))⟩

/-- The skip counter of trimRightFrom drops bytes. -/
theorem trimRightFrom_drop (r : Str) : ∀ k, trimRightFrom k r = trimRightFrom 0 (r.drop k) := by
  induction r with
  | nil => intro k; cases k <;> rfl
  | cons b t ih =>
    intro k
    cases k with
    | zero => rfl
    | succ k => simp only [trimRightFrom, List.drop_succ_cons]; exact ih k

/-- The span handed to the decoder of the last rune is at least one byte. -/
theorem lastRuneSpan_pos (b : UInt8) (t : Str) : 1 ≤ lastRuneSpan (b :: t) := by
  rcases t with _ | ⟨b1, _ | ⟨b2, _ | ⟨b3, _ | ⟨b4, t⟩⟩⟩⟩ <;>
    simp only [lastRuneSpan] <;> (try split_ifs) <;> omega

/-- A white-space rune at the end of a string (given reversed): its width w is
between 1 and the length, and it is the rune decoded from the last w bytes. -/
theorem decodeLastRune_space (b : UInt8) (t : Str)
    (h : isSpace (decodeLastRune (b :: t)).1 = true) :
    1 ≤ (decodeLastRune (b :: t)).2 ∧ (decodeLastRune (b :: t)).2 ≤ (b :: t).length
    ∧ decodeRune ((b :: t).take (decodeLastRune (b :: t)).2).reverse = decodeLastRune (b :: t) := by
  by_cases hb : b.toNat < 0x80
  · have e : decodeLastRune (b :: t) = (Char.ofNat b.toNat, 1) := by
      simp only [decodeLastRune, hb, if_true]
    rw [e]
    refine ⟨le_refl _, by simp, ?_⟩
    simp only [List.take_succ_cons, List.take_zero, List.reverse_cons, List.reverse_nil,
      List.nil_append]
    exact decodeRune_ascii b [] hb
  · have e : decodeLastRune (b :: t) =
        if (decodeRune ((b :: t).take (lastRuneSpan (b :: t))).reverse).2 = lastRuneSpan (b :: t)
        then decodeRune ((b :: t).take (lastRuneSpan (b :: t))).reverse else (runeError, 1) := by
      simp only [decodeLastRune, hb, if_false]
    by_cases hd : (decodeRune ((b :: t).take (lastRuneSpan (b :: t))).reverse).2
        = lastRuneSpan (b :: t)
    · rw [if_pos hd] at e
      have hw : (decodeLastRune (b :: t)).2 = lastRuneSpan (b :: t) := by rw [e]; exact hd
      refine ⟨by rw [hw]; exact lastRuneSpan_pos b t, ?_, ?_⟩
      · rw [e]
        have := decodeRune_width_le ((b :: t).take (lastRuneSpan (b :: t))).reverse
        rw [List.length_reverse, List.length_take] at this
        omega
      · rw [hw, e]
    · rw [if_neg hd] at e
      rw [e, isSpace_runeError] at h
      cases h

/-- When strings.TrimRightFunc empties a string, the string is empty or starts
with a white-space rune. -/
theorem head_space_of_trimRightFrom_nil : ∀ (n : Nat) (r : Str), r.length ≤ n →
    trimRightFrom 0 r = [] → r = [] ∨ isSpace (decodeRune r.reverse).1 = true := by
  intro n
  induction n with
  | zero =>
    intro r hn _
    exact Or.inl (List.length_eq_zero.1 (Nat.le_zero.1 hn))
  | succ n ih =>
    intro r hn h
    rcases r with _ | ⟨b, t⟩
    · exact Or.inl rfl
    · right
      simp only [trimRightFrom] at h
      by_cases hs : isSpace (decodeLastRune (b :: t)).1 = true
      · rw [if_pos hs, trimRightFrom_drop] at h
        obtain ⟨h1, h2, h3⟩ := decodeLastRune_space b t hs
        generalize hw : (decodeLastRune (b :: t)).2 = w at h h1 h2 h3
        have hdrop : t.drop (w - 1) = (b :: t).drop w := by
          obtain ⟨v, rfl⟩ : ∃ v, w = v + 1 := ⟨w - 1, by omega⟩
          simp
        rw [hdrop] at h
        have hlen : ((b :: t).drop w).length ≤ n := by
          rw [List.length_drop]
          simp only [List.length_cons] at hn h2 ⊢
          omega
        have hsplit : (b :: t).reverse =
            ((b :: t).drop w).reverse ++ ((b :: t).take w).reverse := by
          rw [← List.reverse_append, List.take_append_drop]
        rcases ih _ hlen h with h0 | h0
        · have hfull : (b :: t).take w = b :: t := by
            have : (b :: t).length ≤ w := by
              have := congrArg List.length h0
              rw [List.length_drop, List.length_nil] at this
              omega
            exact List.take_of_length_le this
          rw [hfull] at h3
          rw [h3]; exact hs
        · rw [hsplit]
          rcases hr : ((b :: t).drop w).reverse with _ | ⟨c, u⟩
          · rw [hr] at h0
            simp [decodeRune, isSpace_runeError] at h0
          · rw [hr] at h0
            rcases decodeRune_cut c u ((b :: t).take w).reverse with hc | hc
            · rw [hc, isSpace_runeError] at h0
              cases h0
            · rw [List.cons_append, ← hc]
              exact h0
      · rw [if_neg hs] at h
        cases h

/-- A string that strings.TrimSpace empties is emptied from the left already. -/
theorem trimLeftFrom_nil_of_strTrimSpace_nil (s : Str) (h : strTrimSpace s = []) :
    trimLeftFrom 0 s = [] := by
  unfold strTrimSpace at h
  have h2 : trimRightFrom 0 (trimLeftFrom 0 s).reverse = [] := by
    simpa using congrArg List.reverse h
  rcases head_space_of_trimRightFrom_nil _ _ (Nat.le_refl _) h2 with h3 | h3
  · simpa using h3
  · rw [List.reverse_reverse] at h3
    rcases trimLeftFrom_head s 0 with h4 | h4
    · exact h4
    · rw [h4] at h3
      cases h3

/-- A line whose lower-case form contains a keyword that starts with the byte
0xD0 (every Cyrillic keyword of the program) is not blank. -/
theorem strTrimSpace_ne_nil_of_keyword (L kwTail : Str)
    (h : strContains (strToLower L) (UInt8.ofNat 0xD0 :: kwTail) = true) :
    strTrimSpace L ≠ [] := by
  intro hnil
  have h1 := trimLeftFrom_nil_of_strTrimSpace_nil L hnil
  have h2 := runesFrom_of_trimLeftFrom_nil L 0 h1
  have h3 : UInt8.ofNat 0xD0 ∉ strToLower L := encodeRunes_spaces _ h2
  rw [strContains_of_head_not_mem _ kwTail _ h3] at h
  cases h

/-- One iteration of the loop of extractGrowthInfo: the November profit becomes
the trimmed line itself when the line names November and the profit, and is
kept otherwise; the look-ahead stops at the line itself. -/
theorem periodLoop_cons_novemberProfit (line : Str) (rest : List Str) (p : Periods) :
    ∃ q, periodLoop (line :: rest) p = periodLoop rest q
      ∧ q.novemberProfit =
        if novemberProfitLine line = true then strTrimSpace line else p.novemberProfit := by
  rw [periodLoop]
  refine ⟨_, rfl, ?_⟩
  by_cases h1 : strContains (strToLower line) (utf8 "ноябрь") = true <;>
  by_cases h2 : strContains (strToLower line) (utf8 "прибыль") = true <;>
  by_cases h3 : strContains (strToLower line) (utf8 "выручка") = true <;>
  by_cases h4 : strContains (strToLower line) (utf8 "декабрь") = true <;>
  simp [novemberProfitLine, lookAhead, h1, h2, h3, h4]

/-- The November profit after the loop of extractGrowthInfo: the trimmed last
line that names November and the profit, or the value before the loop. -/
theorem periodLoop_novemberProfit (lines : List Str) : ∀ (p : Periods),
    (periodLoop lines p).novemberProfit =
      match (lines.filter novemberProfitLine).getLast? with
      | some line => strTrimSpace line
      | none => p.novemberProfit := by
  induction lines with
  | nil => intro p; rfl
  | cons line rest ih =>
    intro p
    obtain ⟨q, hq, hn⟩ := periodLoop_cons_novemberProfit line rest p
    rw [hq, ih q, hn]
    by_cases hl : novemberProfitLine line = true
    · rw [List.filter_cons_of_pos hl, if_pos hl]
      rcases hf : rest.filter novemberProfitLine with _ | ⟨x, xs⟩
      · rfl
      · rw [List.getLast?_cons_cons]
        rcases hg : (x :: xs).getLast? with _ | y
        · simp at hg
        · rfl
    · rw [List.filter_cons_of_neg hl, if_neg hl]

/-- The keyword "прибыль" starts with the byte 0xD0. -/
theorem profit_keyword_head : ∃ kwTail, utf8 "прибыль" = UInt8.ofNat 0xD0 :: kwTail :=
  ⟨_, rfl⟩

/-- Returning the empty string for an empty result changes nothing. -/
theorem empty_guard (r : Str) : (if len r = 0 then [] else r) = r := by
  by_cases h : len r = 0
  · rw [if_pos h]
    have : r.length = 0 := by simp only [len] at h; omega
    exact (List.length_eq_zero.1 this).symm
  · rw [if_neg h]

/-- Claim C29. In extractGrowthInfo, for every text that mentions both "ноябрь"
and "декабрь", the November profit is the trimmed last line of the text whose
lower-case form contains both "ноябрь" and "прибыль" (the look-ahead stops at
the line itself), it is not empty when there is such a line, and it is empty
when no single line contains both; the answer holds the period comparison whose
profit block reports exactly this value after "Ноябрь: ". -/
theorem november_profit_is_last_matching_line (text : Str)
    (hn : strContains (strToLower text) (utf8 "ноябрь") = true)
    (hd : strContains (strToLower text) (utf8 "декабрь") = true) :
    (periodLoop (strSplit text (utf8 "\n")) ⟨[], [], [], []⟩).novemberProfit =
      lastNovemberProfit text
    ∧ (∀ line, ((strSplit text (utf8 "\n")).filter novemberProfitLine).getLast? = some line →
        lastNovemberProfit text = strTrimSpace line ∧ strTrimSpace line ≠ [])
    ∧ (((strSplit text (utf8 "\n")).filter novemberProfitLine) = [] →
        lastNovemberProfit text = [])
    ∧ ∃ growth rest,
        extractGrowthInfo text =
          growth ++ utf8 "📊 **Сравнение периодов:**\n\n"
            ++ (if lastNovemberProfit text ≠ []
                  ∨ (periodLoop (strSplit text (utf8 "\n")) ⟨[], [], [], []⟩).decemberProfit ≠ []
                then
                  utf8 "**Прибыль:**\n"
                    ++ (if lastNovemberProfit text ≠ [] then
                          utf8 "Ноябрь: " ++ lastNovemberProfit text ++ utf8 "\n"
                        else [])
                    ++ (if (periodLoop (strSplit text (utf8 "\n")) ⟨[], [], [], []⟩).decemberProfit
                          ≠ [] then
                          utf8 "Декабрь: "
                            ++ (periodLoop (strSplit text (utf8 "\n")) ⟨[], [], [], []⟩).decemberProfit
                            ++ utf8 "\n"
                        else [])
                    ++ utf8 "\n"
                else [])
            ++ rest := by
  have hnov : (periodLoop (strSplit text (utf8 "\n")) ⟨[], [], [], []⟩).novemberProfit =
      lastNovemberProfit text := by
    rw [periodLoop_novemberProfit]
    rfl
  refine ⟨hnov, ?_, ?_, ?_⟩
  · intro line hl
    have hmem : line ∈ (strSplit text (utf8 "\n")).filter novemberProfitLine :=
      List.mem_of_getLast?_eq_some hl
    have hboth : novemberProfitLine line = true := (List.mem_filter.1 hmem).2
    have hp : strContains (strToLower line) (utf8 "прибыль") = true := by
      simp only [novemberProfitLine, Bool.and_eq_true] at hboth
      exact hboth.2
    obtain ⟨kwTail, hk⟩ := profit_keyword_head
    rw [hk] at hp
    refine ⟨?_, strTrimSpace_ne_nil_of_keyword line kwTail hp⟩
    unfold lastNovemberProfit
    rw [hl]
  · intro hnone
    unfold lastNovemberProfit
    rw [hnone]
    rfl
  · have hboth : (strContains (strToLower text) (utf8 "ноябрь")
        && strContains (strToLower text) (utf8 "декабрь")) = true := by
      rw [hn, hd]; rfl
    unfold extractGrowthInfo
    simp only []
    rw [empty_guard, if_pos hboth, hnov]
    simp only [List.append_assoc]
    exact ⟨_, _, rfl⟩

set_option maxRecDepth 100000 in
/-- A profit line that only follows a line naming the period is not reported:
the answer holds the heading of the period comparison alone. -/
theorem extractGrowthInfo_following_profit_line :
    extractGrowthInfo (utf8 "Ноябрь\nПрибыль: 1000\nДекабрь\nПрибыль: 1200") =
      utf8 "📊 **Сравнение периодов:**\n\n" := by
  decide

set_option maxRecDepth 100000 in
/-- Witness of claim C29: two lines name November and the profit, a profit line
follows a line that names November only; the last line with both is reported. -/
theorem november_profit_is_last_matching_line_witness :
    lastNovemberProfit
        (utf8 "Прибыль ноябрь: 900\nНоябрь\nПрибыль: 1000\n Прибыль за ноябрь: 950 \nДекабрь") =
      utf8 "Прибыль за ноябрь: 950"
    ∧ (periodLoop (strSplit
        (utf8 "Прибыль ноябрь: 900\nНоябрь\nПрибыль: 1000\n Прибыль за ноябрь: 950 \nДекабрь")
        (utf8 "\n")) ⟨[], [], [], []⟩).novemberProfit =
      lastNovemberProfit
        (utf8 "Прибыль ноябрь: 900\nНоябрь\nПрибыль: 1000\n Прибыль за ноябрь: 950 \nДекабрь") :=
  ⟨by decide,
    (november_profit_is_last_matching_line
      (utf8 "Прибыль ноябрь: 900\nНоябрь\nПрибыль: 1000\n Прибыль за ноябрь: 950 \nДекабрь")
      (by decide) (by decide)).1⟩

/-- The runs of a non-empty sequence start with a run of its first character. -/
theorem runs_cons_head (c : Char) (cs : List Char) :
    ∃ n more, runs (c :: cs) = (c, n + 1) :: more := by
  rw [runs]
  rcases h : runs cs with _ | ⟨⟨d, n⟩, more⟩
  · exact ⟨0, [], rfl⟩
  · by_cases hc : c = d
    · subst hc
      exact ⟨n, more, by simp⟩
    · exact ⟨0, (d, n) :: more, by simp [hc]⟩

/-- A character put before a sequence that does not start with it opens a run
of its own. -/
theorem runs_cons_of_ne (c : Char) (l : List Char) (h : leadingRun c l = 0) :
    runs (c :: l) = (c, 1) :: runs l := by
  rcases l with _ | ⟨d, rest⟩
  · rfl
  · have hd : d ≠ c := by
      intro e
      simp [leadingRun, e] at h
    obtain ⟨n, more, hr⟩ := runs_cons_head d rest
    rw [runs, hr]
    simp [Ne.symm hd]

/-- The runs of k + 1 equal characters followed by a sequence that does not
start with that character. -/
theorem runs_replicate_append (c : Char) (l : List Char) (h : leadingRun c l = 0) :
    ∀ k, runs (List.replicate (k + 1) c ++ l) = (c, k + 1) :: runs l := by
  intro k
  induction k with
  | zero => exact runs_cons_of_ne c l h
  | succ k ih =>
    rw [List.replicate_succ, List.cons_append, runs, ih]
    simp

/-- A sequence is its leading run followed by a rest that does not start with
the character of the run. -/
theorem leadingRun_split (c : Char) (l : List Char) :
    l = List.replicate (leadingRun c l) c ++ l.drop (leadingRun c l)
    ∧ leadingRun c (l.drop (leadingRun c l)) = 0 := by
  induction l with
  | nil => exact ⟨rfl, rfl⟩
  | cons d rest ih =>
    by_cases hd : d = c
    · subst hd
      have e : leadingRun d (d :: rest) = leadingRun d rest + 1 := by simp [leadingRun]
      rw [e, List.replicate_succ, List.drop_succ_cons, List.cons_append]
      exact ⟨by rw [← ih.1], ih.2⟩
    · have e : leadingRun c (d :: rest) = 0 := by simp [leadingRun, hd]
      rw [e]
      exact ⟨rfl, e⟩

/-- Collapsing k copies of a character followed by a sequence: the run of the
character, leading run of the sequence included, is cut to three. -/
theorem collapseRuns_replicate_append (c : Char) (l : List Char) (k : Nat) :
    collapseRuns 3 (List.replicate k c ++ l) =
      List.replicate (min (k + leadingRun c l) 3) c
        ++ collapseRuns 3 (l.drop (leadingRun c l)) := by
  obtain ⟨hs, h0⟩ := leadingRun_split c l
  generalize leadingRun c l = n at hs h0
  generalize l.drop n = tail at hs h0
  subst hs
  rw [← List.append_assoc, ← List.replicate_add]
  rcases hkn : k + n with _ | j
  · simp
  · unfold collapseRuns
    rw [runs_replicate_append c tail h0 j]
    simp

/-- Dropping the first a of a + j equal characters. -/
theorem drop_replicate_append (a j : Nat) (d : Char) (T : List Char) :
    (List.replicate (a + j) d ++ T).drop a = List.replicate j d ++ T := by
  rw [List.replicate_add, List.append_assoc, List.drop_left' (by simp)]

/-- The loop of removeRepeatingChars after k copies of the character lastChar:
it writes what collapsing leaves of the rest of the text. -/
theorem removeRepeatingLoop_eq (l : List Char) : ∀ (c : Char) (k : Nat),
    removeRepeatingLoop 3 l c (k : Int) =
      (collapseRuns 3 (List.replicate k c ++ l)).drop (min k 3) := by
  induction l with
  | nil =>
    intro c k
    rw [collapseRuns_replicate_append]
    simp [removeRepeatingLoop, leadingRun, collapseRuns, runs]
  | cons d rest ih =>
    intro c k
    by_cases hd : d = c
    · subst hd
      have hstep : removeRepeatingLoop 3 (d :: rest) d (k : Int) =
          (if k + 1 ≤ 3 then [d] else []) ++ removeRepeatingLoop 3 rest d ((k + 1 : Nat) : Int) := by
        rw [removeRepeatingLoop]
        by_cases hk : k + 1 ≤ 3
        · have hk2 : (k : Int) + 1 ≤ 3 := by omega
          simp [hk, hk2]
        · have hk2 : ¬ (k : Int) + 1 ≤ 3 := by omega
          simp [hk, hk2]
      rw [hstep, ih d (k + 1), collapseRuns_replicate_append, collapseRuns_replicate_append]
      have e : leadingRun d (d :: rest) = leadingRun d rest + 1 := by simp [leadingRun]
      rw [e, List.drop_succ_cons]
      generalize leadingRun d rest = n
      generalize collapseRuns 3 (rest.drop n) = T
      by_cases hk : k + 1 ≤ 3
      · rw [if_pos hk]
        obtain ⟨j, hj⟩ : ∃ j, min (k + 1 + n) 3 = k + 1 + j :=
          ⟨min (k + 1 + n) 3 - (k + 1), by omega⟩
        have h2 : min (k + (n + 1)) 3 = k + (1 + j) := by omega
        have h3 : min (k + 1) 3 = k + 1 := by omega
        have h4 : min k 3 = k := by omega
        rw [h3, h4, hj, h2, drop_replicate_append, drop_replicate_append,
          List.replicate_add]
        rfl
      · rw [if_neg hk]
        have h1 : min (k + 1 + n) 3 = 3 := by omega
        have h2 : min (k + (n + 1)) 3 = 3 := by omega
        have h3 : min (k + 1) 3 = 3 := by omega
        have h4 : min k 3 = 3 := by omega
        rw [h1, h2, h3, h4, List.nil_append]
    · have hstep : removeRepeatingLoop 3 (d :: rest) c (k : Int) =
          d :: removeRepeatingLoop 3 rest d ((1 : Nat) : Int) := by
        rw [removeRepeatingLoop]
        simp [hd]
      rw [hstep, ih d 1, collapseRuns_replicate_append c (d :: rest) k]
      have e : leadingRun c (d :: rest) = 0 := by simp [leadingRun, hd]
      rw [e, List.drop_zero, Nat.add_zero, List.drop_left' (by simp)]
      have hone : List.replicate 1 d ++ rest = d :: rest := rfl
      rw [hone]
      have hc := collapseRuns_replicate_append d rest 1
      rw [hone] at hc
      rw [hc]
      have h1 : min (1 + leadingRun d rest) 3 = 1 + (min (1 + leadingRun d rest) 3 - 1) := by
        omega
      rw [h1, List.replicate_add]
      simp

/-- The runs of a sequence, written out, give the sequence back. -/
theorem runs_expand (l : List Char) :
    ((runs l).map fun r => List.replicate r.2 r.1).flatten = l := by
  induction l with
  | nil => rfl
  | cons c cs ih =>
    rw [runs]
    rcases h : runs cs with _ | ⟨⟨d, n⟩, more⟩
    · rw [h] at ih
      simp at ih
      simp [← ih]
    · rw [h] at ih
      by_cases hc : c = d
      · subst hc
        simp only [if_true, List.map_cons, List.flatten_cons] at ih ⊢
        rw [List.replicate_succ, List.cons_append, ih]
      · simp only [hc, if_false, List.map_cons, List.flatten_cons] at ih ⊢
        rw [ih]
        rfl

/-- The runs are maximal and not empty: neighbouring runs are of different
characters and every run has a positive length. -/
theorem runs_maximal (l : List Char) :
    List.Chain' (fun a b => a.1 ≠ b.1) (runs l) ∧ ∀ r ∈ runs l, 0 < r.2 := by
  induction l with
  | nil => exact ⟨List.chain'_nil, fun r hr => by cases hr⟩
  | cons c cs ih =>
    rw [runs]
    rcases h : runs cs with _ | ⟨⟨d, n⟩, more⟩
    · exact ⟨List.chain'_singleton _, fun r hr => by simp at hr; subst hr; exact Nat.one_pos⟩
    · rw [h] at ih
      obtain ⟨hch, hpos⟩ := ih
      by_cases hc : c = d
      · subst hc
        simp only [if_true]
        refine ⟨?_, ?_⟩
        · rcases more with _ | ⟨m0, more⟩
          · exact List.chain'_singleton _
          · rw [List.chain'_cons] at hch ⊢
            exact hch
        · intro r hr
          rcases List.mem_cons.1 hr with e | e
          · subst e; exact Nat.succ_pos _
          · exact hpos r (List.mem_cons_of_mem _ e)
      · simp only [hc, if_false]
        refine ⟨?_, ?_⟩
        · rw [List.chain'_cons]
          exact ⟨hc, hch⟩
        · intro r hr
          rcases List.mem_cons.1 hr with e | e
          · subst e; exact Nat.one_pos
          · exact hpos r e

/-- Counterexample to claim C22 as stated: a text of one ill-formed byte holds
no run to collapse, yet it is not returned as it is but as the three bytes of
U+FFFD; four different ill-formed bytes are read as a run of four equal
characters and come out as three times U+FFFD. -/
theorem removeRepeatingChars_rewrites_ill_formed :
    removeRepeatingChars [UInt8.ofNat 0xFF] 3 =
      [UInt8.ofNat 0xEF, UInt8.ofNat 0xBF, UInt8.ofNat 0xBD]
    ∧ removeRepeatingChars [UInt8.ofNat 0xFF] 3 ≠ [UInt8.ofNat 0xFF]
    ∧ removeRepeatingChars
        [UInt8.ofNat 0xFF, UInt8.ofNat 0xFE, UInt8.ofNat 0xFD, UInt8.ofNat 0xFC] 3 =
      encodeRunes [runeError, runeError, runeError] := by
  decide

/-- Claim C22, amended. For every text, removeRepeatingChars(text, 3) is the
UTF-8 encoding of the characters of the text, as a range loop reads them (an
ill-formed byte as U+FFFD), with every maximal run of n equal characters
replaced by a run of min(n, 3) of that character; the runs are the maximal
runs: written out they give the characters back, neighbouring runs differ in
their character and no run is empty. -/
theorem removeRepeatingChars_collapses_runs (text : Str) :
    removeRepeatingChars text 3 = encodeRunes (collapseRuns 3 (decodeRunes text))
    ∧ ((runs (decodeRunes text)).map fun r => List.replicate r.2 r.1).flatten = decodeRunes text
    ∧ List.Chain' (fun a b => a.1 ≠ b.1) (runs (decodeRunes text))
    ∧ ∀ r ∈ runs (decodeRunes text), 0 < r.2 := by
  refine ⟨?_, runs_expand _, (runs_maximal _).1, (runs_maximal _).2⟩
  unfold removeRepeatingChars
  by_cases h : len text = 0
  · rw [if_pos h]
    have : text.length = 0 := by simp only [len] at h; omega
    rw [List.length_eq_zero.1 this]
    rfl
  · rw [if_neg h]
    have := removeRepeatingLoop_eq (decodeRunes text) (Char.ofNat 0) 0
    simp only [Nat.cast_zero, List.replicate_zero, List.nil_append, Nat.zero_min,
      List.drop_zero] at this
    rw [this]

/-- A substring of a part of a text is a substring of the text. -/
theorem strContains_of_infix (a m b tok : Str) (h : strContains m tok = true) :
    strContains (a ++ m ++ b) tok = true :=
  strContains_append_left _ _ _ (strContains_append_right _ _ _ h)

/-- Go strings.TrimLeftFunc returns an end of the string. -/
theorem trimLeftFrom_suffix (x : Str) : ∀ k, ∃ p, x = p ++ trimLeftFrom k x := by
  induction x with
  | nil => intro k; exact ⟨[], by cases k <;> rfl⟩
  | cons b t ih =>
    intro k
    cases k with
    | succ k =>
      obtain ⟨p, hp⟩ := ih k
      exact ⟨b :: p, by simp only [trimLeftFrom, List.cons_append]; rw [← hp]⟩
    | zero =>
      simp only [trimLeftFrom]
      split
      · obtain ⟨p, hp⟩ := ih ((decodeRune (b :: t)).2 - 1)
        exact ⟨b :: p, by rw [List.cons_append, ← hp]⟩
      · exact ⟨[], rfl⟩

/-- Go strings.TrimSpace returns a part of the string. -/
theorem strTrimSpace_infix (s : Str) : ∃ a b, s = a ++ strTrimSpace s ++ b := by
  obtain ⟨a, ha⟩ := trimLeftFrom_suffix s 0
  obtain ⟨p, hp⟩ := trimRightFrom_suffix (trimLeftFrom 0 s).reverse 0
  have hv : trimLeftFrom 0 s = strTrimSpace s ++ p.reverse := by
    have := congrArg List.reverse hp
    simpa [strTrimSpace] using this
  exact ⟨a, p.reverse, by rw [List.append_assoc, ← hv, ← ha]⟩

/-- A substring of the trimmed text is a substring of the text. -/
theorem strContains_of_strTrimSpace (s tok : Str) (h : strContains (strTrimSpace s) tok = true) :
    strContains s tok = true := by
  obtain ⟨a, b, hab⟩ := strTrimSpace_infix s
  rw [hab]
  exact strContains_of_infix _ _ _ _ h

/-- One iteration of the marker loop creates no substring. -/
theorem strContains_of_stripMarker (text marker tok : Str)
    (h : strContains (stripMarker text marker) tok = true) : strContains text tok = true := by
  unfold stripMarker at h
  simp only [] at h
  split at h
  · have h2 := strContains_of_strTrimSpace _ _ h
    have hsplit : text = text.take (strIndex text marker + len marker).toNat
        ++ text.drop (strIndex text marker + len marker).toNat := (List.take_append_drop _ _).symm
    rw [hsplit]
    exact strContains_append_right _ _ _ h2
  · exact h

/-- The marker loop creates no substring. -/
theorem strContains_of_foldl_stripMarker (ms : List Str) : ∀ (text tok : Str),
    strContains (ms.foldl stripMarker text) tok = true → strContains text tok = true := by
  induction ms with
  | nil => intro text tok h; exact h
  | cons m ms ih =>
    intro text tok h
    rw [List.foldl_cons] at h
    exact strContains_of_stripMarker _ _ _ (ih _ _ h)

/-- An occurrence in b :: s starts at b or lies in s. -/
theorem strContains_cons (b : UInt8) (s tok : Str) :
    strContains (b :: s) tok = true ↔
      tok.isPrefixOf (b :: s) = true ∨ strContains s tok = true := by
  unfold strContains strIndex
  rw [findSub]
  by_cases hp : tok.isPrefixOf (b :: s) = true
  · simp [hp]
  · rw [if_neg hp]
    cases hf : findSub tok s with
    | none => simp [hp]
    | some i =>
      simp only [Option.map_some', hp, false_or]
      constructor
      · intro _; simp
      · intro _; simp; omega

/-- A text without the bytes of the replacement that starts the result of a
replacement starts the original. -/
theorem isPrefixOf_of_replaceFrom (old new : Str) (hnew : new ≠ []) (s : Str) :
    ∀ p : Str, (∀ x ∈ p, x ∉ new) → p.isPrefixOf (replaceFrom old new 0 s) = true →
      p.isPrefixOf s = true := by
  induction s with
  | nil => intro p _ h; simpa [replaceFrom] using h
  | cons b t ih =>
    intro p hp h
    rcases p with _ | ⟨p0, p⟩
    · rfl
    · rw [replaceFrom] at h
      by_cases ho : old.isPrefixOf (b :: t) = true
      · exfalso
        rw [if_pos ho] at h
        rcases new with _ | ⟨n0, new⟩
        · exact hnew rfl
        · simp only [List.cons_append, List.isPrefixOf, Bool.and_eq_true, beq_iff_eq] at h
          exact hp p0 (List.mem_cons_self _ _) (by rw [h.1]; exact List.mem_cons_self _ _)
      · rw [if_neg ho] at h
        simp only [List.isPrefixOf, Bool.and_eq_true, beq_iff_eq] at h ⊢
        exact ⟨h.1, ih p (fun x hx => hp x (List.mem_cons_of_mem _ hx)) h.2⟩

/-- An occurrence of a token in new ++ r, where the first byte of the token is
not in new, lies in r. -/
theorem strContains_of_append_new (t0 : UInt8) (tok : Str) (new r : Str) (h0 : t0 ∉ new)
    (h : strContains (new ++ r) (t0 :: tok) = true) : strContains r (t0 :: tok) = true := by
  induction new with
  | nil => exact h
  | cons n0 new ih =>
    rw [List.cons_append, strContains_cons] at h
    rcases h with h | h
    · exfalso
      simp only [List.isPrefixOf, Bool.and_eq_true, beq_iff_eq] at h
      exact h0 (by rw [h.1]; exact List.mem_cons_self _ _)
    · exact ih (fun hm => h0 (List.mem_cons_of_mem _ hm)) h

/-- A replacement by a non-empty text creates no occurrence of a token that
shares no byte with the replacement. -/
theorem strContains_of_replaceFrom (old new tok : Str) (hnew : new ≠ []) (htok : tok ≠ [])
    (hdis : ∀ x ∈ tok, x ∉ new) (s : Str) : ∀ k,
    strContains (replaceFrom old new k s) tok = true → strContains s tok = true := by
  induction s with
  | nil => intro k h; cases k <;> simpa [replaceFrom] using h
  | cons b t ih =>
    intro k h
    have hright : strContains t tok = true → strContains (b :: t) tok = true :=
      fun hu => strContains_append_right [b] t tok hu
    cases k with
    | succ k =>
      rw [replaceFrom] at h
      exact hright (ih k h)
    | zero =>
      rw [replaceFrom] at h
      by_cases ho : old.isPrefixOf (b :: t) = true
      · rw [if_pos ho] at h
        rcases tok with _ | ⟨t0, tok⟩
        · exact absurd rfl htok
        · have h2 := strContains_of_append_new t0 tok new _
            (hdis t0 (List.mem_cons_self _ _)) h
          exact hright (ih _ h2)
      · rw [if_neg ho, strContains_cons] at h
        rw [strContains_cons]
        rcases h with h | h
        · left
          rcases tok with _ | ⟨t0, tok⟩
          · rfl
          · simp only [List.isPrefixOf, Bool.and_eq_true, beq_iff_eq] at h ⊢
            exact ⟨h.1, isPrefixOf_of_replaceFrom old new hnew t tok
              (fun x hx => hdis x (List.mem_cons_of_mem _ hx)) h.2⟩
        · right
          exact ih 0 h

/-- Go strings.ReplaceAll with a non-empty replacement creates no occurrence of a
token that shares no byte with the replacement. -/
theorem strContains_of_strReplaceAll (s old new tok : Str) (hnew : new ≠ []) (htok : tok ≠ [])
    (hdis : ∀ x ∈ tok, x ∉ new) (h : strContains (strReplaceAll s old new) tok = true) :
    strContains s tok = true := by
  unfold strReplaceAll at h
  split at h
  · exact h
  · exact strContains_of_replaceFrom old new tok hnew htok hdis s 0 h

/-- The function cleanAIResponse in terms of its token removal. -/
theorem cleanAIResponse_stripTokens (t : Str) :
    cleanAIResponse t =
      if t = [] then []
      else
        strTrimSpace (strReplaceAll (strReplaceAll (strReplaceAll
          (cleanMarkers.foldl stripMarker
            (stripTokens (removeRepeatingChars (strTrimSpace t) 3)))
          (utf8 "\n\n\n") (utf8 "\n\n")) (utf8 "\r\n\r\n\r\n") (utf8 "\r\n\r\n"))
          (utf8 "  ") (utf8 " ")) :=
  rfl

/-- The instruction tokens are not empty and share no byte with the texts that
the last three ReplaceAll calls of cleanAIResponse put in. -/
theorem instructionTokens_bytes : ∀ tok ∈ instructionTokens,
    tok ≠ [] ∧ (∀ x ∈ tok, x ∉ utf8 "\n\n") ∧ (∀ x ∈ tok, x ∉ utf8 "\r\n\r\n")
      ∧ (∀ x ∈ tok, x ∉ utf8 " ") := by
  decide

/-- Counterexample to claim C23 as stated: removing the inner token of
"[IN[INST]ST]" puts the token "[INST]" together, and the single pass does not
look at it again. -/
theorem cleanAIResponse_keeps_nested_token :
    cleanAIResponse (utf8 "[IN[INST]ST]") = utf8 "[INST]"
    ∧ strContains (cleanAIResponse (utf8 "[IN[INST]ST]")) (utf8 "[INST]") = true
    ∧ hasToken (cleanAIResponse (utf8 "[IN[INST]ST]")) = true := by
  decide

/-- Claim C23, amended. The steps of cleanAIResponse after the removal of the
instruction tokens (marker loop, squeezing of newlines and spaces, trimming)
never put a token together: whenever the text left by the four ReplaceAll
calls, each a single pass from left to right over the text trimmed and with its
runs collapsed, contains none of "[INST]", "[/INST]", "<s>", "</s>", neither
does cleanAIResponse(t). -/
theorem cleanAIResponse_token_free (t : Str)
    (h : hasToken (stripTokens (removeRepeatingChars (strTrimSpace t) 3)) = false) :
    hasToken (cleanAIResponse t) = false
    ∧ ∀ tok ∈ instructionTokens, strContains (cleanAIResponse t) tok = false := by
  have key : ∀ tok ∈ instructionTokens, strContains (cleanAIResponse t) tok = false := by
    intro tok hmem
    by_contra hc
    have hc2 : strContains (cleanAIResponse t) tok = true := by simpa using hc
    obtain ⟨hne, h1, h2, h3⟩ := instructionTokens_bytes tok hmem
    have hsrc : strContains (stripTokens (removeRepeatingChars (strTrimSpace t) 3)) tok = true := by
      unfold cleanAIResponse at hc2
      split at hc2
      · exact absurd (ne_nil_of_strContains _ _ hne hc2) (by simp)
      · simp only [] at hc2
        have a1 := strContains_of_strTrimSpace _ _ hc2
        have a2 := strContains_of_strReplaceAll _ _ _ _ (by decide) hne h3 a1
        have a3 := strContains_of_strReplaceAll _ _ _ _ (by decide) hne h2 a2
        have a4 := strContains_of_strReplaceAll _ _ _ _ (by decide) hne h1 a3
        exact strContains_of_foldl_stripMarker _ _ _ a4
    have : hasToken (stripTokens (removeRepeatingChars (strTrimSpace t) 3)) = true := by
      unfold hasToken
      rw [List.any_eq_true]
      exact ⟨tok, hmem, hsrc⟩
    rw [h] at this
    cases this
  refine ⟨?_, key⟩
  unfold hasToken
  rw [List.any_eq_false]
  intro tok hmem
  simp [key tok hmem]

/-- Witness of claim C23, amended: a text with two separate tokens. -/
theorem cleanAIResponse_token_free_witness :
    hasToken (cleanAIResponse (utf8 "<s>[INST] Привет [/INST]</s>")) = false
    ∧ ∀ tok ∈ instructionTokens,
        strContains (cleanAIResponse (utf8 "<s>[INST] Привет [/INST]</s>")) tok = false :=
  cleanAIResponse_token_free (utf8 "<s>[INST] Привет [/INST]</s>") (by decide)

/-- Go strings.Index never returns less than -1. -/
theorem strIndex_ge (s p : Str) : -1 ≤ strIndex s p := by
  unfold strIndex
  cases findSub p s with
  | none => exact le_refl _
  | some i => simp only []; omega

/-- Go strings.Index returns 0 for a string that starts with the pattern. -/
theorem strIndex_at_start (p x : Str) : strIndex (p ++ x) p = 0 := by
  have hp := isPrefixOf_append p x
  unfold strIndex
  rcases h : p ++ x with _ | ⟨b, t⟩
  · rw [h] at hp
    simp [findSub, hp]
  · rw [h] at hp
    simp [findSub, hp]

/-- Go strings.Index returns 0 only for a string that starts with the pattern. -/
theorem isPrefixOf_of_strIndex_zero (s p : Str) (h : strIndex s p = 0) :
    p.isPrefixOf s = true := by
  by_contra hp
  unfold strIndex at h
  rcases s with _ | ⟨b, t⟩
  · simp [findSub, hp] at h
  · rw [findSub, if_neg hp] at h
    cases hf : findSub p t with
    | none => rw [hf] at h; simp at h
    | some i => rw [hf] at h; simp at h; omega

/-- The bytes of the four patterns of extractTextFromExcelXML. -/
theorem excelPatterns_bytes :
    utf8 "<t>" = [UInt8.ofNat 0x3C, UInt8.ofNat 0x74, UInt8.ofNat 0x3E]
    ∧ utf8 "</t>" = [UInt8.ofNat 0x3C, UInt8.ofNat 0x2F, UInt8.ofNat 0x74, UInt8.ofNat 0x3E]
    ∧ utf8 "<v>" = [UInt8.ofNat 0x3C, UInt8.ofNat 0x76, UInt8.ofNat 0x3E]
    ∧ utf8 "</v>" = [UInt8.ofNat 0x3C, UInt8.ofNat 0x2F, UInt8.ofNat 0x76, UInt8.ofNat 0x3E] := by
  decide

/-- The inner loop of extractTextFromExcelXML keeps a tag found at index 0. -/
theorem nearestTag_keep (rest : Str) (ps : List Str) : ∀ (i : Nat) (t : Int),
    nearestTag rest i ps (0, t) = (0, t) := by
  induction ps with
  | nil => intro i t; rfl
  | cons p more ih =>
    intro i t
    have hc : ¬ (strIndex rest p ≠ -1 ∧ ((0 : Int) = -1 ∨ strIndex rest p < 0)) := by
      rintro ⟨h1, h2 | h2⟩
      · exact absurd h2 (by decide)
      · have := strIndex_ge rest p
        omega
    rw [nearestTag, if_neg hc]
    exact ih _ _

/-- The inner loop of extractTextFromExcelXML finds the first pattern that
matches at index 0 when no earlier pattern does. -/
theorem nearestTag_first_zero (rest q : Str) (more : List Str) (hq : strIndex rest q = 0)
    (ps : List Str) : ∀ (i : Nat) (n t : Int), (n = -1 ∨ 0 < n) →
    (∀ p ∈ ps, strIndex rest p ≠ 0) →
    nearestTag rest i (ps ++ q :: more) (n, t) = (0, ((i + ps.length : Nat) : Int)) := by
  induction ps with
  | nil =>
    intro i n t hn _
    have hc : strIndex rest q ≠ -1 ∧ (n = -1 ∨ strIndex rest q < n) := by
      rw [hq]
      exact ⟨by decide, hn⟩
    rw [List.nil_append, nearestTag, if_pos hc, hq]
    exact nearestTag_keep rest more _ _
  | cons p ps ih =>
    intro i n t hn hps
    have hp0 : strIndex rest p ≠ 0 := hps p (List.mem_cons_self _ _)
    have hge := strIndex_ge rest p
    have hrest : ∀ p2 ∈ ps, strIndex rest p2 ≠ 0 := fun p2 h2 => hps p2 (List.mem_cons_of_mem _ h2)
    have hlen : i + (p :: ps).length = i + 1 + ps.length := by
      simp only [List.length_cons]; omega
    rw [List.cons_append, nearestTag, hlen]
    by_cases hc : strIndex rest p ≠ -1 ∧ (n = -1 ∨ strIndex rest p < n)
    · rw [if_pos hc]
      exact ih (i + 1) _ _ (Or.inr (by omega)) hrest
    · rw [if_neg hc]
      exact ih (i + 1) _ _ hn hrest

/-- The inner loop of extractTextFromExcelXML at the start of a text element. -/
theorem nearestTag_text (x : Str) :
    nearestTag (utf8 "<t>" ++ x) 0 excelPatterns (-1, -1) = (0, 0) :=
  nearestTag_first_zero _ (utf8 "<t>") [utf8 "</t>", utf8 "<v>", utf8 "</v>"]
    (strIndex_at_start _ x) [] 0 (-1) (-1) (Or.inl rfl) (fun _ h => by cases h)

/-- The inner loop of extractTextFromExcelXML at the start of a value element. -/
theorem nearestTag_value (x : Str) :
    nearestTag (utf8 "<v>" ++ x) 0 excelPatterns (-1, -1) = (0, 2) := by
  have n0 : strIndex (utf8 "<v>" ++ x) (utf8 "<t>") ≠ 0 := by
    intro e
    have hp := isPrefixOf_of_strIndex_zero _ _ e
    rw [excelPatterns_bytes.1, excelPatterns_bytes.2.2.1] at hp
    simp only [List.cons_append, List.isPrefixOf, Bool.and_eq_true, beq_iff_eq] at hp
    exact absurd hp.2.1 (by decide)
  have n1 : strIndex (utf8 "<v>" ++ x) (utf8 "</t>") ≠ 0 := by
    intro e
    have hp := isPrefixOf_of_strIndex_zero _ _ e
    rw [excelPatterns_bytes.2.1, excelPatterns_bytes.2.2.1] at hp
    simp only [List.cons_append, List.isPrefixOf, Bool.and_eq_true, beq_iff_eq] at hp
    exact absurd hp.2.1 (by decide)
  exact nearestTag_first_zero _ (utf8 "<v>") [utf8 "</v>"]
    (strIndex_at_start _ x) [utf8 "<t>", utf8 "</t>"] 0 (-1) (-1) (Or.inl rfl)
    (fun p h => by
      rcases List.mem_cons.1 h with e | h
      · rw [e]; exact n0
      · rcases List.mem_cons.1 h with e | h
        · rw [e]; exact n1
        · cases h)

/-- A closing tag of four bytes whose first byte does not occur again in it is
found right after a fragment that does not contain it. -/
theorem findSub_close (c0 c1 c2 c3 : UInt8) (h1 : c0 ≠ c1) (h2 : c0 ≠ c2) (h3 : c0 ≠ c3)
    (R : Str) : ∀ f : Str, findSub [c0, c1, c2, c3] f = none →
      findSub [c0, c1, c2, c3] (f ++ [c0, c1, c2, c3] ++ R) = some f.length := by
  intro f
  induction f with
  | nil =>
    intro _
    simp [findSub, List.isPrefixOf]
  | cons b f ih =>
    intro hnone
    rw [findSub] at hnone
    by_cases hp : List.isPrefixOf [c0, c1, c2, c3] (b :: f) = true
    · rw [if_pos hp] at hnone
      cases hnone
    · rw [if_neg hp] at hnone
      have hf : findSub [c0, c1, c2, c3] f = none := by
        cases hx : findSub [c0, c1, c2, c3] f with
        | none => rfl
        | some i => rw [hx] at hnone; cases hnone
      have hnp : ¬ List.isPrefixOf [c0, c1, c2, c3] (b :: f ++ [c0, c1, c2, c3] ++ R) = true := by
        intro hq
        rcases f with _ | ⟨x, _ | ⟨y, _ | ⟨z, r⟩⟩⟩
        · simp only [List.cons_append, List.nil_append, List.isPrefixOf, Bool.and_eq_true,
            beq_iff_eq] at hq
          exact h1 hq.2.1.symm
        · simp only [List.cons_append, List.nil_append, List.isPrefixOf, Bool.and_eq_true,
            beq_iff_eq] at hq
          exact h2 hq.2.2.1.symm
        · simp only [List.cons_append, List.nil_append, List.isPrefixOf, Bool.and_eq_true,
            beq_iff_eq] at hq
          exact h3 hq.2.2.2.1.symm
        · apply hp
          simp only [List.cons_append, List.isPrefixOf, Bool.and_eq_true, beq_iff_eq] at hq ⊢
          exact ⟨hq.1, hq.2.1, hq.2.2.1, hq.2.2.2.1, trivial⟩
      rw [List.cons_append, List.cons_append, findSub]
      rw [List.cons_append, List.cons_append] at hnp
      rw [if_neg hnp, ih hf]
      rfl

/-- The closing tag is found right after a fragment that does not contain it. -/
theorem strIndex_close (close f R : Str)
    (hc : close = utf8 "</t>" ∨ close = utf8 "</v>") (hf : strContains f close = false) :
    strIndex (f ++ close ++ R) close = (f.length : Int) := by
  have hnone := findSub_of_not_contains f close hf
  unfold strIndex
  rcases hc with hc | hc
  · rw [hc, excelPatterns_bytes.2.1] at hnone ⊢
    rw [findSub_close _ _ _ _ (by decide) (by decide) (by decide) R f hnone]
  · rw [hc, excelPatterns_bytes.2.2.2] at hnone ⊢
    rw [findSub_close _ _ _ _ (by decide) (by decide) (by decide) R f hnone]

/-- One iteration of the loop of extractTextFromExcelXML at the start of a text
element whose closing tag is found at index c after the opening tag. -/
theorem excelScan_text (fuel : Nat) (x : Str) (c : Nat)
    (hc : strIndex x (utf8 "</t>") = (c : Int)) :
    excelScan (fuel + 1) (utf8 "<t>" ++ x) =
      (if strTrimSpace (decodeEntities (x.take c)) ≠ [] then
          strTrimSpace (decodeEntities (x.take c)) ++ utf8 " | "
        else [])
        ++ excelScan fuel (x.drop (c + 4)) := by
  have hne : ¬ (utf8 "<t>" ++ x = []) := by
    rw [excelPatterns_bytes.1]; simp
  have h0 : ¬ ((0 : Int) = -1) := by decide
  have h1 : ¬ ((c : Int) = -1) := by omega
  have hopen : excelPatterns.getD (0 : Int).toNat [] = utf8 "<t>" := rfl
  have hclose : excelPatterns.getD ((0 : Int) + 1).toNat [] = utf8 "</t>" := rfl
  have hdrop : (utf8 "<t>" ++ x).drop ((0 : Int) + len (utf8 "<t>")).toNat = x := by
    have : ((0 : Int) + len (utf8 "<t>")).toNat = (utf8 "<t>").length := by
      simp only [len]; omega
    rw [this, List.drop_left]
  have t3 : ((c : Int) + len (utf8 "</t>")).toNat = c + 4 := by
    have : len (utf8 "</t>") = 4 := by decide
    rw [this]; omega
  rw [excelScan]
  simp only [hne, if_false, nearestTag_text, h0, hopen, hclose, hdrop, true_or, if_true, hc,
    h1, ne_eq, not_false_eq_true, Int.toNat_ofNat, t3]

/-- One iteration of the loop of extractTextFromExcelXML at the start of a value
element whose closing tag is found at index c after the opening tag. -/
theorem excelScan_value (fuel : Nat) (x : Str) (c : Nat)
    (hc : strIndex x (utf8 "</v>") = (c : Int)) :
    excelScan (fuel + 1) (utf8 "<v>" ++ x) =
      (if strTrimSpace (decodeEntities (x.take c)) ≠ [] then
          strTrimSpace (decodeEntities (x.take c)) ++ utf8 " | "
        else [])
        ++ excelScan fuel (x.drop (c + 4)) := by
  have hne : ¬ (utf8 "<v>" ++ x = []) := by
    rw [excelPatterns_bytes.2.2.1]; simp
  have h0 : ¬ ((0 : Int) = -1) := by decide
  have h1 : ¬ ((c : Int) = -1) := by omega
  have hopen : excelPatterns.getD (2 : Int).toNat [] = utf8 "<v>" := rfl
  have hclose : excelPatterns.getD ((2 : Int) + 1).toNat [] = utf8 "</v>" := rfl
  have hdrop : (utf8 "<v>" ++ x).drop ((0 : Int) + len (utf8 "<v>")).toNat = x := by
    have : ((0 : Int) + len (utf8 "<v>")).toNat = (utf8 "<v>").length := by
      simp only [len]; omega
    rw [this, List.drop_left]
  have t3 : ((c : Int) + len (utf8 "</v>")).toNat = c + 4 := by
    have : len (utf8 "</v>") = 4 := by decide
    rw [this]; omega
  rw [excelScan]
  simp only [hne, if_false, nearestTag_value, h0, hopen, hclose, hdrop, or_true, if_true, hc,
    h1, ne_eq, not_false_eq_true, Int.toNat_ofNat, t3]

/-- One iteration of the loop of extractTextFromExcelXML over a paired element
whose fragment contains no tag text: the trimmed decoded fragment is written, if
it is not blank, and the scan goes on behind the element. -/
theorem excelScan_element (fuel : Nat) (e : Bool × Str) (R : Str) (h : noTagText e.2 = true) :
    excelScan (fuel + 1) (renderElement e ++ R) =
      (if strTrimSpace (decodeEntities e.2) ≠ [] then
          strTrimSpace (decodeEntities e.2) ++ utf8 " | "
        else [])
        ++ excelScan fuel R := by
  obtain ⟨kind, f⟩ := e
  simp only [noTagText, excelPatterns, List.all_cons, List.all_nil, Bool.and_true,
    Bool.and_eq_true, Bool.not_eq_true'] at h
  obtain ⟨_, ht, _, hv⟩ := h
  cases kind with
  | true =>
    have hidx := strIndex_close (utf8 "</t>") f R (Or.inl rfl) ht
    have hshape : renderElement (true, f) ++ R = utf8 "<t>" ++ (f ++ utf8 "</t>" ++ R) := by
      simp [renderElement, List.append_assoc]
    rw [hshape, excelScan_text fuel _ f.length hidx]
    have htake : (f ++ utf8 "</t>" ++ R).take f.length = f := by
      rw [List.append_assoc, List.take_left]
    have hdrop : (f ++ utf8 "</t>" ++ R).drop (f.length + 4) = R := by
      have : f.length + 4 = (f ++ utf8 "</t>").length := by
        rw [List.length_append]; rfl
      rw [this, List.drop_left]
    rw [htake, hdrop]
  | false =>
    have hidx := strIndex_close (utf8 "</v>") f R (Or.inr rfl) hv
    have hshape : renderElement (false, f) ++ R = utf8 "<v>" ++ (f ++ utf8 "</v>" ++ R) := by
      simp [renderElement, List.append_assoc]
    rw [hshape, excelScan_value fuel _ f.length hidx]
    have htake : (f ++ utf8 "</v>" ++ R).take f.length = f := by
      rw [List.append_assoc, List.take_left]
    have hdrop : (f ++ utf8 "</v>" ++ R).drop (f.length + 4) = R := by
      have : f.length + 4 = (f ++ utf8 "</v>").length := by
        rw [List.length_append]; rfl
      rw [this, List.drop_left]
    rw [htake, hdrop]

/-- The loop of extractTextFromExcelXML over a sequence of paired elements, with
enough iterations allowed: every non-blank cell text followed by the separator. -/
theorem excelScan_elements (es : List (Bool × Str)) : ∀ fuel, es.length < fuel →
    (∀ e ∈ es, noTagText e.2 = true) →
    excelScan fuel (renderElements es) =
      ((cellTexts es).map fun g => g ++ utf8 " | ").flatten := by
  induction es with
  | nil =>
    intro fuel hfuel _
    obtain ⟨n, rfl⟩ : ∃ n, fuel = n + 1 := ⟨fuel - 1, by simp at hfuel; omega⟩
    simp [excelScan, renderElements, cellTexts]
  | cons e rest ih =>
    intro fuel hfuel h
    obtain ⟨n, rfl⟩ : ∃ n, fuel = n + 1 := ⟨fuel - 1, by omega⟩
    have hrest : ∀ e2 ∈ rest, noTagText e2.2 = true :=
      fun e2 h2 => h e2 (List.mem_cons_of_mem _ h2)
    have hn : rest.length < n := by simp only [List.length_cons] at hfuel; omega
    have hshape : renderElements (e :: rest) = renderElement e ++ renderElements rest := by
      simp [renderElements]
    rw [hshape, excelScan_element n e _ (h e (List.mem_cons_self _ _)), ih n hn hrest]
    by_cases hb : strTrimSpace (decodeEntities e.2) = []
    · simp [cellTexts, hb]
    · simp [cellTexts, hb]

/-- Every paired element is at least one byte long. -/
theorem length_le_renderElements (es : List (Bool × Str)) :
    es.length ≤ (renderElements es).length := by
  induction es with
  | nil => exact Nat.le_refl _
  | cons e rest ih =>
    have hshape : renderElements (e :: rest) = renderElement e ++ renderElements rest := by
      simp [renderElements]
    have he : 1 ≤ (renderElement e).length := by
      obtain ⟨kind, f⟩ := e
      cases kind
      · simp only [renderElement, Bool.false_eq_true, if_false, List.length_append,
          excelPatterns_bytes.2.2.1, List.length_cons]
        omega
      · simp only [renderElement, if_true, List.length_append, excelPatterns_bytes.1,
          List.length_cons]
        omega
    rw [hshape, List.length_append, List.length_cons]
    omega

/-- Texts each followed by the separator are the joined texts followed by one
separator. -/
theorem flatten_sep_eq_strJoin (sep : Str) : ∀ (gs : List Str), gs ≠ [] →
    (gs.map fun g => g ++ sep).flatten = strJoin gs sep ++ sep := by
  intro gs
  induction gs with
  | nil => intro h; exact absurd rfl h
  | cons g rest ih =>
    intro _
    rcases rest with _ | ⟨g2, rest⟩
    · simp [strJoin]
    · have := ih (List.cons_ne_nil _ _)
      rw [List.map_cons, List.flatten_cons, this]
      simp [strJoin, List.append_assoc]

/-- Go strings.TrimSuffix removes a suffix that is present. -/
theorem strTrimEnd_append (x sep : Str) : strTrimEnd (x ++ sep) sep = x := by
  unfold strTrimEnd strEndsWith
  rw [List.reverse_append, isPrefixOf_append, if_pos rfl, List.length_append,
    Nat.add_sub_cancel, List.take_left]

/-- Claim C26. For every content that is a sequence of paired elements
"<t>" f "</t>" or "<v>" f "</v>" whose fragments f contain no tag text,
extractTextFromExcelXML returns the trimmed, entity-decoded, non-blank fragments
in document order joined by the separator " | ", without a separator before the
first or after the last of them. -/
theorem extractTextFromExcelXML_elements (es : List (Bool × Str))
    (h : ∀ e ∈ es, noTagText e.2 = true) :
    extractTextFromExcelXML (renderElements es) = strJoin (cellTexts es) (utf8 " | ") := by
  have hfuel : es.length < (renderElements es).length + 1 := by
    have := length_le_renderElements es
    omega
  unfold extractTextFromExcelXML
  rw [excelScan_elements es _ hfuel h]
  by_cases hc : cellTexts es = []
  · rw [hc]
    rfl
  · rw [flatten_sep_eq_strJoin _ _ hc, strTrimEnd_append]

set_option maxRecDepth 100000 in
/-- Witness of claim C26: four elements, one of them blank. -/
theorem extractTextFromExcelXML_elements_witness :
    renderElements sampleCells = utf8 "<t>a</t><v> 1 </v><t> </t><v>b&amp;c</v>"
    ∧ strJoin (cellTexts sampleCells) (utf8 " | ") = utf8 "a | 1 | b&c"
    ∧ extractTextFromExcelXML (renderElements sampleCells) =
        strJoin (cellTexts sampleCells) (utf8 " | ") :=
  ⟨by decide, by decide, extractTextFromExcelXML_elements sampleCells (by decide)⟩

end AlfaHack
